import Mathlib

/-!
# go-minio-crud: the MinIO service layer

A shallow embedding of `pkg/minio/minio_service.go` (`CreateOne`, `CreateMany`,
`GetOne`, `GetMany`, `DeleteOne`, `DeleteMany`).

* The object store (`*minio.Client`) is an arbitrary deterministic state machine
  `Gateway σ`: every call takes the store state and whether the context passed to
  the call is already cancelled, and returns the new store state and the outcome.
* Go `error` values are modelled by their message: `Option String`, `none` being `nil`.
* Go slices that may be `nil` are modelled by `Option (List α)`, `none` being `nil`.
* `time.Duration` is a signed 64-bit count of nanoseconds with wrap-around.
* Goroutines are modelled by explicit program counters; one transition of the
  system is one atomic action of one goroutine, and a scheduler picks the next
  action among the enabled ones.
* Every gateway call, channel report and cancellation is appended to a ghost trace.
-/

namespace MinioCrud

/-! ## Data model -/

/-- Modelled from the spec: `helpers.FileDataType` (package `pkg/minio/helpers` is not
part of the sources); a named byte payload, fields as used by the service. -/
structure FileDataType where
  FileName : String
  Data : List Nat
  deriving DecidableEq, Repr

/-- Modelled from the spec: `helpers.CreatedObject` (package `pkg/minio/helpers` is not
part of the sources); an identifier together with a retrieval link. -/
structure CreatedObject where
  ObjectID : String
  Link : String
  deriving DecidableEq, Repr

/-- Modelled from the spec: `helpers.OperationError` (package `pkg/minio/helpers` is not
part of the sources); an item key together with the error of that item. -/
structure OperationError where
  ObjectID : String
  Error : String
  deriving DecidableEq, Repr

/-- The structure `config.Config`; the service reads `BucketName` and
`FileTimeExpiration` ("время в часах", a number of hours). Left out of a literal, a
field takes the default `LoadConfig` gives it. -/
structure Config where
  Port : String := "8080"
  MinioEndpoint : String := "localhost:9000"
  BucketName : String
  MinioRootUser : String := "root"
  MinioRootPassword : String := "minio_password"
  MinioUseSSL : Bool := false
  FileTimeExpiration : Int
  deriving DecidableEq, Repr

/-! ## Durations -/

/-- Two's complement reduction of an integer to the `int64` range. -/
def wrap64 (x : Int) : Int := (x + 2 ^ 63) % 2 ^ 64 - 2 ^ 63

/-- The constant `time.Second`, in nanoseconds. -/
def timeSecond : Int := 1000000000

/-- The constant `time.Hour`, in nanoseconds. -/
def timeHour : Int := 3600000000000

/-- The expression `time.Hour*time.Duration(config.AppConfig.FileTimeExpiration)`. -/
def createExpiry (cfg : Config) : Int := wrap64 (timeHour * wrap64 cfg.FileTimeExpiration)

/-- The constant expression `time.Second*24*60*60`. -/
def getExpiry : Int := timeSecond * 24 * 60 * 60

/-- The value `int(time.Second*60*24)` that `LoadConfig` uses as default expiration. -/
def defaultFileTimeExpiration : Int := timeSecond * 60 * 24

/-! ## The storage gateway and the ghost trace -/

/-- Which context a gateway call was given: `context.Background()` or the
cancellable context of the running batch. -/
inductive Ctx where
  | background
  | batch
  deriving DecidableEq, Repr

/-- Outcome of `PresignedGetObject`: a URL or an error message. -/
inductive Presigned where
  | url (u : String)
  | fail (err : String)
  deriving DecidableEq, Repr

/-- The three primitives of the object store used by the service. The `Bool`
argument tells whether the context handed to the call is already done. -/
structure Gateway (σ : Type) where
  PutObject : σ → Bool → String → String → List Nat → String → σ × Option String
  PresignedGetObject : σ → Bool → String → String → Int → σ × Presigned
  RemoveObject : σ → Bool → String → String → σ × Option String

/-- Ghost trace entries. -/
inductive Event where
  | putObject (ctx : Ctx) (ctxDone : Bool) (objectID : String) (err : Option String)
  | presignedGetObject (ctx : Ctx) (ctxDone : Bool) (objectID : String) (expires : Int)
      (res : Presigned)
  | removeObject (ctx : Ctx) (ctxDone : Bool) (objectID : String) (err : Option String)
  | errReported (objectID : String) (err : String) (captured : Bool)
  | urlReported (objectID : String) (u : String) (sent : Bool)
  | cancel
  | unitDone (objectID : String)
  deriving DecidableEq, Repr

/-- Everything outside the service: configuration, store, `uuid.New().String()` as
the stream of its successive values, and `http.DetectContentType`. -/
structure Env (σ : Type) where
  cfg : Config
  mc : Gateway σ
  uuidNew : Nat → String
  DetectContentType : List Nat → String

/-- The mutable outside world: store state, ghost trace, number of identifiers drawn. -/
structure World (σ : Type) where
  gw : σ
  log : List Event
  uuids : Nat

/-- A fresh world over a store state. -/
def World.init {σ : Type} (g : σ) : World σ := { gw := g, log := [], uuids := 0 }

/-- The call `m.mc.PutObject(ctx, config.AppConfig.BucketName, objectID, ...)`. -/
def callPut {σ : Type} (env : Env σ) (w : World σ) (ctx : Ctx) (ctxDone : Bool)
    (objectID : String) (data : List Nat) : World σ × Option String :=
  let r := env.mc.PutObject w.gw ctxDone env.cfg.BucketName objectID data
    (env.DetectContentType data)
  ({ w with gw := r.1, log := w.log ++ [Event.putObject ctx ctxDone objectID r.2] }, r.2)

/-- The call `m.mc.PresignedGetObject(ctx, config.AppConfig.BucketName, objectID, expires, nil)`. -/
def callPresign {σ : Type} (env : Env σ) (w : World σ) (ctx : Ctx) (ctxDone : Bool)
    (objectID : String) (expires : Int) : World σ × Presigned :=
  let r := env.mc.PresignedGetObject w.gw ctxDone env.cfg.BucketName objectID expires
  ({ w with gw := r.1,
            log := w.log ++ [Event.presignedGetObject ctx ctxDone objectID expires r.2] }, r.2)

/-- The call `m.mc.RemoveObject(ctx, config.AppConfig.BucketName, objectID, ...)`. -/
def callRemove {σ : Type} (env : Env σ) (w : World σ) (ctx : Ctx) (ctxDone : Bool)
    (objectID : String) : World σ × Option String :=
  let r := env.mc.RemoveObject w.gw ctxDone env.cfg.BucketName objectID
  ({ w with gw := r.1, log := w.log ++ [Event.removeObject ctx ctxDone objectID r.2] }, r.2)

/-- The call `uuid.New().String()`. -/
def drawUuid {σ : Type} (env : Env σ) (w : World σ) : World σ × String :=
  ({ w with uuids := w.uuids + 1 }, env.uuidNew w.uuids)

/-! ## Single-item operations -/

/-- `CreateOne`: draw an identifier, put the bytes under it, presign a link for it. -/
def CreateOne {σ : Type} (env : Env σ) (w : World σ) (file : FileDataType) :
    World σ × Option CreatedObject × Option String :=
  let (w1, objectID) := drawUuid env w
  match callPut env w1 Ctx.background false objectID file.Data with
  | (w2, some err) =>
    (w2, none, some ("ошибка при создании объекта " ++ file.FileName ++ ": " ++ err))
  | (w2, none) =>
    match callPresign env w2 Ctx.background false objectID (createExpiry env.cfg) with
    | (w3, Presigned.fail err) =>
      (w3, none, some ("ошибка при создании URL для объекта " ++ file.FileName ++ ": " ++ err))
    | (w3, Presigned.url u) =>
      (w3, some { ObjectID := objectID, Link := u }, none)

/-- `GetOne`: presign a link for an identifier, for `time.Second*24*60*60`. -/
def GetOne {σ : Type} (env : Env σ) (w : World σ) (objectID : String) :
    World σ × String × Option String :=
  match callPresign env w Ctx.background false objectID getExpiry with
  | (w1, Presigned.fail err) =>
    (w1, "", some ("ошибка при получении URL для объекта " ++ objectID ++ ": " ++ err))
  | (w1, Presigned.url u) => (w1, u, none)

/-- `DeleteOne`: remove an identifier from the bucket. -/
def DeleteOne {σ : Type} (env : Env σ) (w : World σ) (objectID : String) :
    World σ × Option String :=
  match callRemove env w Ctx.background false objectID with
  | (w1, some err) => (w1, some err)
  | (w1, none) => (w1, none)

/-! ## Scheduling -/

/-- One scheduling decision: the successor number `n` (modulo the number of
enabled actions) is taken; with nothing enabled the state stays as it is. -/
def pick {S : Type} (next : S → List S) (n : Nat) (s : S) : S :=
  (next s).getD (n % (next s).length) s

/-- Run `fuel` scheduling decisions, the `k`-th decision being `sched k`. -/
def exec {S : Type} (next : S → List S) (sched : Nat → Nat) : Nat → S → S
  | 0, s => s
  | fuel + 1, s => exec next (fun n => sched (n + 1)) fuel (pick next (sched 0) s)

/-- Program counter of the goroutine that waits for the units and closes the channels. -/
inductive CloserPc where
  | notStarted
  | atWait
  | atCloseErr
  | finished
  deriving DecidableEq, Repr

/-- The format verb `%v` applied to a `[]error`. -/
def fmtErrs (errs : List String) : String := "[" ++ " ".intercalate errs ++ "]"

/-- Go `append` on a slice that may be `nil`. -/
def goAppend {α : Type} (xs : Option (List α)) (x : α) : Option (List α) :=
  some (xs.getD [] ++ [x])

/-- Go `len` on a slice that may be `nil`. -/
def goLen {α : Type} (xs : Option (List α)) : Nat := (xs.getD []).length

/-! ## CreateMany -/

/-- Program counter of one unit of `CreateMany` (the goroutine of lines 72-106). -/
inductive CMPc where
  | notStarted
  | atPut
  | atPresign
  | atErrSelect (err : String)
  | atCancel
  | atUrlSelect (u : String)
  | finished
  deriving DecidableEq, Repr

/-- One unit of `CreateMany`: its arguments and its program counter. -/
structure CMWorker where
  objectID : String
  file : FileDataType
  pc : CMPc
  deriving DecidableEq, Repr

/-- Program counter of the calling goroutine of `CreateMany`. -/
inductive CMMain where
  | spawning (k : Nat)
  | collecting
  | atErrRecv
  | returned (objects : Option (List CreatedObject)) (err : Option String)
  deriving DecidableEq, Repr

/-- The state of a running `CreateMany`. -/
structure CMState (σ : Type) where
  world : World σ
  workers : List CMWorker
  wg : Nat
  cancelled : Bool
  urlCh : List String
  urlClosed : Bool
  errCh : List String
  errClosed : Bool
  closer : CloserPc
  main : CMMain
  objects : List CreatedObject

/-- Capacity of `urlCh`: `len(data)`. -/
def CMState.urlCap {σ : Type} (s : CMState σ) : Nat := s.workers.length

/-- Capacity of `errCh`. -/
def cmErrCap : Nat := 1

/-- Entry of `CreateMany`; `data` lists the map in the order the `range` visits it. -/
def cmInit {σ : Type} (g : σ) (data : List (String × FileDataType)) : CMState σ :=
  { world := World.init g
    workers := data.map (fun p => { objectID := p.1, file := p.2, pc := CMPc.notStarted })
    wg := 0
    cancelled := false
    urlCh := []
    urlClosed := false
    errCh := []
    errClosed := false
    closer := CloserPc.notStarted
    main := CMMain.spawning 0
    objects := [] }

/-- The unit finishes: `return` with the deferred `wg.Done()`. -/
def cmFinish {σ : Type} (s : CMState σ) (i : Nat) (w : CMWorker) : CMState σ :=
  { s with workers := s.workers.set i { w with pc := CMPc.finished }
           wg := s.wg - 1
           world := { s.world with log := s.world.log ++ [Event.unitDone w.objectID] } }

/-- Append an entry to the ghost trace. -/
def cmLog {σ : Type} (s : CMState σ) (e : Event) : CMState σ :=
  { s with world := { s.world with log := s.world.log ++ [e] } }

/-- The actions unit `i` of `CreateMany` can take next. -/
def cmWorkerStep {σ : Type} (env : Env σ) (s : CMState σ) (i : Nat) : List (CMState σ) :=
  match s.workers[i]? with
  | none => []
  | some w =>
    match w.pc with
    | CMPc.notStarted => []
    | CMPc.atPut =>
      match callPut env s.world Ctx.batch s.cancelled w.objectID w.file.Data with
      | (w1, some err) =>
        [{ s with world := w1, workers := s.workers.set i { w with pc := CMPc.atErrSelect err } }]
      | (w1, none) =>
        [{ s with world := w1, workers := s.workers.set i { w with pc := CMPc.atPresign } }]
    | CMPc.atPresign =>
      match callPresign env s.world Ctx.batch s.cancelled w.objectID (createExpiry env.cfg) with
      | (w1, Presigned.fail err) =>
        [{ s with world := w1, workers := s.workers.set i { w with pc := CMPc.atErrSelect err } }]
      | (w1, Presigned.url u) =>
        [{ s with world := w1, workers := s.workers.set i { w with pc := CMPc.atUrlSelect u } }]
    | CMPc.atErrSelect err =>
      if s.errCh.length < cmErrCap then
        [{ cmLog s (Event.errReported w.objectID err true) with
            errCh := s.errCh ++ [err]
            workers := s.workers.set i { w with pc := CMPc.atCancel } }]
      else
        [cmFinish (cmLog s (Event.errReported w.objectID err false)) i w]
    | CMPc.atCancel =>
      [cmFinish { cmLog s Event.cancel with cancelled := true } i w]
    | CMPc.atUrlSelect u =>
      (if s.urlCh.length < s.urlCap then
        [cmFinish { cmLog s (Event.urlReported w.objectID u true) with urlCh := s.urlCh ++ [u] } i w]
      else []) ++
      (if s.cancelled then
        [cmFinish (cmLog s (Event.urlReported w.objectID u false)) i w]
      else [])
    | CMPc.finished => []

/-- The action the closing goroutine of `CreateMany` can take next. -/
def cmCloserStep {σ : Type} (s : CMState σ) : List (CMState σ) :=
  match s.closer with
  | CloserPc.notStarted => []
  | CloserPc.atWait =>
    if s.wg = 0 then [{ s with urlClosed := true, closer := CloserPc.atCloseErr }] else []
  | CloserPc.atCloseErr => [{ s with errClosed := true, closer := CloserPc.finished }]
  | CloserPc.finished => []

/-- The action the calling goroutine of `CreateMany` can take next. -/
def cmMainStep {σ : Type} (env : Env σ) (s : CMState σ) : List (CMState σ) :=
  match s.main with
  | CMMain.spawning k =>
    match s.workers[k]? with
    | some w =>
      [{ s with wg := s.wg + 1
                workers := s.workers.set k { w with pc := CMPc.atPut }
                main := CMMain.spawning (k + 1) }]
    | none => [{ s with closer := CloserPc.atWait, main := CMMain.collecting }]
  | CMMain.collecting =>
    match s.urlCh with
    | u :: rest =>
      match drawUuid env s.world with
      | (w1, objectID) =>
        [{ s with world := w1, urlCh := rest
                  objects := s.objects ++ [{ ObjectID := objectID, Link := u }] }]
    | [] => if s.urlClosed then [{ s with main := CMMain.atErrRecv }] else []
  | CMMain.atErrRecv =>
    match s.errCh with
    | err :: rest =>
      [{ cmLog s Event.cancel with
          errCh := rest, cancelled := true
          main := CMMain.returned none (some ("ошибка при создании объектов: " ++ err)) }]
    | [] =>
      if s.errClosed then
        [{ cmLog s Event.cancel with
            cancelled := true, main := CMMain.returned (some s.objects) none }]
      else []
  | CMMain.returned _ _ => []

/-- All actions enabled in a state of `CreateMany`. -/
def cmNext {σ : Type} (env : Env σ) (s : CMState σ) : List (CMState σ) :=
  cmMainStep env s ++ cmCloserStep s ++
    (List.range s.workers.length).flatMap (cmWorkerStep env s)

/-- Number of scheduling decisions that suffices for a batch of `n` items. -/
def cmFuel (n : Nat) : Nat := 7 * n + 8

/-- `CreateMany` under the scheduler `sched`: the state in which the run ends. -/
def CreateManyRun {σ : Type} (env : Env σ) (g : σ) (data : List (String × FileDataType))
    (sched : Nat → Nat) : CMState σ :=
  exec (cmNext env) sched (cmFuel data.length) (cmInit g data)

/-- What `CreateMany` returns, once it has returned. -/
def CMState.result {σ : Type} (s : CMState σ) :
    Option (Option (List CreatedObject) × Option String) :=
  match s.main with
  | CMMain.returned objs err => some (objs, err)
  | _ => none

/-- `CreateMany(data)` under the scheduler `sched`. -/
def CreateMany {σ : Type} (env : Env σ) (g : σ) (data : List (String × FileDataType))
    (sched : Nat → Nat) : Option (Option (List CreatedObject) × Option String) :=
  (CreateManyRun env g data sched).result

/-! ## GetMany -/

/-- Program counter of one unit of `GetMany` (the goroutine of lines 158-167). -/
inductive GMPc where
  | notStarted
  | atGetOne
  | atErrSend (e : OperationError)
  | atCancel
  | atUrlSend (u : String)
  | finished
  deriving DecidableEq, Repr

/-- One unit of `GetMany`: its argument and its program counter. -/
structure GMWorker where
  objectID : String
  pc : GMPc
  deriving DecidableEq, Repr

/-- Program counter of the calling goroutine of `GetMany`. -/
inductive GMMain where
  | spawning (k : Nat)
  | collectingUrls
  | collectingErrs
  | returned (urls : Option (List String)) (err : Option String)
  deriving DecidableEq, Repr

/-- The state of a running `GetMany`. The context made by `context.WithCancel` is
dropped by the code (`_, cancel := ...`): `cancelled` is set by `cancel()` and read
by nothing. -/
structure GMState (σ : Type) where
  world : World σ
  workers : List GMWorker
  wg : Nat
  cancelled : Bool
  urlCh : List String
  urlClosed : Bool
  errCh : List OperationError
  errClosed : Bool
  closer : CloserPc
  main : GMMain
  urls : Option (List String)
  errs : Option (List String)

/-- Capacity of `urlCh` and of `errCh`: `len(objectIDs)`. -/
def GMState.cap {σ : Type} (s : GMState σ) : Nat := s.workers.length

/-- Entry of `GetMany`. -/
def gmInit {σ : Type} (g : σ) (objectIDs : List String) : GMState σ :=
  { world := World.init g
    workers := objectIDs.map (fun k => { objectID := k, pc := GMPc.notStarted })
    wg := 0
    cancelled := false
    urlCh := []
    urlClosed := false
    errCh := []
    errClosed := false
    closer := CloserPc.notStarted
    main := GMMain.spawning 0
    urls := none
    errs := none }

/-- Append an entry to the ghost trace. -/
def gmLog {σ : Type} (s : GMState σ) (e : Event) : GMState σ :=
  { s with world := { s.world with log := s.world.log ++ [e] } }

/-- The unit finishes: `return` with the deferred `wg.Done()`. -/
def gmFinish {σ : Type} (s : GMState σ) (i : Nat) (w : GMWorker) : GMState σ :=
  { s with workers := s.workers.set i { w with pc := GMPc.finished }
           wg := s.wg - 1
           world := { s.world with log := s.world.log ++ [Event.unitDone w.objectID] } }

/-- The value `helpers.OperationError{ObjectID: objectID, Error: fmt.Errorf(...)}` of line 162. -/
def gmOpErr (objectID err : String) : OperationError :=
  { ObjectID := objectID
    Error := "ошибка при получении объекта " ++ objectID ++ ": " ++ err }

/-- The actions unit `i` of `GetMany` can take next. -/
def gmWorkerStep {σ : Type} (env : Env σ) (s : GMState σ) (i : Nat) : List (GMState σ) :=
  match s.workers[i]? with
  | none => []
  | some w =>
    match w.pc with
    | GMPc.notStarted => []
    | GMPc.atGetOne =>
      match GetOne env s.world w.objectID with
      | (w1, _, some err) =>
        [{ s with world := w1
                  workers := s.workers.set i { w with pc := GMPc.atErrSend (gmOpErr w.objectID err) } }]
      | (w1, u, none) =>
        [{ s with world := w1, workers := s.workers.set i { w with pc := GMPc.atUrlSend u } }]
    | GMPc.atErrSend e =>
      if s.errCh.length < s.cap then
        [{ gmLog s (Event.errReported w.objectID e.Error true) with
            errCh := s.errCh ++ [e]
            workers := s.workers.set i { w with pc := GMPc.atCancel } }]
      else []
    | GMPc.atCancel =>
      [gmFinish { gmLog s Event.cancel with cancelled := true } i w]
    | GMPc.atUrlSend u =>
      if s.urlCh.length < s.cap then
        [gmFinish { gmLog s (Event.urlReported w.objectID u true) with urlCh := s.urlCh ++ [u] } i w]
      else []
    | GMPc.finished => []

/-- The action the closing goroutine of `GetMany` can take next. -/
def gmCloserStep {σ : Type} (s : GMState σ) : List (GMState σ) :=
  match s.closer with
  | CloserPc.notStarted => []
  | CloserPc.atWait =>
    if s.wg = 0 then [{ s with urlClosed := true, closer := CloserPc.atCloseErr }] else []
  | CloserPc.atCloseErr => [{ s with errClosed := true, closer := CloserPc.finished }]
  | CloserPc.finished => []

/-- The action the calling goroutine of `GetMany` can take next. -/
def gmMainStep {σ : Type} (s : GMState σ) : List (GMState σ) :=
  match s.main with
  | GMMain.spawning k =>
    match s.workers[k]? with
    | some w =>
      [{ s with wg := s.wg + 1
                workers := s.workers.set k { w with pc := GMPc.atGetOne }
                main := GMMain.spawning (k + 1) }]
    | none => [{ s with closer := CloserPc.atWait, main := GMMain.collectingUrls }]
  | GMMain.collectingUrls =>
    match s.urlCh with
    | u :: rest => [{ s with urlCh := rest, urls := goAppend s.urls u }]
    | [] => if s.urlClosed then [{ s with main := GMMain.collectingErrs }] else []
  | GMMain.collectingErrs =>
    match s.errCh with
    | e :: rest => [{ s with errCh := rest, errs := goAppend s.errs e.Error }]
    | [] =>
      if s.errClosed then
        if goLen s.errs > 0 then
          [{ gmLog s Event.cancel with
              cancelled := true
              main := GMMain.returned none
                (some ("ошибки при получении объектов: " ++ fmtErrs (s.errs.getD []))) }]
        else
          [{ gmLog s Event.cancel with cancelled := true, main := GMMain.returned s.urls none }]
      else []
  | GMMain.returned _ _ => []

/-- All actions enabled in a state of `GetMany`. -/
def gmNext {σ : Type} (env : Env σ) (s : GMState σ) : List (GMState σ) :=
  gmMainStep s ++ gmCloserStep s ++ (List.range s.workers.length).flatMap (gmWorkerStep env s)

/-- Number of scheduling decisions that suffices for a batch of `n` items. -/
def gmFuel (n : Nat) : Nat := 7 * n + 8

/-- `GetMany` under the scheduler `sched`: the state in which the run ends. -/
def GetManyRun {σ : Type} (env : Env σ) (g : σ) (objectIDs : List String)
    (sched : Nat → Nat) : GMState σ :=
  exec (gmNext env) sched (gmFuel objectIDs.length) (gmInit g objectIDs)

/-- What `GetMany` returns, once it has returned. -/
def GMState.result {σ : Type} (s : GMState σ) : Option (Option (List String) × Option String) :=
  match s.main with
  | GMMain.returned urls err => some (urls, err)
  | _ => none

/-- `GetMany(objectIDs)` under the scheduler `sched`. -/
def GetMany {σ : Type} (env : Env σ) (g : σ) (objectIDs : List String)
    (sched : Nat → Nat) : Option (Option (List String) × Option String) :=
  (GetManyRun env g objectIDs sched).result

/-! ## DeleteMany -/

/-- Program counter of one unit of `DeleteMany` (the goroutine of lines 217-224). -/
inductive DMPc where
  | notStarted
  | atRemove
  | atErrSend (e : OperationError)
  | atCancel
  | finished
  deriving DecidableEq, Repr

/-- One unit of `DeleteMany`: its argument and its program counter. -/
structure DMWorker where
  objectID : String
  pc : DMPc
  deriving DecidableEq, Repr

/-- Program counter of the calling goroutine of `DeleteMany`. -/
inductive DMMain where
  | spawning (k : Nat)
  | collectingErrs
  | returned (err : Option String)
  deriving DecidableEq, Repr

/-- The state of a running `DeleteMany`. -/
structure DMState (σ : Type) where
  world : World σ
  workers : List DMWorker
  wg : Nat
  cancelled : Bool
  errCh : List OperationError
  errClosed : Bool
  closer : CloserPc
  main : DMMain
  errs : Option (List String)

/-- Capacity of `errCh`: `len(objectIDs)`. -/
def DMState.cap {σ : Type} (s : DMState σ) : Nat := s.workers.length

/-- Entry of `DeleteMany`. -/
def dmInit {σ : Type} (g : σ) (objectIDs : List String) : DMState σ :=
  { world := World.init g
    workers := objectIDs.map (fun k => { objectID := k, pc := DMPc.notStarted })
    wg := 0
    cancelled := false
    errCh := []
    errClosed := false
    closer := CloserPc.notStarted
    main := DMMain.spawning 0
    errs := none }

/-- Append an entry to the ghost trace. -/
def dmLog {σ : Type} (s : DMState σ) (e : Event) : DMState σ :=
  { s with world := { s.world with log := s.world.log ++ [e] } }

/-- The unit finishes: `return` with the deferred `wg.Done()`. -/
def dmFinish {σ : Type} (s : DMState σ) (i : Nat) (w : DMWorker) : DMState σ :=
  { s with workers := s.workers.set i { w with pc := DMPc.finished }
           wg := s.wg - 1
           world := { s.world with log := s.world.log ++ [Event.unitDone w.objectID] } }

/-- The value `helpers.OperationError{ObjectID: id, Error: fmt.Errorf(...)}` of line 221. -/
def dmOpErr (objectID err : String) : OperationError :=
  { ObjectID := objectID
    Error := "ошибка при удалении объекта " ++ objectID ++ ": " ++ err }

/-- The actions unit `i` of `DeleteMany` can take next. -/
def dmWorkerStep {σ : Type} (env : Env σ) (s : DMState σ) (i : Nat) : List (DMState σ) :=
  match s.workers[i]? with
  | none => []
  | some w =>
    match w.pc with
    | DMPc.notStarted => []
    | DMPc.atRemove =>
      match callRemove env s.world Ctx.batch s.cancelled w.objectID with
      | (w1, some err) =>
        [{ s with world := w1
                  workers := s.workers.set i { w with pc := DMPc.atErrSend (dmOpErr w.objectID err) } }]
      | (w1, none) => [dmFinish { s with world := w1 } i w]
    | DMPc.atErrSend e =>
      if s.errCh.length < s.cap then
        [{ dmLog s (Event.errReported w.objectID e.Error true) with
            errCh := s.errCh ++ [e]
            workers := s.workers.set i { w with pc := DMPc.atCancel } }]
      else []
    | DMPc.atCancel =>
      [dmFinish { dmLog s Event.cancel with cancelled := true } i w]
    | DMPc.finished => []

/-- The action the closing goroutine of `DeleteMany` can take next. -/
def dmCloserStep {σ : Type} (s : DMState σ) : List (DMState σ) :=
  match s.closer with
  | CloserPc.notStarted => []
  | CloserPc.atWait =>
    if s.wg = 0 then [{ s with errClosed := true, closer := CloserPc.finished }] else []
  | CloserPc.atCloseErr => []
  | CloserPc.finished => []

/-- The action the calling goroutine of `DeleteMany` can take next. -/
def dmMainStep {σ : Type} (s : DMState σ) : List (DMState σ) :=
  match s.main with
  | DMMain.spawning k =>
    match s.workers[k]? with
    | some w =>
      [{ s with wg := s.wg + 1
                workers := s.workers.set k { w with pc := DMPc.atRemove }
                main := DMMain.spawning (k + 1) }]
    | none => [{ s with closer := CloserPc.atWait, main := DMMain.collectingErrs }]
  | DMMain.collectingErrs =>
    match s.errCh with
    | e :: rest => [{ s with errCh := rest, errs := goAppend s.errs e.Error }]
    | [] =>
      if s.errClosed then
        if goLen s.errs > 0 then
          [{ dmLog s Event.cancel with
              cancelled := true
              main := DMMain.returned
                (some ("ошибки при удалении объектов: " ++ fmtErrs (s.errs.getD []))) }]
        else
          [{ dmLog s Event.cancel with cancelled := true, main := DMMain.returned none }]
      else []
  | DMMain.returned _ => []

/-- All actions enabled in a state of `DeleteMany`. -/
def dmNext {σ : Type} (env : Env σ) (s : DMState σ) : List (DMState σ) :=
  dmMainStep s ++ dmCloserStep s ++ (List.range s.workers.length).flatMap (dmWorkerStep env s)

/-- Number of scheduling decisions that suffices for a batch of `n` items. -/
def dmFuel (n : Nat) : Nat := 7 * n + 8

/-- `DeleteMany` under the scheduler `sched`: the state in which the run ends. -/
def DeleteManyRun {σ : Type} (env : Env σ) (g : σ) (objectIDs : List String)
    (sched : Nat → Nat) : DMState σ :=
  exec (dmNext env) sched (dmFuel objectIDs.length) (dmInit g objectIDs)

/-- What `DeleteMany` returns, once it has returned; the inner `none` is `nil`. -/
def DMState.result {σ : Type} (s : DMState σ) : Option (Option String) :=
  match s.main with
  | DMMain.returned err => some err
  | _ => none

/-- `DeleteMany(objectIDs)` under the scheduler `sched`. -/
def DeleteMany {σ : Type} (env : Env σ) (g : σ) (objectIDs : List String)
    (sched : Nat → Nat) : Option (Option String) :=
  (DeleteManyRun env g objectIDs sched).result

/-! ## Reading the ghost trace -/

/-- A gateway call that returned an error. -/
def Event.failed : Event → Bool
  | Event.putObject _ _ _ (some _) => true
  | Event.presignedGetObject _ _ _ _ (Presigned.fail _) => true
  | Event.removeObject _ _ _ (some _) => true
  | _ => false

/-- Some gateway call of the trace returned an error. -/
def anyFailed (log : List Event) : Bool := log.any Event.failed

/-- The failed gateway calls of the trace: key and error message. -/
def failures (log : List Event) : List (String × String) :=
  log.filterMap (fun e => match e with
    | Event.putObject _ _ k (some err) => some (k, err)
    | Event.presignedGetObject _ _ k _ (Presigned.fail err) => some (k, err)
    | Event.removeObject _ _ k (some err) => some (k, err)
    | _ => none)

/-- The error reports of the trace: key, message, and whether the failure channel took it. -/
def reports (log : List Event) : List (String × String × Bool) :=
  log.filterMap (fun e => match e with
    | Event.errReported k err c => some (k, err, c)
    | _ => none)

/-- The successful presign calls of the trace: key and link. -/
def okPresigns (log : List Event) : List (String × String) :=
  log.filterMap (fun e => match e with
    | Event.presignedGetObject _ _ k _ (Presigned.url u) => some (k, u)
    | _ => none)

/-- The validity windows requested from `PresignedGetObject`, in trace order. -/
def presignExpiries (log : List Event) : List Int :=
  log.filterMap (fun e => match e with
    | Event.presignedGetObject _ _ _ expires _ => some expires
    | _ => none)

/-- The contexts handed to the gateway calls of the trace, in trace order. -/
def callCtxs (log : List Event) : List Ctx :=
  log.filterMap (fun e => match e with
    | Event.putObject c _ _ _ => some c
    | Event.presignedGetObject c _ _ _ _ => some c
    | Event.removeObject c _ _ _ => some c
    | _ => none)

/-- The gateway calls of the trace. -/
def gatewayCalls (log : List Event) : List Event :=
  log.filter (fun e => match e with
    | Event.putObject _ _ _ _ => true
    | Event.presignedGetObject _ _ _ _ _ => true
    | Event.removeObject _ _ _ _ => true
    | _ => false)

/-! ## Bookkeeping for CreateMany -/

/-- One for a unit that has been launched and has not finished (it holds the wait group). -/
def CMPc.active : CMPc → Nat
  | CMPc.notStarted => 0
  | CMPc.finished => 0
  | _ => 1

/-- One for a unit that has not finished. -/
def CMPc.live : CMPc → Nat
  | CMPc.finished => 0
  | _ => 1

/-- Number of actions a unit can still take, at most. -/
def CMPc.weight : CMPc → Nat
  | CMPc.notStarted => 6
  | CMPc.atPut => 5
  | CMPc.atPresign => 4
  | CMPc.atUrlSelect _ => 3
  | CMPc.atErrSelect _ => 2
  | CMPc.atCancel => 1
  | CMPc.finished => 0

/-- Number of actions the closing goroutine can still take. -/
def CloserPc.weight : CloserPc → Nat
  | CloserPc.notStarted => 3
  | CloserPc.atWait => 2
  | CloserPc.atCloseErr => 1
  | CloserPc.finished => 0

/-- Rank of the caller of `CreateMany` in the termination measure. -/
def CMMain.weight : CMMain → Nat
  | CMMain.spawning _ => 3
  | CMMain.collecting => 2
  | CMMain.atErrRecv => 1
  | CMMain.returned _ _ => 0

/-- Termination measure of `CreateMany`. -/
def cmMeasure {σ : Type} (s : CMState σ) : Nat :=
  (s.workers.map (fun w => w.pc.weight)).sum + s.urlCh.length + s.closer.weight + s.main.weight

/-- Number of units launched so far. -/
def cmSpawned {σ : Type} (s : CMState σ) : Nat :=
  match s.main with
  | CMMain.spawning k => k
  | _ => s.workers.length

/-- The link a unit holds while it waits at the `select` of line 101. -/
def CMWorker.pendingUrl (w : CMWorker) : Option String :=
  match w.pc with
  | CMPc.atUrlSelect u => some u
  | _ => none

/-- The key of a unit that is past its presign call. -/
def CMWorker.presignedKey (w : CMWorker) : Option String :=
  match w.pc with
  | CMPc.atUrlSelect _ => some w.objectID
  | CMPc.finished => some w.objectID
  | _ => none

/-- What `CreateMany` returns from lines 126-130, given the first error report. -/
def cmOutcome (first : Option String) (objects : List CreatedObject) :
    Option (List CreatedObject) × Option String :=
  match first with
  | some err => (none, some ("ошибка при создании объектов: " ++ err))
  | none => (some objects, none)

/-- The message of the first error report of the trace. -/
def firstReport (log : List Event) : Option String := (reports log).head?.map (fun r => r.2.1)

/-- One action of `CreateMany`, as a relation. -/
inductive CMStep {σ : Type} (env : Env σ) (s : CMState σ) : CMState σ → Prop where
  | spawn (k : Nat) (w : CMWorker) (hm : s.main = CMMain.spawning k)
      (hw : s.workers[k]? = some w) :
      CMStep env s { s with wg := s.wg + 1
                            workers := s.workers.set k { w with pc := CMPc.atPut }
                            main := CMMain.spawning (k + 1) }
  | spawnEnd (k : Nat) (hm : s.main = CMMain.spawning k) (hw : s.workers[k]? = none) :
      CMStep env s { s with closer := CloserPc.atWait, main := CMMain.collecting }
  | collect (u : String) (rest : List String) (hm : s.main = CMMain.collecting)
      (hu : s.urlCh = u :: rest) :
      CMStep env s { s with world := (drawUuid env s.world).1, urlCh := rest
                            objects := s.objects ++
                              [{ ObjectID := (drawUuid env s.world).2, Link := u }] }
  | collectEnd (hm : s.main = CMMain.collecting) (hu : s.urlCh = [])
      (hc : s.urlClosed = true) :
      CMStep env s { s with main := CMMain.atErrRecv }
  | recvErr (err : String) (rest : List String) (hm : s.main = CMMain.atErrRecv)
      (he : s.errCh = err :: rest) :
      CMStep env s { cmLog s Event.cancel with
        errCh := rest, cancelled := true
        main := CMMain.returned none (some ("ошибка при создании объектов: " ++ err)) }
  | recvNil (hm : s.main = CMMain.atErrRecv) (he : s.errCh = []) (hc : s.errClosed = true) :
      CMStep env s { cmLog s Event.cancel with
        cancelled := true, main := CMMain.returned (some s.objects) none }
  | closeUrl (hc : s.closer = CloserPc.atWait) (hwg : s.wg = 0) :
      CMStep env s { s with urlClosed := true, closer := CloserPc.atCloseErr }
  | closeErr (hc : s.closer = CloserPc.atCloseErr) :
      CMStep env s { s with errClosed := true, closer := CloserPc.finished }
  | putFail (i : Nat) (w : CMWorker) (err : String) (hw : s.workers[i]? = some w)
      (hpc : w.pc = CMPc.atPut)
      (hr : (callPut env s.world Ctx.batch s.cancelled w.objectID w.file.Data).2 = some err) :
      CMStep env s { s with
        world := (callPut env s.world Ctx.batch s.cancelled w.objectID w.file.Data).1
        workers := s.workers.set i { w with pc := CMPc.atErrSelect err } }
  | putOk (i : Nat) (w : CMWorker) (hw : s.workers[i]? = some w) (hpc : w.pc = CMPc.atPut)
      (hr : (callPut env s.world Ctx.batch s.cancelled w.objectID w.file.Data).2 = none) :
      CMStep env s { s with
        world := (callPut env s.world Ctx.batch s.cancelled w.objectID w.file.Data).1
        workers := s.workers.set i { w with pc := CMPc.atPresign } }
  | presignFail (i : Nat) (w : CMWorker) (err : String) (hw : s.workers[i]? = some w)
      (hpc : w.pc = CMPc.atPresign)
      (hr : (callPresign env s.world Ctx.batch s.cancelled w.objectID
        (createExpiry env.cfg)).2 = Presigned.fail err) :
      CMStep env s { s with
        world := (callPresign env s.world Ctx.batch s.cancelled w.objectID
          (createExpiry env.cfg)).1
        workers := s.workers.set i { w with pc := CMPc.atErrSelect err } }
  | presignOk (i : Nat) (w : CMWorker) (u : String) (hw : s.workers[i]? = some w)
      (hpc : w.pc = CMPc.atPresign)
      (hr : (callPresign env s.world Ctx.batch s.cancelled w.objectID
        (createExpiry env.cfg)).2 = Presigned.url u) :
      CMStep env s { s with
        world := (callPresign env s.world Ctx.batch s.cancelled w.objectID
          (createExpiry env.cfg)).1
        workers := s.workers.set i { w with pc := CMPc.atUrlSelect u } }
  | errCapture (i : Nat) (w : CMWorker) (err : String) (hw : s.workers[i]? = some w)
      (hpc : w.pc = CMPc.atErrSelect err) (hroom : s.errCh.length < cmErrCap) :
      CMStep env s { cmLog s (Event.errReported w.objectID err true) with
        errCh := s.errCh ++ [err]
        workers := s.workers.set i { w with pc := CMPc.atCancel } }
  | errDrop (i : Nat) (w : CMWorker) (err : String) (hw : s.workers[i]? = some w)
      (hpc : w.pc = CMPc.atErrSelect err) (hfull : ¬ s.errCh.length < cmErrCap) :
      CMStep env s (cmFinish (cmLog s (Event.errReported w.objectID err false)) i w)
  | cancel (i : Nat) (w : CMWorker) (hw : s.workers[i]? = some w)
      (hpc : w.pc = CMPc.atCancel) :
      CMStep env s (cmFinish { cmLog s Event.cancel with cancelled := true } i w)
  | urlSend (i : Nat) (w : CMWorker) (u : String) (hw : s.workers[i]? = some w)
      (hpc : w.pc = CMPc.atUrlSelect u) (hroom : s.urlCh.length < s.urlCap) :
      CMStep env s
        (cmFinish { cmLog s (Event.urlReported w.objectID u true) with
          urlCh := s.urlCh ++ [u] } i w)
  | urlDrop (i : Nat) (w : CMWorker) (u : String) (hw : s.workers[i]? = some w)
      (hpc : w.pc = CMPc.atUrlSelect u) (hdone : s.cancelled = true) :
      CMStep env s (cmFinish (cmLog s (Event.urlReported w.objectID u false)) i w)

/-- Control invariant of `CreateMany`. -/
structure CMCtl {σ : Type} (s : CMState σ) : Prop where
  wg_eq : s.wg = (s.workers.map (fun w => w.pc.active)).sum
  spawned : ∀ i w, s.workers[i]? = some w → (w.pc = CMPc.notStarted ↔ cmSpawned s ≤ i)
  closer_start : s.closer = CloserPc.notStarted ↔ ∃ k, s.main = CMMain.spawning k
  all_done : s.urlClosed = true → ∀ w ∈ s.workers, w.pc = CMPc.finished
  url_closed : s.urlClosed = true ↔
    (s.closer = CloserPc.atCloseErr ∨ s.closer = CloserPc.finished)
  err_closed : s.errClosed = true ↔ s.closer = CloserPc.finished
  main_past : s.main.weight ≤ 1 → s.urlClosed = true ∧ s.urlCh = []
  capacity : s.objects.length + s.urlCh.length + (s.workers.map (fun w => w.pc.live)).sum
    ≤ s.workers.length
  err_capacity : s.errCh.length ≤ cmErrCap

/-- Error-reporting invariant of `CreateMany`. -/
structure CMErr {σ : Type} (s : CMState σ) : Prop where
  err_ch : s.main.weight ≠ 0 → s.errCh = (firstReport s.world.log).toList
  flags : ∀ (n : Nat) (r : String × String × Bool),
    (reports s.world.log)[n]? = some r → r.2.2 = decide (n = 0)
  outcome : ∀ objs err, s.main = CMMain.returned objs err →
    (objs, err) = cmOutcome (firstReport s.world.log) s.objects
  failed_reported : anyFailed s.world.log = true →
    reports s.world.log ≠ [] ∨ ∃ w ∈ s.workers, ∃ e, w.pc = CMPc.atErrSelect e
  report_cause : ∀ r ∈ reports s.world.log, (r.1, r.2.1) ∈ failures s.world.log
  pending_cause : ∀ w ∈ s.workers, ∀ e, w.pc = CMPc.atErrSelect e →
    (w.objectID, e) ∈ failures s.world.log
  cancel_cause : ∀ w ∈ s.workers, w.pc = CMPc.atCancel → reports s.world.log ≠ []
  ctx_cause : s.cancelled = true → s.main.weight ≠ 0 → reports s.world.log ≠ []

/-- Success-path invariant of `CreateMany`, for the batch with keys `keys`. -/
structure CMOk {σ : Type} (env : Env σ) (keys : List String) (s : CMState σ) : Prop where
  keys_eq : s.workers.map (fun w => w.objectID) = keys
  uuids : s.world.uuids = s.objects.length
  ids : s.objects.map (fun o => o.ObjectID) = (List.range s.objects.length).map env.uuidNew
  urls : anyFailed s.world.log = false →
    List.Perm (s.objects.map (fun o => o.Link) ++ s.urlCh ++
        s.workers.filterMap CMWorker.pendingUrl)
      ((okPresigns s.world.log).map Prod.snd)
  presigned : anyFailed s.world.log = false →
    List.Perm (s.workers.filterMap CMWorker.presignedKey)
      ((okPresigns s.world.log).map Prod.fst)

/-! ## Bookkeeping for DeleteMany -/

/-- One for a unit that has been launched and has not finished (it holds the wait group). -/
def DMPc.active : DMPc → Nat
  | DMPc.notStarted => 0
  | DMPc.finished => 0
  | _ => 1

/-- One for a unit that may still send on `errCh`. -/
def DMPc.credit : DMPc → Nat
  | DMPc.atCancel => 0
  | DMPc.finished => 0
  | _ => 1

/-- Rank of a unit of `DeleteMany` in the termination measure. -/
def DMPc.weight : DMPc → Nat
  | DMPc.notStarted => 5
  | DMPc.atRemove => 4
  | DMPc.atErrSend _ => 3
  | DMPc.atCancel => 1
  | DMPc.finished => 0

/-- Rank of the caller of `DeleteMany` in the termination measure. -/
def DMMain.weight : DMMain → Nat
  | DMMain.spawning _ => 2
  | DMMain.collectingErrs => 1
  | DMMain.returned _ => 0

/-- Termination measure of `DeleteMany`. -/
def dmMeasure {σ : Type} (s : DMState σ) : Nat :=
  (s.workers.map (fun w => w.pc.weight)).sum + s.errCh.length + s.closer.weight + s.main.weight

/-- Number of units launched so far. -/
def dmSpawned {σ : Type} (s : DMState σ) : Nat :=
  match s.main with
  | DMMain.spawning k => k
  | _ => s.workers.length

/-- The key and message a unit holds while it waits to send on `errCh`. -/
def DMWorker.pendingErr (w : DMWorker) : Option (String × String) :=
  match w.pc with
  | DMPc.atErrSend e => some (w.objectID, e.Error)
  | _ => none

/-- What `DeleteMany` returns from lines 240-244, given the collected errors. -/
def dmOutcome (errs : Option (List String)) : Option String :=
  if goLen errs > 0 then some ("ошибки при удалении объектов: " ++ fmtErrs (errs.getD []))
  else none

/-- One action of `DeleteMany`, as a relation. -/
inductive DMStep {σ : Type} (env : Env σ) (s : DMState σ) : DMState σ → Prop where
  | spawn (k : Nat) (w : DMWorker) (hm : s.main = DMMain.spawning k)
      (hw : s.workers[k]? = some w) :
      DMStep env s { s with wg := s.wg + 1
                            workers := s.workers.set k { w with pc := DMPc.atRemove }
                            main := DMMain.spawning (k + 1) }
  | spawnEnd (k : Nat) (hm : s.main = DMMain.spawning k) (hw : s.workers[k]? = none) :
      DMStep env s { s with closer := CloserPc.atWait, main := DMMain.collectingErrs }
  | recvErr (e : OperationError) (rest : List OperationError)
      (hm : s.main = DMMain.collectingErrs) (he : s.errCh = e :: rest) :
      DMStep env s { s with errCh := rest, errs := goAppend s.errs e.Error }
  | retErr (hm : s.main = DMMain.collectingErrs) (he : s.errCh = [])
      (hc : s.errClosed = true) (hl : goLen s.errs > 0) :
      DMStep env s { dmLog s Event.cancel with
        cancelled := true
        main := DMMain.returned
          (some ("ошибки при удалении объектов: " ++ fmtErrs (s.errs.getD []))) }
  | retOk (hm : s.main = DMMain.collectingErrs) (he : s.errCh = [])
      (hc : s.errClosed = true) (hl : ¬ goLen s.errs > 0) :
      DMStep env s { dmLog s Event.cancel with cancelled := true, main := DMMain.returned none }
  | close (hc : s.closer = CloserPc.atWait) (hwg : s.wg = 0) :
      DMStep env s { s with errClosed := true, closer := CloserPc.finished }
  | removeFail (i : Nat) (w : DMWorker) (err : String) (hw : s.workers[i]? = some w)
      (hpc : w.pc = DMPc.atRemove)
      (hr : (callRemove env s.world Ctx.batch s.cancelled w.objectID).2 = some err) :
      DMStep env s { s with
        world := (callRemove env s.world Ctx.batch s.cancelled w.objectID).1
        workers := s.workers.set i { w with pc := DMPc.atErrSend (dmOpErr w.objectID err) } }
  | removeOk (i : Nat) (w : DMWorker) (hw : s.workers[i]? = some w)
      (hpc : w.pc = DMPc.atRemove)
      (hr : (callRemove env s.world Ctx.batch s.cancelled w.objectID).2 = none) :
      DMStep env s
        (dmFinish { s with
          world := (callRemove env s.world Ctx.batch s.cancelled w.objectID).1 } i w)
  | errSend (i : Nat) (w : DMWorker) (e : OperationError) (hw : s.workers[i]? = some w)
      (hpc : w.pc = DMPc.atErrSend e) (hroom : s.errCh.length < s.cap) :
      DMStep env s { dmLog s (Event.errReported w.objectID e.Error true) with
        errCh := s.errCh ++ [e]
        workers := s.workers.set i { w with pc := DMPc.atCancel } }
  | cancel (i : Nat) (w : DMWorker) (hw : s.workers[i]? = some w)
      (hpc : w.pc = DMPc.atCancel) :
      DMStep env s (dmFinish { dmLog s Event.cancel with cancelled := true } i w)

/-- Control invariant of `DeleteMany`. -/
structure DMCtl {σ : Type} (s : DMState σ) : Prop where
  wg_eq : s.wg = (s.workers.map (fun w => w.pc.active)).sum
  spawned : ∀ i w, s.workers[i]? = some w → (w.pc = DMPc.notStarted ↔ dmSpawned s ≤ i)
  closer_start : s.closer = CloserPc.notStarted ↔ ∃ k, s.main = DMMain.spawning k
  closer_range : s.closer ≠ CloserPc.atCloseErr
  all_done : s.errClosed = true → ∀ w ∈ s.workers, w.pc = DMPc.finished
  err_closed : s.errClosed = true ↔ s.closer = CloserPc.finished
  main_past : s.main.weight = 0 → s.errClosed = true ∧ s.errCh = []
  capacity : goLen s.errs + s.errCh.length + (s.workers.map (fun w => w.pc.credit)).sum
    ≤ s.workers.length

/-- Error-collection invariant of `DeleteMany`. -/
structure DMErr {σ : Type} (s : DMState σ) : Prop where
  collected : s.errs.getD [] ++ s.errCh.map (fun e => e.Error)
    = (reports s.world.log).map (fun r => r.2.1)
  errs_nil : s.errs = none ∨ ∃ l, s.errs = some l ∧ l ≠ []
  causes : List.Perm
    ((reports s.world.log).map (fun r => (r.1, r.2.1)) ++
      s.workers.filterMap DMWorker.pendingErr)
    ((failures s.world.log).map (fun p => (p.1, (dmOpErr p.1 p.2).Error)))
  outcome : ∀ err, s.main = DMMain.returned err → err = dmOutcome s.errs
  calls : s.workers = [] → gatewayCalls s.world.log = []

/-! ## Bookkeeping for GetMany -/

/-- One for a unit that has been launched and has not finished (it holds the wait group). -/
def GMPc.active : GMPc → Nat
  | GMPc.notStarted => 0
  | GMPc.finished => 0
  | _ => 1

/-- One for a unit that may still send on `urlCh` or on `errCh`. -/
def GMPc.credit : GMPc → Nat
  | GMPc.atCancel => 0
  | GMPc.finished => 0
  | _ => 1

/-- Rank of a unit of `GetMany` in the termination measure. -/
def GMPc.weight : GMPc → Nat
  | GMPc.notStarted => 5
  | GMPc.atGetOne => 4
  | GMPc.atErrSend _ => 3
  | GMPc.atUrlSend _ => 3
  | GMPc.atCancel => 1
  | GMPc.finished => 0

/-- Rank of the caller of `GetMany` in the termination measure. -/
def GMMain.weight : GMMain → Nat
  | GMMain.spawning _ => 3
  | GMMain.collectingUrls => 2
  | GMMain.collectingErrs => 1
  | GMMain.returned _ _ => 0

/-- Termination measure of `GetMany`. -/
def gmMeasure {σ : Type} (s : GMState σ) : Nat :=
  (s.workers.map (fun w => w.pc.weight)).sum + s.urlCh.length + s.errCh.length
    + s.closer.weight + s.main.weight

/-- Number of units launched so far. -/
def gmSpawned {σ : Type} (s : GMState σ) : Nat :=
  match s.main with
  | GMMain.spawning k => k
  | _ => s.workers.length

/-- The key and message a unit holds while it waits to send on `errCh`. -/
def GMWorker.pendingErr (w : GMWorker) : Option (String × String) :=
  match w.pc with
  | GMPc.atErrSend e => some (w.objectID, e.Error)
  | _ => none

/-- The key and link a unit holds while it waits to send on `urlCh`. -/
def GMWorker.pendingUrl (w : GMWorker) : Option (String × String) :=
  match w.pc with
  | GMPc.atUrlSend u => some (w.objectID, u)
  | _ => none

/-- The key of a unit that is past `GetOne`. -/
def GMWorker.calledKey (w : GMWorker) : Option String :=
  match w.pc with
  | GMPc.notStarted => none
  | GMPc.atGetOne => none
  | _ => some w.objectID

/-- The message `GetOne` makes of a presign error. -/
def getOneErr (objectID err : String) : String :=
  "ошибка при получении URL для объекта " ++ objectID ++ ": " ++ err

/-- What `GetMany` returns from lines 188-192, given what it collected. -/
def gmOutcome (urls errs : Option (List String)) : Option (List String) × Option String :=
  if goLen errs > 0 then
    (none, some ("ошибки при получении объектов: " ++ fmtErrs (errs.getD [])))
  else (urls, none)

/-- The links sent on the results channel, each with the key of the unit that sent it,
in the order of the sends. -/
def urlSends (log : List Event) : List (String × String) :=
  log.filterMap (fun e => match e with
    | Event.urlReported k u true => some (k, u)
    | _ => none)

/-- The keys of the gateway calls of the trace. -/
def callKeys (log : List Event) : List String :=
  log.filterMap (fun e => match e with
    | Event.putObject _ _ k _ => some k
    | Event.presignedGetObject _ _ k _ _ => some k
    | Event.removeObject _ _ k _ => some k
    | _ => none)

/-- One action of `GetMany`, as a relation. -/
inductive GMStep {σ : Type} (env : Env σ) (s : GMState σ) : GMState σ → Prop where
  | spawn (k : Nat) (w : GMWorker) (hm : s.main = GMMain.spawning k)
      (hw : s.workers[k]? = some w) :
      GMStep env s { s with wg := s.wg + 1
                            workers := s.workers.set k { w with pc := GMPc.atGetOne }
                            main := GMMain.spawning (k + 1) }
  | spawnEnd (k : Nat) (hm : s.main = GMMain.spawning k) (hw : s.workers[k]? = none) :
      GMStep env s { s with closer := CloserPc.atWait, main := GMMain.collectingUrls }
  | recvUrl (u : String) (rest : List String) (hm : s.main = GMMain.collectingUrls)
      (hu : s.urlCh = u :: rest) :
      GMStep env s { s with urlCh := rest, urls := goAppend s.urls u }
  | urlsEnd (hm : s.main = GMMain.collectingUrls) (hu : s.urlCh = [])
      (hc : s.urlClosed = true) :
      GMStep env s { s with main := GMMain.collectingErrs }
  | recvErr (e : OperationError) (rest : List OperationError)
      (hm : s.main = GMMain.collectingErrs) (he : s.errCh = e :: rest) :
      GMStep env s { s with errCh := rest, errs := goAppend s.errs e.Error }
  | retErr (hm : s.main = GMMain.collectingErrs) (he : s.errCh = [])
      (hc : s.errClosed = true) (hl : goLen s.errs > 0) :
      GMStep env s { gmLog s Event.cancel with
        cancelled := true
        main := GMMain.returned none
          (some ("ошибки при получении объектов: " ++ fmtErrs (s.errs.getD []))) }
  | retOk (hm : s.main = GMMain.collectingErrs) (he : s.errCh = [])
      (hc : s.errClosed = true) (hl : ¬ goLen s.errs > 0) :
      GMStep env s { gmLog s Event.cancel with
        cancelled := true, main := GMMain.returned s.urls none }
  | closeUrl (hc : s.closer = CloserPc.atWait) (hwg : s.wg = 0) :
      GMStep env s { s with urlClosed := true, closer := CloserPc.atCloseErr }
  | closeErr (hc : s.closer = CloserPc.atCloseErr) :
      GMStep env s { s with errClosed := true, closer := CloserPc.finished }
  | getFail (i : Nat) (w : GMWorker) (err : String) (hw : s.workers[i]? = some w)
      (hpc : w.pc = GMPc.atGetOne) (hr : (GetOne env s.world w.objectID).2.2 = some err) :
      GMStep env s { s with
        world := (GetOne env s.world w.objectID).1
        workers := s.workers.set i { w with pc := GMPc.atErrSend (gmOpErr w.objectID err) } }
  | getOk (i : Nat) (w : GMWorker) (hw : s.workers[i]? = some w)
      (hpc : w.pc = GMPc.atGetOne) (hr : (GetOne env s.world w.objectID).2.2 = none) :
      GMStep env s { s with
        world := (GetOne env s.world w.objectID).1
        workers := s.workers.set i
          { w with pc := GMPc.atUrlSend (GetOne env s.world w.objectID).2.1 } }
  | errSend (i : Nat) (w : GMWorker) (e : OperationError) (hw : s.workers[i]? = some w)
      (hpc : w.pc = GMPc.atErrSend e) (hroom : s.errCh.length < s.cap) :
      GMStep env s { gmLog s (Event.errReported w.objectID e.Error true) with
        errCh := s.errCh ++ [e]
        workers := s.workers.set i { w with pc := GMPc.atCancel } }
  | cancel (i : Nat) (w : GMWorker) (hw : s.workers[i]? = some w)
      (hpc : w.pc = GMPc.atCancel) :
      GMStep env s (gmFinish { gmLog s Event.cancel with cancelled := true } i w)
  | urlSend (i : Nat) (w : GMWorker) (u : String) (hw : s.workers[i]? = some w)
      (hpc : w.pc = GMPc.atUrlSend u) (hroom : s.urlCh.length < s.cap) :
      GMStep env s
        (gmFinish { gmLog s (Event.urlReported w.objectID u true) with
          urlCh := s.urlCh ++ [u] } i w)

/-- Control invariant of `GetMany`. -/
structure GMCtl {σ : Type} (s : GMState σ) : Prop where
  wg_eq : s.wg = (s.workers.map (fun w => w.pc.active)).sum
  spawned : ∀ i w, s.workers[i]? = some w → (w.pc = GMPc.notStarted ↔ gmSpawned s ≤ i)
  closer_start : s.closer = CloserPc.notStarted ↔ ∃ k, s.main = GMMain.spawning k
  all_done : s.urlClosed = true → ∀ w ∈ s.workers, w.pc = GMPc.finished
  url_closed : s.urlClosed = true ↔
    (s.closer = CloserPc.atCloseErr ∨ s.closer = CloserPc.finished)
  err_closed : s.errClosed = true ↔ s.closer = CloserPc.finished
  main_past : s.main.weight ≤ 1 → s.urlClosed = true ∧ s.urlCh = []
  main_ret : s.main.weight = 0 → s.errClosed = true ∧ s.errCh = []
  capacity : goLen s.urls + s.urlCh.length + goLen s.errs + s.errCh.length
    + (s.workers.map (fun w => w.pc.credit)).sum ≤ s.workers.length

/-- Collection invariant of `GetMany`, for the batch with keys `keys`. -/
structure GMErr {σ : Type} (keys : List String) (s : GMState σ) : Prop where
  keys_eq : s.workers.map (fun w => w.objectID) = keys
  collected : s.errs.getD [] ++ s.errCh.map (fun e => e.Error)
    = (reports s.world.log).map (fun r => r.2.1)
  errs_nil : s.errs = none ∨ ∃ l, s.errs = some l ∧ l ≠ []
  causes : List.Perm
    ((reports s.world.log).map (fun r => (r.1, r.2.1)) ++
      s.workers.filterMap GMWorker.pendingErr)
    ((failures s.world.log).map (fun p => (p.1, (gmOpErr p.1 (getOneErr p.1 p.2)).Error)))
  sent : s.urls.getD [] ++ s.urlCh = (urlSends s.world.log).map Prod.snd
  urls_nil : s.urls = none ∨ ∃ l, s.urls = some l ∧ l ≠ []
  links : List.Perm (urlSends s.world.log ++ s.workers.filterMap GMWorker.pendingUrl)
    (okPresigns s.world.log)
  called : List.Perm (s.workers.filterMap GMWorker.calledKey) (callKeys s.world.log)
  presigned : List.Perm (s.workers.filterMap GMWorker.calledKey)
    ((okPresigns s.world.log).map Prod.fst ++ (failures s.world.log).map Prod.fst)
  outcome : ∀ urls err, s.main = GMMain.returned urls err →
    (urls, err) = gmOutcome s.urls s.errs

/-! ## Concrete stores and environments -/

/-- A store whose calls on the keys listed in `bad` fail with the message listed there and
succeed on every other key; the link of key `k` is `link k`. Its state counts the calls. -/
def stubGateway (link : String → String) (bad : List (String × String)) : Gateway Nat :=
  { PutObject := fun g _ _ k _ _ => (g + 1, bad.lookup k)
    PresignedGetObject := fun g _ _ k _ =>
      (g + 1, match bad.lookup k with
        | some err => Presigned.fail err
        | none => Presigned.url (link k))
    RemoveObject := fun g _ _ k => (g + 1, bad.lookup k) }

/-- The link `stubGateway` gives by default. -/
def stubLink (k : String) : String := "https://minio/b/" ++ k

/-- An environment over `stubGateway`: bucket `"b"`, expiration `h`, identifiers
`"uuid-0"`, `"uuid-1"`, `"uuid-2"` and then `"uuid-n"`. -/
def stubEnv (link : String → String) (bad : List (String × String)) (h : Int) : Env Nat :=
  { cfg := { BucketName := "b", FileTimeExpiration := h }
    mc := stubGateway link bad
    uuidNew := fun n => if n = 0 then "uuid-0" else if n = 1 then "uuid-1"
      else if n = 2 then "uuid-2" else "uuid-n"
    DetectContentType := fun _ => "application/octet-stream" }

/-- The scheduler that always takes the first enabled action. -/
def firstSched : Nat → Nat := fun _ => 0

/-- The scheduler that always takes enabled action number `c` (modulo their number). -/
def constSched (c : Nat) : Nat → Nat := fun _ => c

/-- A batch of three named payloads. -/
def threeFiles : List (String × FileDataType) :=
  [("A", { FileName := "A", Data := [1] }), ("B", { FileName := "B", Data := [2] }),
    ("C", { FileName := "C", Data := [3] })]

/-! ## Configuration loading -/

/-- `getEnv`: the value of the variable `key` in the process environment (`environ` is
`os.LookupEnv`), or `defaultValue` when it is not set. -/
def getEnv (environ : String → Option String) (key defaultValue : String) : String :=
  match environ key with
  | some value => value
  | none => defaultValue

/-- `getEnvAsInt`; `Atoi` is `strconv.Atoi`, `none` standing for its error. -/
def getEnvAsInt (environ : String → Option String) (Atoi : String → Option Int)
    (key : String) (defaultValue : Int) : Int :=
  if getEnv environ key "" ≠ "" then
    match Atoi (getEnv environ key "") with
    | some value => value
    | none => defaultValue
  else defaultValue

/-- `getEnvAsBool`; `ParseBool` is `strconv.ParseBool`, `none` standing for its error. -/
def getEnvAsBool (environ : String → Option String) (ParseBool : String → Option Bool)
    (key : String) (defaultValue : Bool) : Bool :=
  if getEnv environ key "" ≠ "" then
    match ParseBool (getEnv environ key "") with
    | some value => value
    | none => defaultValue
  else defaultValue

/-- `LoadConfig`, over the environment as `godotenv.Load()` has left it. -/
def LoadConfig (environ : String → Option String) (Atoi : String → Option Int)
    (ParseBool : String → Option Bool) : Config :=
  { Port := getEnv environ "PORT" "8080"
    MinioEndpoint := getEnv environ "MINIO_ENDPOINT" "localhost:9000"
    BucketName := getEnv environ "MINIO_BUCKET_NAME" "defaultBucket"
    MinioRootUser := getEnv environ "MINIO_ROOT_USER" "root"
    MinioRootPassword := getEnv environ "MINIO_ROOT_PASSWORD" "minio_password"
    MinioUseSSL := getEnvAsBool environ ParseBool "MINIO_USE_SSL" false
    FileTimeExpiration := getEnvAsInt environ Atoi "FILE_TIME_EXPIRATION"
      defaultFileTimeExpiration }

/-- The value of a run of decimal digits, most significant first; `none` on any other
character and on the empty run. -/
def decimalValue : List Char → Option Nat
  | [] => none
  | cs => cs.foldl (fun acc c =>
      match acc with
      | none => none
      | some n => if 48 ≤ c.toNat ∧ c.toNat ≤ 57 then some (10 * n + (c.toNat - 48)) else none)
      (some 0)

/-- A decimal reader used as `strconv.Atoi` in concrete runs: an optional sign, then
digits, the value within the 64-bit range. -/
def atoiDecimal (s : String) : Option Int :=
  let signed : Option Int :=
    match s.data with
    | '-' :: cs => (decimalValue cs).map (fun n => -(n : Int))
    | '+' :: cs => (decimalValue cs).map (fun n => (n : Int))
    | cs => (decimalValue cs).map (fun n => (n : Int))
  match signed with
  | some v => if -(2 ^ 63) ≤ v ∧ v < 2 ^ 63 then some v else none
  | none => none

/-- A reader used as `strconv.ParseBool` in concrete runs. -/
def parseBoolText (s : String) : Option Bool :=
  if s ∈ ["1", "t", "T", "TRUE", "true", "True"] then some true
  else if s ∈ ["0", "f", "F", "FALSE", "false", "False"] then some false
  else none

/-- An environment given as a list of bindings. -/
def environOf (bindings : List (String × String)) : String → Option String :=
  fun key => bindings.lookup key

/-- An environment over `stubGateway` with the configuration `cfg`. -/
def stubEnvOf (cfg : Config) (bad : List (String × String)) : Env Nat :=
  { cfg := cfg
    mc := stubGateway stubLink bad
    uuidNew := fun n => if n = 0 then "uuid-0" else if n = 1 then "uuid-1"
      else if n = 2 then "uuid-2" else "uuid-n"
    DetectContentType := fun _ => "application/octet-stream" }

/-! ## Contexts of the gateway calls -/

/-- A cancellation entry of the trace. -/
def Event.isCancel : Event → Bool
  | Event.cancel => true
  | _ => false

/-- The context a gateway call was given and whether it was already done. -/
def Event.callCtx : Event → Option (Ctx × Bool)
  | Event.putObject c d _ _ => some (c, d)
  | Event.presignedGetObject c d _ _ _ => some (c, d)
  | Event.removeObject c d _ _ => some (c, d)
  | _ => none

/-- One trace entry is in order: a gateway call was given the context of the batch, done
exactly when `cancelled` says so. -/
def Event.underBatchCtx (e : Event) (cancelled : Bool) : Bool :=
  match e.callCtx with
  | some (c, d) => decide (c = Ctx.batch) && (d == cancelled)
  | none => true

/-- Every gateway call of the trace was given the context of the batch, and that context
was done exactly for the calls that come after a cancellation; `cancelled` tells whether
a cancellation came before the trace. -/
def underBatchCtx : List Event → Bool → Bool
  | [], _ => true
  | e :: t, cancelled => e.underBatchCtx cancelled && underBatchCtx t (cancelled || e.isCancel)

/-! ## The upload handler of CreateMany -/

/-- What opening and reading one uploaded part yields: `file.Open` fails, `io.ReadAll`
fails, or the bytes of the part. -/
inductive Upload where
  | openError (err : String)
  | readError (err : String)
  | bytes (data : List Nat)
  deriving DecidableEq, Repr

/-- A `multipart.FileHeader`: the name the client gave the part, and what opening and
reading the part yields. -/
structure FileHeader where
  Filename : String
  content : Upload
  deriving DecidableEq, Repr

/-- A `multipart.Form`: `File` maps a field name to the parts uploaded under it. -/
structure Form where
  File : List (String × List FileHeader)
  deriving DecidableEq, Repr

/-- `errors.ErrorResponse`; `Details` holds the error the handler puts there, `none`
for nil. -/
structure ErrorResponse where
  Error : String
  Status : Nat
  Details : Option String
  deriving DecidableEq, Repr

/-- `responses.SuccessResponse`; `Data` holds what the `CreateMany` handler puts there, the
slice returned by the service (`none` for nil). -/
structure SuccessResponse where
  Status : Nat
  Message : String
  Data : Option (List CreatedObject)
  deriving DecidableEq, Repr

/-- The JSON answer of a handler. -/
inductive Response where
  | error (r : ErrorResponse)
  | success (r : SuccessResponse)
  deriving DecidableEq, Repr

/-- `http.StatusOK`. -/
def StatusOK : Nat := 200

/-- `http.StatusBadRequest`. -/
def StatusBadRequest : Nat := 400

/-- `http.StatusInternalServerError`. -/
def StatusInternalServerError : Nat := 500

/-- Go's map assignment `m[k] = v`, the map being kept as a list of entries with distinct
keys: the entry of `k` is replaced where it stands, a new key is added. -/
def mapSet (m : List (String × FileDataType)) (k : String) (v : FileDataType) :
    List (String × FileDataType) :=
  match m with
  | [] => [(k, v)]
  | (k1, v1) :: rest => if k1 = k then (k, v) :: rest else (k1, v1) :: mapSet rest k v

/-- How the loop over the uploaded parts ends: with an error answer, or with the map
`data` filled. -/
inductive Collected where
  | failed (r : ErrorResponse)
  | batch (data : List (String × FileDataType))
  deriving DecidableEq, Repr

/-- The loop of lines 109-140 of the `CreateMany` handler, entered with the map `data`:
each part is opened and read, and stored in `data` under its file name; a part that
cannot be opened or read ends the handler with status 500. -/
def collectFiles : List FileHeader → List (String × FileDataType) → Collected
  | [], data => Collected.batch data
  | file :: rest, data =>
    match file.content with
    | Upload.openError err =>
      Collected.failed
        { Status := StatusInternalServerError, Error := "Unable to open the file"
          Details := some err }
    | Upload.readError err =>
      Collected.failed
        { Status := StatusInternalServerError, Error := "Unable to read the file"
          Details := some err }
    | Upload.bytes fileBytes =>
      collectFiles rest
        (mapSet data file.Filename { FileName := file.Filename, Data := fileBytes })

/-- The `CreateMany` handler (lines 80-161). `form` and `formErr` are what
`c.MultipartForm()` returns; `rangeOrder` is the order in which the service's `range`
visits the map it is given; the answer is `none` while the service has not returned. -/
def Handler.CreateMany {σ : Type} (env : Env σ) (g : σ) (form : Form) (formErr : Option String)
    (rangeOrder : List (String × FileDataType) → List (String × FileDataType))
    (sched : Nat → Nat) : Option Response :=
  match formErr with
  | some err =>
    some (Response.error
      { Status := StatusBadRequest, Error := "Invalid form", Details := some err })
  | none =>
    match form.File.lookup "files" with
    | none =>
      some (Response.error
        { Status := StatusBadRequest, Error := "No files are received", Details := none })
    | some files =>
      match collectFiles files [] with
      | Collected.failed r => some (Response.error r)
      | Collected.batch data =>
        match MinioCrud.CreateMany env g (rangeOrder data) sched with
        | none => none
        | some (_, some err) =>
          some (Response.error
            { Status := StatusInternalServerError, Error := "Unable to save the files"
              Details := some err })
        | some (links, none) =>
          some (Response.success
            { Status := StatusOK, Message := "Files uploaded successfully", Data := links })

/-- Three uploaded parts, the first and the last under the same file name. -/
def repeatedUpload : List FileHeader :=
  [{ Filename := "a.txt", content := Upload.bytes [1] },
    { Filename := "b.txt", content := Upload.bytes [2] },
    { Filename := "a.txt", content := Upload.bytes [3] }]

/-- The keys of the successful `PutObject` calls of the trace: the objects stored. -/
def okPuts (log : List Event) : List String :=
  log.filterMap (fun e => match e with
    | Event.putObject _ _ k none => some k
    | _ => none)

/-- One for a unit that is past its `PutObject` call. -/
def CMPc.stored : CMPc → Nat
  | CMPc.notStarted => 0
  | CMPc.atPut => 0
  | _ => 1

/-! ## The trace against the gateway -/

/-- The gateway calls recorded in a trace are the calls the gateway answered:
`GatewayTrace env data g log g1` says that, started in store state `g`, the gateway
called with the arguments recorded in `log` (the context flag, the configured bucket, the
key, and for a put the bytes of an item of `data` with that key and their detected content
type, for a presign the recorded window) gives the recorded results one after the other
and ends in store state `g1`. -/
def GatewayTrace {σ : Type} (env : Env σ) (data : List (String × FileDataType)) :
    σ → List Event → σ → Prop
  | g, [], g1 => g1 = g
  | g, Event.putObject _ d k r :: t, g1 =>
    ∃ file, (k, file) ∈ data ∧
      r = (env.mc.PutObject g d env.cfg.BucketName k file.Data
        (env.DetectContentType file.Data)).2 ∧
      GatewayTrace env data (env.mc.PutObject g d env.cfg.BucketName k file.Data
        (env.DetectContentType file.Data)).1 t g1
  | g, Event.presignedGetObject _ d k e r :: t, g1 =>
    r = (env.mc.PresignedGetObject g d env.cfg.BucketName k e).2 ∧
      GatewayTrace env data (env.mc.PresignedGetObject g d env.cfg.BucketName k e).1 t g1
  | g, Event.removeObject _ d k r :: t, g1 =>
    r = (env.mc.RemoveObject g d env.cfg.BucketName k).2 ∧
      GatewayTrace env data (env.mc.RemoveObject g d env.cfg.BucketName k).1 t g1
  | g, Event.errReported _ _ _ :: t, g1 => GatewayTrace env data g t g1
  | g, Event.urlReported _ _ _ :: t, g1 => GatewayTrace env data g t g1
  | g, Event.cancel :: t, g1 => GatewayTrace env data g t g1
  | g, Event.unitDone _ :: t, g1 => GatewayTrace env data g t g1

/-! # Proofs -/

/-! ## Scheduling lemmas -/

theorem pick_mem {S : Type} (next : S → List S) (n : Nat) (s : S) (h : next s ≠ []) :
    pick next n s ∈ next s := by
  unfold pick
  have hpos : 0 < (next s).length := List.length_pos.mpr h
  have hlt : n % (next s).length < (next s).length := Nat.mod_lt _ hpos
  rw [List.getD_eq_getElem _ _ hlt]
  exact List.getElem_mem _

theorem pick_stuck {S : Type} (next : S → List S) (n : Nat) (s : S) (h : next s = []) :
    pick next n s = s := by
  unfold pick
  simp [h]

theorem exec_stuck {S : Type} (next : S → List S) (fuel : Nat) :
    ∀ (sched : Nat → Nat) (s : S), next s = [] → exec next sched fuel s = s := by
  induction fuel with
  | zero => intro sched s _; rfl
  | succ n ih =>
    intro sched s h
    simp only [exec, pick_stuck next _ s h]
    exact ih _ s h

/-- An invariant of every enabled action holds along every run. -/
theorem exec_invariant {S : Type} (next : S → List S) (Inv : S → Prop)
    (hstep : ∀ s s', Inv s → s' ∈ next s → Inv s') (fuel : Nat) :
    ∀ (sched : Nat → Nat) (s : S), Inv s → Inv (exec next sched fuel s) := by
  induction fuel with
  | zero => intro sched s h; exact h
  | succ n ih =>
    intro sched s h
    simp only [exec]
    apply ih
    by_cases hn : next s = []
    · rw [pick_stuck next _ s hn]; exact h
    · exact hstep s _ h (pick_mem next _ s hn)

/-- With a measure that every enabled action decreases, a run with enough fuel ends
in a state where nothing is enabled. -/
theorem exec_quiescent {S : Type} (next : S → List S) (Inv : S → Prop) (μ : S → Nat)
    (hstep : ∀ s s', Inv s → s' ∈ next s → Inv s')
    (hdec : ∀ s s', Inv s → s' ∈ next s → μ s' < μ s) (fuel : Nat) :
    ∀ (sched : Nat → Nat) (s : S), Inv s → μ s ≤ fuel → next (exec next sched fuel s) = [] := by
  induction fuel with
  | zero =>
    intro sched s h hm
    simp only [exec]
    by_contra hn
    obtain ⟨s', hs'⟩ := List.exists_mem_of_ne_nil _ hn
    have := hdec s s' h hs'
    omega
  | succ n ih =>
    intro sched s h hm
    simp only [exec]
    by_cases hn : next s = []
    · rw [pick_stuck next _ s hn, exec_stuck next n _ s hn]; exact hn
    · have hmem := pick_mem next (sched 0) s hn
      exact ih _ _ (hstep s _ h hmem) (by have := hdec s _ h hmem; omega)

/-- Sum of a weight over a list after one entry is replaced. -/
theorem sum_map_set {α : Type} (f : α → Nat) (l : List α) (i : Nat) (a b : α)
    (h : l[i]? = some a) : ((l.set i b).map f).sum + f a = (l.map f).sum + f b := by
  induction l generalizing i with
  | nil => simp at h
  | cons x xs ih =>
    cases i with
    | zero => simp at h; subst h; simp; omega
    | succ j =>
      simp at h
      have := ih j h
      simp only [List.set_cons_succ, List.map_cons, List.sum_cons]
      omega




/-! ## CreateMany: actions -/

theorem cmNext_step {σ : Type} (env : Env σ) (s s' : CMState σ) (h : s' ∈ cmNext env s) :
    CMStep env s s' := by
  simp only [cmNext, List.mem_append, List.mem_flatMap, List.mem_range] at h
  rcases h with (hm | hc) | ⟨i, -, hw⟩
  · unfold cmMainStep at hm
    split at hm
    · rename_i k hmain
      split at hm
      · rename_i w hw
        simp only [List.mem_singleton] at hm
        subst hm
        exact CMStep.spawn k w hmain hw
      · rename_i hw
        simp only [List.mem_singleton] at hm
        subst hm
        exact CMStep.spawnEnd k hmain hw
    · rename_i hmain
      split at hm
      · rename_i u rest hu
        simp only [List.mem_singleton] at hm
        subst hm
        exact CMStep.collect u rest hmain hu
      · rename_i hu
        split at hm
        · rename_i hc
          simp only [List.mem_singleton] at hm
          subst hm
          exact CMStep.collectEnd hmain hu hc
        · simp at hm
    · rename_i hmain
      split at hm
      · rename_i err rest he
        simp only [List.mem_singleton] at hm
        subst hm
        exact CMStep.recvErr err rest hmain he
      · rename_i he
        split at hm
        · rename_i hc
          simp only [List.mem_singleton] at hm
          subst hm
          exact CMStep.recvNil hmain he hc
        · simp at hm
    · simp at hm
  · unfold cmCloserStep at hc
    split at hc
    · simp at hc
    · rename_i hcl
      split at hc
      · rename_i hwg
        simp only [List.mem_singleton] at hc
        subst hc
        exact CMStep.closeUrl hcl hwg
      · simp at hc
    · rename_i hcl
      simp only [List.mem_singleton] at hc
      subst hc
      exact CMStep.closeErr hcl
    · simp at hc
  · unfold cmWorkerStep at hw
    split at hw
    · simp at hw
    · rename_i w hget
      split at hw
      · simp at hw
      · rename_i hpc
        split at hw
        · rename_i w1 err heq
          simp only [List.mem_singleton] at hw
          subst hw
          have h1 : (callPut env s.world Ctx.batch s.cancelled w.objectID w.file.Data).1 = w1 := by
            rw [heq]
          have h2 : (callPut env s.world Ctx.batch s.cancelled w.objectID w.file.Data).2
              = some err := by rw [heq]
          rw [← h1]
          exact CMStep.putFail i w err hget hpc h2
        · rename_i w1 heq
          simp only [List.mem_singleton] at hw
          subst hw
          have h1 : (callPut env s.world Ctx.batch s.cancelled w.objectID w.file.Data).1 = w1 := by
            rw [heq]
          have h2 : (callPut env s.world Ctx.batch s.cancelled w.objectID w.file.Data).2
              = none := by rw [heq]
          rw [← h1]
          exact CMStep.putOk i w hget hpc h2
      · rename_i hpc
        split at hw
        · rename_i w1 err heq
          simp only [List.mem_singleton] at hw
          subst hw
          have h1 : (callPresign env s.world Ctx.batch s.cancelled w.objectID
              (createExpiry env.cfg)).1 = w1 := by rw [heq]
          have h2 : (callPresign env s.world Ctx.batch s.cancelled w.objectID
              (createExpiry env.cfg)).2 = Presigned.fail err := by rw [heq]
          rw [← h1]
          exact CMStep.presignFail i w err hget hpc h2
        · rename_i w1 u heq
          simp only [List.mem_singleton] at hw
          subst hw
          have h1 : (callPresign env s.world Ctx.batch s.cancelled w.objectID
              (createExpiry env.cfg)).1 = w1 := by rw [heq]
          have h2 : (callPresign env s.world Ctx.batch s.cancelled w.objectID
              (createExpiry env.cfg)).2 = Presigned.url u := by rw [heq]
          rw [← h1]
          exact CMStep.presignOk i w u hget hpc h2
      · rename_i err hpc
        split at hw
        · rename_i hroom
          simp only [List.mem_singleton] at hw
          subst hw
          exact CMStep.errCapture i w err hget hpc hroom
        · rename_i hfull
          simp only [List.mem_singleton] at hw
          subst hw
          exact CMStep.errDrop i w err hget hpc hfull
      · rename_i hpc
        simp only [List.mem_singleton] at hw
        subst hw
        exact CMStep.cancel i w hget hpc
      · rename_i u hpc
        simp only [List.mem_append] at hw
        rcases hw with hw | hw
        · split at hw
          · rename_i hroom
            simp only [List.mem_singleton] at hw
            subst hw
            exact CMStep.urlSend i w u hget hpc hroom
          · simp at hw
        · split at hw
          · rename_i hdone
            simp only [List.mem_singleton] at hw
            subst hw
            exact CMStep.urlDrop i w u hget hpc hdone
          · simp at hw
      · simp at hw

theorem cmStep_next {σ : Type} (env : Env σ) (s s' : CMState σ) (h : CMStep env s s') :
    s' ∈ cmNext env s := by
  have hidx : ∀ (i : Nat) (w : CMWorker), s.workers[i]? = some w → i < s.workers.length := by
    intro i w hw
    exact (List.getElem?_eq_some.mp hw).1
  simp only [cmNext, List.mem_append, List.mem_flatMap, List.mem_range]
  cases h with
  | spawn k w hm hw => left; left; simp [cmMainStep, hm, hw]
  | spawnEnd k hm hw => left; left; simp [cmMainStep, hm, hw]
  | collect u rest hm hu => left; left; simp [cmMainStep, hm, hu]
  | collectEnd hm hu hc => left; left; simp [cmMainStep, hm, hu, hc]
  | recvErr err rest hm he => left; left; simp [cmMainStep, hm, he]
  | recvNil hm he hc => left; left; simp [cmMainStep, hm, he, hc]
  | closeUrl hc hwg => left; right; simp [cmCloserStep, hc, hwg]
  | closeErr hc => left; right; simp [cmCloserStep, hc]
  | putFail i w err hw hpc hr =>
    right; refine ⟨i, hidx i w hw, ?_⟩
    simp only [cmWorkerStep, hw, hpc]
    split <;> rename_i heq <;> rw [heq] at hr <;> simp at hr
    subst hr; simp [heq]
  | putOk i w hw hpc hr =>
    right; refine ⟨i, hidx i w hw, ?_⟩
    simp only [cmWorkerStep, hw, hpc]
    split <;> rename_i heq <;> rw [heq] at hr <;> simp at hr
    simp [heq]
  | presignFail i w err hw hpc hr =>
    right; refine ⟨i, hidx i w hw, ?_⟩
    simp only [cmWorkerStep, hw, hpc]
    split <;> rename_i heq <;> rw [heq] at hr <;> simp at hr
    subst hr; simp [heq]
  | presignOk i w u hw hpc hr =>
    right; refine ⟨i, hidx i w hw, ?_⟩
    simp only [cmWorkerStep, hw, hpc]
    split <;> rename_i heq <;> rw [heq] at hr <;> simp at hr
    subst hr; simp [heq]
  | errCapture i w err hw hpc hroom =>
    right; refine ⟨i, hidx i w hw, ?_⟩
    simp [cmWorkerStep, hw, hpc, hroom]
  | errDrop i w err hw hpc hfull =>
    right; refine ⟨i, hidx i w hw, ?_⟩
    simp [cmWorkerStep, hw, hpc, hfull]
  | cancel i w hw hpc =>
    right; refine ⟨i, hidx i w hw, ?_⟩
    simp [cmWorkerStep, hw, hpc]
  | urlSend i w u hw hpc hroom =>
    right; refine ⟨i, hidx i w hw, ?_⟩
    simp [cmWorkerStep, hw, hpc, hroom]
  | urlDrop i w u hw hpc hdone =>
    right; refine ⟨i, hidx i w hw, ?_⟩
    simp [cmWorkerStep, hw, hpc, hdone]


theorem cmCtl_init {σ : Type} (g : σ) (data : List (String × FileDataType)) :
    CMCtl (cmInit g data) := by
  constructor <;> simp [cmInit, World.init, cmSpawned, CMMain.weight, cmErrCap, Function.comp_def,
    CMPc.active, CMPc.live]
  intro i w a b _ hw
  rw [← hw]

/-! ## CreateMany: control invariant -/

theorem getElem?_lt {α : Type} (l : List α) (i : Nat) (a : α) (h : l[i]? = some a) :
    i < l.length := (List.getElem?_eq_some.mp h).1

theorem mem_of_getElem? {α : Type} (l : List α) (i : Nat) (a : α) (h : l[i]? = some a) :
    a ∈ l := by
  obtain ⟨h1, h2⟩ := List.getElem?_eq_some.mp h
  rw [← h2]; exact List.getElem_mem _

theorem cm_sum_set (f : CMPc → Nat) (l : List CMWorker) (i : Nat) (w : CMWorker) (pc : CMPc)
    (hw : l[i]? = some w) :
    ((l.set i { w with pc := pc }).map (fun w => f w.pc)).sum + f w.pc
      = (l.map (fun w => f w.pc)).sum + f pc :=
  sum_map_set (fun w => f w.pc) l i w { w with pc := pc } hw

theorem cmCtl_worker {σ : Type} (s : CMState σ) (h : CMCtl s) (i : Nat) (w : CMWorker)
    (hw : s.workers[i]? = some w) :
    s.urlClosed = false ∨ w.pc = CMPc.finished := by
  cases hc : s.urlClosed with
  | false => exact Or.inl rfl
  | true => exact Or.inr (h.all_done hc w (mem_of_getElem? _ _ _ hw))

theorem cmSpawned_congr {σ : Type} (s s' : CMState σ) (e1 : s'.main = s.main)
    (e2 : s'.workers.length = s.workers.length) : cmSpawned s' = cmSpawned s := by
  simp only [cmSpawned, e1, e2]

/-- The launched units keep the property "not `notStarted`" when one of them moves. -/
theorem cmCtl_spawned_set {σ : Type} (s s' : CMState σ) (h : CMCtl s) (i : Nat) (w : CMWorker)
    (pc : CMPc) (hw : s.workers[i]? = some w) (hns : w.pc ≠ CMPc.notStarted)
    (hpns : pc ≠ CMPc.notStarted)
    (e1 : s'.workers = s.workers.set i { w with pc := pc }) (e8 : s'.main = s.main) :
    ∀ j w', s'.workers[j]? = some w' → (w'.pc = CMPc.notStarted ↔ cmSpawned s' ≤ j) := by
  intro j w' hj
  rw [cmSpawned_congr s s' e8 (by rw [e1, List.length_set])]
  rw [e1, List.getElem?_set] at hj
  split at hj
  · rename_i hij
    split at hj
    · simp only [Option.some.injEq] at hj
      subst hj; subst hij
      have := h.spawned i w hw
      simp only [hpns, false_iff]
      rw [← this]; exact hns
    · simp at hj
  · exact h.spawned j w' hj

/-- A unit moves from one launched, unfinished program counter to another. -/
theorem cmCtl_move {σ : Type} (s s' : CMState σ) (h : CMCtl s) (i : Nat) (w : CMWorker)
    (pc : CMPc) (hw : s.workers[i]? = some w)
    (h1 : w.pc.active = 1) (h2 : pc.active = 1)
    (e1 : s'.workers = s.workers.set i { w with pc := pc }) (e2 : s'.wg = s.wg)
    (e3 : s'.urlCh = s.urlCh) (e4 : s'.urlClosed = s.urlClosed)
    (e5 : s'.errCh.length ≤ cmErrCap) (e6 : s'.errClosed = s.errClosed)
    (e7 : s'.closer = s.closer) (e8 : s'.main = s.main) (e9 : s'.objects = s.objects) :
    CMCtl s' := by
  have hA := cm_sum_set CMPc.active s.workers i w pc hw
  have hL := cm_sum_set CMPc.live s.workers i w pc hw
  have hlive : w.pc.live = 1 := by
    cases hp : w.pc <;> simp [hp, CMPc.active, CMPc.live] at h1 ⊢
  have h3 : pc.live = 1 := by
    cases pc <;> simp [CMPc.active, CMPc.live] at h2 ⊢
  have hns : w.pc ≠ CMPc.notStarted := by
    intro hp; simp [hp, CMPc.active] at h1
  have hnf : w.pc ≠ CMPc.finished := by
    intro hp; simp [hp, CMPc.active] at h1
  have hpns : pc ≠ CMPc.notStarted := by
    intro hp; simp [hp, CMPc.active] at h2
  have hopen : s.urlClosed = false := by
    rcases cmCtl_worker s h i w hw with h | h
    · exact h
    · exact absurd h hnf
  rw [h1, h2] at hA
  rw [hlive, h3] at hL
  constructor
  · rw [e2, e1]; have := h.wg_eq; omega
  · exact cmCtl_spawned_set s s' h i w pc hw hns hpns e1 e8
  · rw [e7, e8]; exact h.closer_start
  · intro hc; rw [e4, hopen] at hc; simp at hc
  · rw [e4, e7]; exact h.url_closed
  · rw [e6, e7]; exact h.err_closed
  · rw [e8, e4, e3]; exact h.main_past
  · rw [e9, e3, e1, List.length_set]; have := h.capacity; omega
  · exact e5

/-- A unit finishes, possibly after sending on `urlCh`. -/
theorem cmCtl_finish {σ : Type} (s s' : CMState σ) (h : CMCtl s) (i : Nat) (w : CMWorker)
    (hw : s.workers[i]? = some w) (h1 : w.pc.active = 1)
    (e1 : s'.workers = s.workers.set i { w with pc := CMPc.finished }) (e2 : s'.wg = s.wg - 1)
    (e3 : s'.urlCh.length ≤ s.urlCh.length + 1) (e4 : s'.urlClosed = s.urlClosed)
    (e5 : s'.errCh = s.errCh) (e6 : s'.errClosed = s.errClosed)
    (e7 : s'.closer = s.closer) (e8 : s'.main = s.main) (e9 : s'.objects = s.objects) :
    CMCtl s' := by
  have hA := cm_sum_set CMPc.active s.workers i w CMPc.finished hw
  have hL := cm_sum_set CMPc.live s.workers i w CMPc.finished hw
  have hfa : CMPc.finished.active = 0 := rfl
  have hfl : CMPc.finished.live = 0 := rfl
  have hlive : w.pc.live = 1 := by
    cases hp : w.pc <;> simp [hp, CMPc.active, CMPc.live] at h1 ⊢
  have hns : w.pc ≠ CMPc.notStarted := by
    intro hp; simp [hp, CMPc.active] at h1
  have hnf : w.pc ≠ CMPc.finished := by
    intro hp; simp [hp, CMPc.active] at h1
  have hopen : s.urlClosed = false := by
    rcases cmCtl_worker s h i w hw with h | h
    · exact h
    · exact absurd h hnf
  rw [h1, hfa] at hA
  rw [hlive, hfl] at hL
  constructor
  · rw [e2, e1]; have := h.wg_eq; omega
  · exact cmCtl_spawned_set s s' h i w _ hw hns (by simp) e1 e8
  · rw [e7, e8]; exact h.closer_start
  · intro hc; rw [e4, hopen] at hc; simp at hc
  · rw [e4, e7]; exact h.url_closed
  · rw [e6, e7]; exact h.err_closed
  · intro hm; rw [e8] at hm; have := (h.main_past hm).1; rw [hopen] at this; simp at this
  · rw [e9, e1, List.length_set]; have := h.capacity; omega
  · rw [e5]; exact h.err_capacity

theorem sum_eq_zero_mem (l : List Nat) (h : l.sum = 0) : ∀ x ∈ l, x = 0 := by
  induction l with
  | nil => simp
  | cons a t ih =>
    simp only [List.sum_cons] at h
    intro x hx
    rcases List.mem_cons.mp hx with rfl | hx
    · omega
    · exact ih (by omega) x hx

theorem cmCtl_step {σ : Type} (env : Env σ) (s s' : CMState σ) (h : CMCtl s)
    (hstep : CMStep env s s') : CMCtl s' := by
  cases hstep with
  | spawn k w hm hw =>
    have hpc : w.pc = CMPc.notStarted := by
      rw [h.spawned k w hw]; simp [cmSpawned, hm]
    have hA := cm_sum_set CMPc.active s.workers k w CMPc.atPut hw
    have hL := cm_sum_set CMPc.live s.workers k w CMPc.atPut hw
    have hfa : CMPc.atPut.active = 1 := rfl
    have hfl : CMPc.atPut.live = 1 := rfl
    have hna : CMPc.notStarted.active = 0 := rfl
    have hnl : CMPc.notStarted.live = 1 := rfl
    rw [hpc, hfa, hna] at hA
    rw [hpc, hfl, hnl] at hL
    have hopen : s.urlClosed = false := by
      rcases cmCtl_worker s h k w hw with h | h
      · exact h
      · rw [hpc] at h; simp at h
    constructor
    · simp only; have := h.wg_eq; omega
    · intro j w' hj
      simp only [List.getElem?_set] at hj
      simp only [cmSpawned]
      split at hj
      · rename_i hij
        split at hj
        · simp only [Option.some.injEq] at hj
          subst hj; subst hij; simp
        · simp at hj
      · rename_i hij
        have := h.spawned j w' hj
        simp only [cmSpawned, hm] at this
        rw [this]; omega
    · simp only; have := h.closer_start; rw [this]; simp [hm]
    · intro hc; simp only at hc; rw [hopen] at hc; simp at hc
    · exact h.url_closed
    · exact h.err_closed
    · simp [CMMain.weight]
    · simp only [List.length_set]; have := h.capacity; omega
    · exact h.err_capacity
  | spawnEnd k hm hw =>
    have hge : s.workers.length ≤ k := by
      by_contra hlt
      have : k < s.workers.length := by omega
      rw [List.getElem?_eq_getElem this] at hw; simp at hw
    have hcl : s.closer = CloserPc.notStarted := h.closer_start.mpr ⟨k, hm⟩
    have hopen : s.urlClosed = false := by
      cases hc : s.urlClosed with
      | false => rfl
      | true => have := h.url_closed.mp hc; rw [hcl] at this; simp at this
    constructor
    · exact h.wg_eq
    · intro j w' hj
      have hj' : j < s.workers.length := getElem?_lt _ _ _ hj
      have := h.spawned j w' hj
      simp only [cmSpawned, hm] at this
      simp only [cmSpawned]
      rw [this]; omega
    · simp
    · intro hc; simp only at hc; rw [hopen] at hc; simp at hc
    · simp [hopen]
    · simp only; have := h.err_closed; rw [hcl] at this; simp at this ⊢; exact this
    · simp [CMMain.weight]
    · exact h.capacity
    · exact h.err_capacity
  | collect u rest hm hu =>
    constructor
    · exact h.wg_eq
    · intro j w' hj
      have := h.spawned j w' hj
      simp only [cmSpawned, hm] at this
      simp only [cmSpawned, hm]; exact this
    · exact h.closer_start
    · exact h.all_done
    · exact h.url_closed
    · exact h.err_closed
    · simp [hm, CMMain.weight]
    · have := h.capacity; simp only [hu, List.length_cons] at this
      simp only [List.length_append, List.length_singleton]; omega
    · exact h.err_capacity
  | collectEnd hm hu hc =>
    constructor
    · exact h.wg_eq
    · intro j w' hj
      have := h.spawned j w' hj
      simp only [cmSpawned, hm] at this
      simp only [cmSpawned]; exact this
    · simp only; have := h.closer_start; rw [this]; simp [hm]
    · exact h.all_done
    · exact h.url_closed
    · exact h.err_closed
    · intro _; exact ⟨hc, hu⟩
    · exact h.capacity
    · exact h.err_capacity
  | recvErr err rest hm he =>
    have hp := h.main_past (by simp [hm, CMMain.weight])
    constructor
    · exact h.wg_eq
    · intro j w' hj
      have := h.spawned j w' hj
      simp only [cmSpawned, hm] at this
      simp only [cmSpawned, cmLog]; exact this
    · simp only [cmLog]; have := h.closer_start; rw [this]; simp [hm]
    · exact h.all_done
    · exact h.url_closed
    · exact h.err_closed
    · intro _; exact hp
    · exact h.capacity
    · have := h.err_capacity; simp only [he, List.length_cons] at this
      simp only [cmLog]; omega
  | recvNil hm he hc =>
    have hp := h.main_past (by simp [hm, CMMain.weight])
    constructor
    · exact h.wg_eq
    · intro j w' hj
      have := h.spawned j w' hj
      simp only [cmSpawned, hm] at this
      simp only [cmSpawned, cmLog]; exact this
    · simp only [cmLog]; have := h.closer_start; rw [this]; simp [hm]
    · exact h.all_done
    · exact h.url_closed
    · exact h.err_closed
    · intro _; exact hp
    · exact h.capacity
    · exact h.err_capacity
  | closeUrl hc hwg =>
    have hsum := h.wg_eq
    rw [hwg] at hsum
    have hmain : cmSpawned s = s.workers.length := by
      simp only [cmSpawned]
      split
      · rename_i k hk
        have := h.closer_start.mpr ⟨k, hk⟩
        rw [hc] at this; simp at this
      · rfl
    constructor
    · exact h.wg_eq
    · exact h.spawned
    · simp only; have := h.closer_start; rw [hc] at this; simpa using this
    · intro _ w hw
      have hw' : w ∈ s.workers := hw
      obtain ⟨j, hj, hjw⟩ := List.mem_iff_getElem.mp hw'
      have hget : s.workers[j]? = some w := by rw [List.getElem?_eq_getElem hj, hjw]
      have hns := h.spawned j w hget
      rw [hmain] at hns
      have hact := sum_eq_zero_mem _ hsum.symm (w.pc.active)
        (List.mem_map.mpr ⟨w, hw', rfl⟩)
      cases hp : w.pc <;> simp [hp, CMPc.active] at hact hns ⊢
      omega
    · simp
    · simp only; have := h.err_closed; rw [hc] at this; simpa using this
    · intro hm
      have := (h.main_past hm).1
      have := h.url_closed.mp this
      rw [hc] at this; simp at this
    · exact h.capacity
    · exact h.err_capacity
  | closeErr hc =>
    have hcl : s.urlClosed = true := h.url_closed.mpr (Or.inl hc)
    constructor
    · exact h.wg_eq
    · exact h.spawned
    · simp only; have := h.closer_start; rw [hc] at this; simpa using this
    · intro _; exact h.all_done hcl
    · simp [hcl]
    · simp
    · intro hm; exact h.main_past hm
    · exact h.capacity
    · exact h.err_capacity
  | putFail i w err hw hpc hr =>
    exact cmCtl_move s _ h i w _ hw (by simp [hpc, CMPc.active]) (by simp [CMPc.active])
      rfl rfl rfl rfl h.err_capacity rfl rfl rfl rfl
  | putOk i w hw hpc hr =>
    exact cmCtl_move s _ h i w _ hw (by simp [hpc, CMPc.active]) (by simp [CMPc.active])
      rfl rfl rfl rfl h.err_capacity rfl rfl rfl rfl
  | presignFail i w err hw hpc hr =>
    exact cmCtl_move s _ h i w _ hw (by simp [hpc, CMPc.active]) (by simp [CMPc.active])
      rfl rfl rfl rfl h.err_capacity rfl rfl rfl rfl
  | presignOk i w u hw hpc hr =>
    exact cmCtl_move s _ h i w _ hw (by simp [hpc, CMPc.active]) (by simp [CMPc.active])
      rfl rfl rfl rfl h.err_capacity rfl rfl rfl rfl
  | errCapture i w err hw hpc hroom =>
    exact cmCtl_move s _ h i w _ hw (by simp [hpc, CMPc.active]) (by simp [CMPc.active])
      rfl rfl rfl rfl (by simp only [List.length_append, List.length_singleton, cmLog]; omega)
      rfl rfl rfl rfl
  | errDrop i w err hw hpc hfull =>
    exact cmCtl_finish s _ h i w hw (by simp [hpc, CMPc.active]) rfl rfl (by simp [cmFinish, cmLog])
      rfl rfl rfl rfl rfl rfl
  | cancel i w hw hpc =>
    exact cmCtl_finish s _ h i w hw (by simp [hpc, CMPc.active]) rfl rfl (by simp [cmFinish, cmLog])
      rfl rfl rfl rfl rfl rfl
  | urlSend i w u hw hpc hroom =>
    exact cmCtl_finish s _ h i w hw (by simp [hpc, CMPc.active]) rfl rfl (by simp [cmFinish, cmLog])
      rfl rfl rfl rfl rfl rfl
  | urlDrop i w u hw hpc hdone =>
    exact cmCtl_finish s _ h i w hw (by simp [hpc, CMPc.active]) rfl rfl (by simp [cmFinish, cmLog])
      rfl rfl rfl rfl rfl rfl

/-! ## CreateMany: termination -/

theorem cmMeasure_step {σ : Type} (env : Env σ) (s s' : CMState σ) (h : CMCtl s)
    (hstep : CMStep env s s') : cmMeasure s' < cmMeasure s := by
  have hw6 : CMPc.notStarted.weight = 6 := rfl
  have hw5 : CMPc.atPut.weight = 5 := rfl
  have hw4 : CMPc.atPresign.weight = 4 := rfl
  have hw3 : ∀ u, (CMPc.atUrlSelect u).weight = 3 := fun _ => rfl
  have hw2 : ∀ e, (CMPc.atErrSelect e).weight = 2 := fun _ => rfl
  have hw1 : CMPc.atCancel.weight = 1 := rfl
  have hw0 : CMPc.finished.weight = 0 := rfl
  cases hstep with
  | spawn k w hm hw =>
    have hpc : w.pc = CMPc.notStarted := by
      rw [h.spawned k w hw]; simp [cmSpawned, hm]
    have hW := cm_sum_set CMPc.weight s.workers k w CMPc.atPut hw
    rw [hpc, hw6, hw5] at hW
    simp only [cmMeasure, hm, CMMain.weight]
    omega
  | spawnEnd k hm hw =>
    have hcl : s.closer = CloserPc.notStarted := h.closer_start.mpr ⟨k, hm⟩
    simp only [cmMeasure, hm, hcl, CMMain.weight, CloserPc.weight]
    omega
  | collect u rest hm hu =>
    simp only [cmMeasure, hm, hu, List.length_cons]
    omega
  | collectEnd hm hu hc =>
    simp only [cmMeasure, hm, CMMain.weight]
    omega
  | recvErr err rest hm he =>
    simp only [cmMeasure, hm, CMMain.weight, cmLog]
    omega
  | recvNil hm he hc =>
    simp only [cmMeasure, hm, CMMain.weight, cmLog]
    omega
  | closeUrl hc hwg =>
    simp only [cmMeasure, hc, CloserPc.weight]
    omega
  | closeErr hc =>
    simp only [cmMeasure, hc, CloserPc.weight]
    omega
  | putFail i w err hw hpc hr =>
    have hW := cm_sum_set CMPc.weight s.workers i w (CMPc.atErrSelect err) hw
    rw [hpc, hw5, hw2] at hW
    simp only [cmMeasure]
    omega
  | putOk i w hw hpc hr =>
    have hW := cm_sum_set CMPc.weight s.workers i w CMPc.atPresign hw
    rw [hpc, hw5, hw4] at hW
    simp only [cmMeasure]
    omega
  | presignFail i w err hw hpc hr =>
    have hW := cm_sum_set CMPc.weight s.workers i w (CMPc.atErrSelect err) hw
    rw [hpc, hw4, hw2] at hW
    simp only [cmMeasure]
    omega
  | presignOk i w u hw hpc hr =>
    have hW := cm_sum_set CMPc.weight s.workers i w (CMPc.atUrlSelect u) hw
    rw [hpc, hw4, hw3] at hW
    simp only [cmMeasure]
    omega
  | errCapture i w err hw hpc hroom =>
    have hW := cm_sum_set CMPc.weight s.workers i w CMPc.atCancel hw
    rw [hpc, hw2, hw1] at hW
    simp only [cmMeasure, cmLog]
    omega
  | errDrop i w err hw hpc hfull =>
    have hW := cm_sum_set CMPc.weight s.workers i w CMPc.finished hw
    rw [hpc, hw2, hw0] at hW
    simp only [cmMeasure, cmLog, cmFinish]
    omega
  | cancel i w hw hpc =>
    have hW := cm_sum_set CMPc.weight s.workers i w CMPc.finished hw
    rw [hpc, hw1, hw0] at hW
    simp only [cmMeasure, cmLog, cmFinish]
    omega
  | urlSend i w u hw hpc hroom =>
    have hW := cm_sum_set CMPc.weight s.workers i w CMPc.finished hw
    rw [hpc, hw3, hw0] at hW
    simp only [cmMeasure, cmLog, cmFinish, List.length_append, List.length_singleton]
    omega
  | urlDrop i w u hw hpc hdone =>
    have hW := cm_sum_set CMPc.weight s.workers i w CMPc.finished hw
    rw [hpc, hw3, hw0] at hW
    simp only [cmMeasure, cmLog, cmFinish]
    omega

theorem exists_pos_of_sum_pos {α : Type} (f : α → Nat) (l : List α) (h : 0 < (l.map f).sum) :
    ∃ (i : Nat) (a : α), l[i]? = some a ∧ 0 < f a := by
  induction l with
  | nil => simp at h
  | cons x xs ih =>
    simp only [List.map_cons, List.sum_cons] at h
    by_cases hx : 0 < f x
    · exact ⟨0, x, by simp, hx⟩
    · obtain ⟨i, a, hi, ha⟩ := ih (by omega)
      exact ⟨i + 1, a, by simpa using hi, ha⟩

/-- Some action is enabled as long as `CreateMany` has not returned. -/
theorem cm_progress {σ : Type} (env : Env σ) (s : CMState σ) (h : CMCtl s)
    (hm : s.main.weight ≠ 0) : ∃ s', CMStep env s s' := by
  cases hmain : s.main with
  | spawning k =>
    cases hw : s.workers[k]? with
    | none => exact ⟨_, CMStep.spawnEnd k hmain hw⟩
    | some w => exact ⟨_, CMStep.spawn k w hmain hw⟩
  | returned objs err => rw [hmain] at hm; simp [CMMain.weight] at hm
  | atErrRecv =>
    cases he : s.errCh with
    | cons err rest => exact ⟨_, CMStep.recvErr err rest hmain he⟩
    | nil =>
      cases hc : s.errClosed with
      | true => exact ⟨_, CMStep.recvNil hmain he hc⟩
      | false =>
        have hu := (h.main_past (by simp [hmain, CMMain.weight])).1
        have hcl := h.url_closed.mp hu
        rcases hcl with hcl | hcl
        · exact ⟨_, CMStep.closeErr hcl⟩
        · have := h.err_closed.mpr hcl
          rw [hc] at this; simp at this
  | collecting =>
    cases hu : s.urlCh with
    | cons u rest => exact ⟨_, CMStep.collect u rest hmain hu⟩
    | nil =>
      cases hc : s.urlClosed with
      | true => exact ⟨_, CMStep.collectEnd hmain hu hc⟩
      | false =>
        have hcl : s.closer = CloserPc.atWait := by
          cases hx : s.closer with
          | atWait => rfl
          | notStarted =>
            obtain ⟨k, hk⟩ := h.closer_start.mp hx
            rw [hmain] at hk; simp at hk
          | atCloseErr => have := h.url_closed.mpr (Or.inl hx); rw [hc] at this; simp at this
          | finished => have := h.url_closed.mpr (Or.inr hx); rw [hc] at this; simp at this
        by_cases hwg : s.wg = 0
        · exact ⟨_, CMStep.closeUrl hcl hwg⟩
        · have hpos : 0 < (s.workers.map (fun w => w.pc.active)).sum := by
            have := h.wg_eq; omega
          obtain ⟨i, w, hw, hact⟩ := exists_pos_of_sum_pos _ _ hpos
          have hlen := getElem?_lt _ _ _ hw
          cases hpc : w.pc with
          | notStarted => rw [hpc] at hact; simp [CMPc.active] at hact
          | finished => rw [hpc] at hact; simp [CMPc.active] at hact
          | atPut =>
            cases hr : (callPut env s.world Ctx.batch s.cancelled w.objectID w.file.Data).2 with
            | none => exact ⟨_, CMStep.putOk i w hw hpc hr⟩
            | some err => exact ⟨_, CMStep.putFail i w err hw hpc hr⟩
          | atPresign =>
            cases hr : (callPresign env s.world Ctx.batch s.cancelled w.objectID
              (createExpiry env.cfg)).2 with
            | url u => exact ⟨_, CMStep.presignOk i w u hw hpc hr⟩
            | fail err => exact ⟨_, CMStep.presignFail i w err hw hpc hr⟩
          | atErrSelect err =>
            by_cases hroom : s.errCh.length < cmErrCap
            · exact ⟨_, CMStep.errCapture i w err hw hpc hroom⟩
            · exact ⟨_, CMStep.errDrop i w err hw hpc hroom⟩
          | atCancel => exact ⟨_, CMStep.cancel i w hw hpc⟩
          | atUrlSelect u =>
            exact ⟨_, CMStep.urlSend i w u hw hpc (by
              simp only [hu, List.length_nil, CMState.urlCap]; omega)⟩

theorem cmMeasure_init {σ : Type} (g : σ) (data : List (String × FileDataType)) :
    cmMeasure (cmInit g data) ≤ cmFuel data.length := by
  simp [cmMeasure, cmInit, cmFuel, CMMain.weight, CloserPc.weight, Function.comp_def,
    CMPc.weight]
  omega

/-! ## Lists and traces -/

theorem mem_set_self' {α : Type} (l : List α) (i : Nat) (a b : α) (h : l[i]? = some a) :
    b ∈ l.set i b := by
  have hlt := getElem?_lt l i a h
  exact List.mem_iff_getElem.mpr ⟨i, by simpa using hlt, by simp⟩

theorem mem_of_mem_set' {α : Type} (l : List α) (i : Nat) (b x : α) (hx : x ∈ l.set i b) :
    x = b ∨ x ∈ l := by
  rcases List.mem_or_eq_of_mem_set hx with h1 | h1
  · exact Or.inr h1
  · exact Or.inl h1

theorem mem_set_of_ne {α : Type} (l : List α) (i : Nat) (a b x : α) (h : l[i]? = some a)
    (hx : x ∈ l) (hne : x ≠ a) : x ∈ l.set i b := by
  obtain ⟨j, hj, hjx⟩ := List.mem_iff_getElem.mp hx
  have hij : i ≠ j := by
    intro hij
    subst hij
    rw [List.getElem?_eq_getElem hj] at h
    simp only [Option.some.injEq] at h
    exact hne (hjx.symm.trans h)
  exact List.mem_iff_getElem.mpr ⟨j, by simpa using hj, by simp [List.getElem_set, hij, hjx]⟩

theorem reports_append (l : List Event) (e : Event) :
    reports (l ++ [e]) = reports l ++ reports [e] := by
  simp [reports, List.filterMap_append]

theorem failures_append (l : List Event) (e : Event) :
    failures (l ++ [e]) = failures l ++ failures [e] := by
  simp [failures, List.filterMap_append]

theorem okPresigns_append (l : List Event) (e : Event) :
    okPresigns (l ++ [e]) = okPresigns l ++ okPresigns [e] := by
  simp [okPresigns, List.filterMap_append]

theorem anyFailed_append (l : List Event) (e : Event) :
    anyFailed (l ++ [e]) = (anyFailed l || e.failed) := by
  simp [anyFailed, List.any_append]

theorem failures_nil_of_not_failed (l : List Event) (h : anyFailed l = false) :
    failures l = [] := by
  induction l with
  | nil => rfl
  | cons e t ih =>
    simp only [anyFailed, List.any_cons, Bool.or_eq_false_iff] at h
    have ht := ih h.2
    simp only [failures, List.filterMap_cons] at ht ⊢
    cases e <;> simp_all [Event.failed]
    all_goals (rename_i x; cases x <;> simp_all [Event.failed])

theorem firstReport_append (l : List Event) (e : Event) :
    firstReport (l ++ [e]) = (firstReport l).or (firstReport [e]) := by
  simp only [firstReport, reports_append]
  cases h : reports l <;> simp

/-- A unit that is not finished keeps the caller before the error receive. -/
theorem cm_running {σ : Type} (s : CMState σ) (h : CMCtl s) (i : Nat) (w : CMWorker)
    (hw : s.workers[i]? = some w) (hpc : w.pc ≠ CMPc.finished) : 2 ≤ s.main.weight := by
  by_contra hlt
  have hp := h.main_past (by omega)
  exact hpc (h.all_done hp.1 w (mem_of_getElem? _ _ _ hw))

/-! ## CreateMany: error reporting -/

theorem cmMain_returned_weight (m : CMMain) (objs : Option (List CreatedObject))
    (err : Option String) (h : m = CMMain.returned objs err) : m.weight = 0 := by
  subst h; rfl

/-- The part of the error-reporting invariant that only looks at reports and causes. -/
theorem cmErr_core {σ : Type} (s s' : CMState σ) (h : CMErr s)
    (hr : reports s'.world.log = reports s.world.log)
    (hf : ∀ x ∈ failures s.world.log, x ∈ failures s'.world.log)
    (hws : ∀ w' ∈ s'.workers, w' ∈ s.workers ∨
      (w'.pc ≠ CMPc.atCancel ∧
        ∀ e, w'.pc = CMPc.atErrSelect e → (w'.objectID, e) ∈ failures s'.world.log))
    (h1 : s'.main.weight ≠ 0 → s'.errCh = (firstReport s'.world.log).toList)
    (h2 : ∀ objs err, s'.main = CMMain.returned objs err →
      (objs, err) = cmOutcome (firstReport s'.world.log) s'.objects)
    (h3 : anyFailed s'.world.log = true →
      reports s'.world.log ≠ [] ∨ ∃ w ∈ s'.workers, ∃ e, w.pc = CMPc.atErrSelect e)
    (h4 : s'.cancelled = true → s'.main.weight ≠ 0 → reports s'.world.log ≠ []) :
    CMErr s' := by
  constructor
  · exact h1
  · rw [hr]; exact h.flags
  · exact h2
  · exact h3
  · intro r hr'
    rw [hr] at hr'
    exact hf _ (h.report_cause r hr')
  · intro w hw e he
    rcases hws w hw with h1 | h1
    · exact hf _ (h.pending_cause w h1 e he)
    · exact h1.2 e he
  · intro w hw hpc
    rcases hws w hw with h1 | h1
    · rw [hr]; exact h.cancel_cause w h1 hpc
    · exact absurd hpc h1.1
  · exact h4

/-- Actions that neither report nor fail leave the error-reporting invariant alone. -/
theorem cmErr_quiet {σ : Type} (s s' : CMState σ) (h : CMErr s)
    (hr : reports s'.world.log = reports s.world.log)
    (hf : ∀ x ∈ failures s.world.log, x ∈ failures s'.world.log)
    (ha : anyFailed s'.world.log = anyFailed s.world.log)
    (herr : s'.errCh = s.errCh) (hcan : s'.cancelled = s.cancelled)
    (hmain : (s'.main = s.main ∧ s'.objects = s.objects) ∨
      (s.main.weight ≠ 0 ∧ s'.main.weight ≠ 0))
    (hws : ∀ w' ∈ s'.workers, w' ∈ s.workers ∨
      ((∀ e, w'.pc ≠ CMPc.atErrSelect e) ∧ w'.pc ≠ CMPc.atCancel))
    (hpend : ∀ w ∈ s.workers, ∀ e, w.pc = CMPc.atErrSelect e → w ∈ s'.workers) :
    CMErr s' := by
  have hfr : firstReport s'.world.log = firstReport s.world.log := by
    simp only [firstReport, hr]
  have hmw : s'.main.weight ≠ 0 → s.main.weight ≠ 0 := by
    rcases hmain with ⟨h1, _⟩ | ⟨h1, _⟩
    · rw [h1]; exact id
    · exact fun _ => h1
  refine cmErr_core s s' h hr hf ?_ ?_ ?_ ?_ ?_
  · intro w' hw'
    rcases hws w' hw' with h1 | h1
    · exact Or.inl h1
    · exact Or.inr ⟨h1.2, fun e he => absurd he (h1.1 e)⟩
  · intro hm; rw [herr, hfr]; exact h.err_ch (hmw hm)
  · intro objs err hm
    rcases hmain with ⟨h1, h2⟩ | ⟨_, h1⟩
    · rw [hfr, h2]; exact h.outcome objs err (h1 ▸ hm)
    · exact absurd (cmMain_returned_weight _ _ _ hm) h1
  · intro hany
    rw [ha] at hany
    rcases h.failed_reported hany with h1 | ⟨w, hw, e, he⟩
    · left; rw [hr]; exact h1
    · right; exact ⟨w, hpend w hw e he, e, he⟩
  · intro hc hm
    rw [hr]; rw [hcan] at hc
    exact h.ctx_cause hc (hmw hm)

theorem cmErr_init {σ : Type} (g : σ) (data : List (String × FileDataType)) :
    CMErr (cmInit g data) := by
  constructor <;>
    simp [cmInit, World.init, firstReport, reports, anyFailed, failures, CMMain.weight]
  · intro w a b _ hw; rw [← hw]; simp
  · intro w a b _ hw; rw [← hw]; simp

/-- The units after unit `i` moved to `pc`, none of them reporting. -/
theorem cm_set_quiet (l : List CMWorker) (i : Nat) (w : CMWorker) (pc : CMPc)
    (h1 : ∀ e, pc ≠ CMPc.atErrSelect e) (h2 : pc ≠ CMPc.atCancel) :
    ∀ w' ∈ l.set i { w with pc := pc }, w' ∈ l ∨
      ((∀ e, w'.pc ≠ CMPc.atErrSelect e) ∧ w'.pc ≠ CMPc.atCancel) := by
  intro w' hw'
  rcases mem_of_mem_set' _ _ _ _ hw' with h | h
  · right; subst h; exact ⟨h1, h2⟩
  · exact Or.inl h

/-- The units waiting to report stay when another unit moves. -/
theorem cm_set_pend (l : List CMWorker) (i : Nat) (w : CMWorker) (pc : CMPc)
    (hw : l[i]? = some w) (h1 : ∀ e, w.pc ≠ CMPc.atErrSelect e) :
    ∀ w0 ∈ l, ∀ e, w0.pc = CMPc.atErrSelect e → w0 ∈ l.set i { w with pc := pc } := by
  intro w0 hw0 e he
  apply mem_set_of_ne l i w _ w0 hw hw0
  intro heq
  subst heq
  exact h1 e he

theorem cmErr_step {σ : Type} (env : Env σ) (s s' : CMState σ) (hc : CMCtl s) (h : CMErr s)
    (hstep : CMStep env s s') : CMErr s' := by
  cases hstep with
  | spawn k w hm hw =>
    have hpc : w.pc = CMPc.notStarted := by
      rw [hc.spawned k w hw]; simp [cmSpawned, hm]
    exact cmErr_quiet s _ h rfl (fun _ hx => hx) rfl rfl rfl
      (Or.inr ⟨by simp [hm, CMMain.weight], by simp [CMMain.weight]⟩)
      (cm_set_quiet _ _ _ _ (by simp) (by simp))
      (cm_set_pend _ _ _ _ hw (by simp [hpc]))
  | spawnEnd k hm hw =>
    exact cmErr_quiet s _ h rfl (fun _ hx => hx) rfl rfl rfl
      (Or.inr ⟨by simp [hm, CMMain.weight], by simp [CMMain.weight]⟩)
      (fun _ hx => Or.inl hx) (fun _ hx _ _ => hx)
  | collect u rest hm hu =>
    exact cmErr_quiet s _ h rfl (fun _ hx => hx) rfl rfl rfl
      (Or.inr ⟨by simp [hm, CMMain.weight], by simp [hm, CMMain.weight]⟩)
      (fun _ hx => Or.inl hx) (fun _ hx _ _ => hx)
  | collectEnd hm hu hcl =>
    exact cmErr_quiet s _ h rfl (fun _ hx => hx) rfl rfl rfl
      (Or.inr ⟨by simp [hm, CMMain.weight], by simp [CMMain.weight]⟩)
      (fun _ hx => Or.inl hx) (fun _ hx _ _ => hx)
  | closeUrl hcl hwg =>
    exact cmErr_quiet s _ h rfl (fun _ hx => hx) rfl rfl rfl (Or.inl ⟨rfl, rfl⟩)
      (fun _ hx => Or.inl hx) (fun _ hx _ _ => hx)
  | closeErr hcl =>
    exact cmErr_quiet s _ h rfl (fun _ hx => hx) rfl rfl rfl (Or.inl ⟨rfl, rfl⟩)
      (fun _ hx => Or.inl hx) (fun _ hx _ _ => hx)
  | putOk i w hw hpc hr =>
    refine cmErr_quiet s _ h ?_ ?_ ?_ rfl rfl (Or.inl ⟨rfl, rfl⟩)
      (cm_set_quiet _ _ _ _ (by simp) (by simp))
      (cm_set_pend _ _ _ _ hw (by simp [hpc]))
    · simp [callPut, reports_append, reports]
    · intro x hx; simp only [callPut, failures_append]; exact List.mem_append_left _ hx
    · simp only [callPut] at hr
      simp [callPut, anyFailed_append, hr, Event.failed]
  | presignOk i w u hw hpc hr =>
    refine cmErr_quiet s _ h ?_ ?_ ?_ rfl rfl (Or.inl ⟨rfl, rfl⟩)
      (cm_set_quiet _ _ _ _ (by simp) (by simp))
      (cm_set_pend _ _ _ _ hw (by simp [hpc]))
    · simp [callPresign, reports_append, reports]
    · intro x hx; simp only [callPresign, failures_append]; exact List.mem_append_left _ hx
    · simp only [callPresign] at hr
      simp [callPresign, anyFailed_append, hr, Event.failed]
  | urlSend i w u hw hpc hroom =>
    refine cmErr_quiet s _ h ?_ ?_ ?_ rfl rfl (Or.inl ⟨rfl, rfl⟩)
      (cm_set_quiet _ _ _ _ (by simp) (by simp))
      (cm_set_pend _ _ _ _ hw (by simp [hpc]))
    · simp [cmFinish, cmLog, reports_append, reports]
    · intro x hx; simp only [cmFinish, cmLog, failures_append]
      exact List.mem_append_left _ (List.mem_append_left _ hx)
    · simp [cmFinish, cmLog, anyFailed, Event.failed]
  | urlDrop i w u hw hpc hdone =>
    refine cmErr_quiet s _ h ?_ ?_ ?_ rfl rfl (Or.inl ⟨rfl, rfl⟩)
      (cm_set_quiet _ _ _ _ (by simp) (by simp))
      (cm_set_pend _ _ _ _ hw (by simp [hpc]))
    · simp [cmFinish, cmLog, reports_append, reports]
    · intro x hx; simp only [cmFinish, cmLog, failures_append]
      exact List.mem_append_left _ (List.mem_append_left _ hx)
    · simp [cmFinish, cmLog, anyFailed, Event.failed]
  | putFail i w err hw hpc hr =>
    have hrun := cm_running s hc i w hw (by simp [hpc])
    have hlog : (callPut env s.world Ctx.batch s.cancelled w.objectID w.file.Data).1.log
        = s.world.log ++ [Event.putObject Ctx.batch s.cancelled w.objectID (some err)] := by
      rw [← hr]; rfl
    have hrep : reports (callPut env s.world Ctx.batch s.cancelled w.objectID w.file.Data).1.log
        = reports s.world.log := by
      rw [hlog]; simp [reports_append, reports]
    have hfr : firstReport (callPut env s.world Ctx.batch s.cancelled w.objectID
        w.file.Data).1.log = firstReport s.world.log := by
      simp only [firstReport, hrep]
    refine cmErr_core s _ h hrep ?_ ?_ ?_ ?_ ?_ ?_
    · intro x hx; simp only [hlog, failures_append]; exact List.mem_append_left _ hx
    · intro w' hw'
      rcases mem_of_mem_set' _ _ _ _ hw' with h1 | h1
      · right; subst h1
        refine ⟨by simp, ?_⟩
        intro e he
        simp only [CMPc.atErrSelect.injEq] at he
        subst he
        simp [hlog, failures_append, failures]
      · exact Or.inl h1
    · intro hm; simp only [hfr]; exact h.err_ch hm
    · intro objs e hm
      simp only [hfr]; exact h.outcome objs e hm
    · intro _
      right
      exact ⟨_, mem_set_self' _ _ _ _ hw, err, rfl⟩
    · intro hcan hm
      simp only [hrep]; exact h.ctx_cause hcan hm
  | presignFail i w err hw hpc hr =>
    have hlog : (callPresign env s.world Ctx.batch s.cancelled w.objectID
        (createExpiry env.cfg)).1.log
        = s.world.log ++ [Event.presignedGetObject Ctx.batch s.cancelled w.objectID
            (createExpiry env.cfg) (Presigned.fail err)] := by
      rw [← hr]; rfl
    have hrep : reports (callPresign env s.world Ctx.batch s.cancelled w.objectID
        (createExpiry env.cfg)).1.log = reports s.world.log := by
      rw [hlog]; simp [reports_append, reports]
    have hfr : firstReport (callPresign env s.world Ctx.batch s.cancelled w.objectID
        (createExpiry env.cfg)).1.log = firstReport s.world.log := by
      simp only [firstReport, hrep]
    refine cmErr_core s _ h hrep ?_ ?_ ?_ ?_ ?_ ?_
    · intro x hx; simp only [hlog, failures_append]; exact List.mem_append_left _ hx
    · intro w' hw'
      rcases mem_of_mem_set' _ _ _ _ hw' with h1 | h1
      · right; subst h1
        refine ⟨by simp, ?_⟩
        intro e he
        simp only [CMPc.atErrSelect.injEq] at he
        subst he
        simp [hlog, failures_append, failures]
      · exact Or.inl h1
    · intro hm; simp only [hfr]; exact h.err_ch hm
    · intro objs e hm
      simp only [hfr]; exact h.outcome objs e hm
    · intro _
      right
      exact ⟨_, mem_set_self' _ _ _ _ hw, err, rfl⟩
    · intro hcan hm
      simp only [hrep]; exact h.ctx_cause hcan hm
  | cancel i w hw hpc =>
    have hrun := cm_running s hc i w hw (by simp [hpc])
    have hne := h.cancel_cause w (mem_of_getElem? _ _ _ hw) hpc
    have hrep : reports (s.world.log ++ [Event.cancel] ++ [Event.unitDone w.objectID])
        = reports s.world.log := by
      simp [reports_append, reports]
    have hfr : firstReport (s.world.log ++ [Event.cancel] ++ [Event.unitDone w.objectID])
        = firstReport s.world.log := by
      simp only [firstReport, hrep]
    refine cmErr_core s _ h hrep ?_ ?_ ?_ ?_ ?_ ?_
    · intro x hx; simp only [cmFinish, cmLog, failures_append]
      exact List.mem_append_left _ (List.mem_append_left _ hx)
    · intro w' hw'
      rcases mem_of_mem_set' _ _ _ _ hw' with h1 | h1
      · right; subst h1; simp
      · exact Or.inl h1
    · intro hm; simp only [cmFinish, cmLog, hfr]; exact h.err_ch hm
    · intro objs e hm
      exact absurd (cmMain_returned_weight _ _ _ hm) (by simp only [cmFinish, cmLog]; omega)
    · intro hany
      left
      simp only [cmFinish, cmLog, hrep]; exact hne
    · intro _ _
      simp only [cmFinish, cmLog, hrep]; exact hne
  | errCapture i w err hw hpc hroom =>
    have hrun := cm_running s hc i w hw (by simp [hpc])
    have hch := h.err_ch (by omega)
    have hempty : s.errCh = [] := by
      cases hx : s.errCh with
      | nil => rfl
      | cons a t => rw [hx] at hroom; simp [cmErrCap] at hroom
    have hnone : reports s.world.log = [] := by
      rw [hempty] at hch
      cases hx : reports s.world.log with
      | nil => rfl
      | cons a t => simp [firstReport, hx] at hch
    have hrep : reports (s.world.log ++ [Event.errReported w.objectID err true])
        = [(w.objectID, err, true)] := by
      rw [reports_append, hnone]; rfl
    constructor
    · intro _
      simp only [cmLog, firstReport, hrep, hempty]
      rfl
    · intro n r hn
      simp only [cmLog, hrep] at hn
      cases n with
      | zero => simp at hn; subst hn; rfl
      | succ m => simp at hn
    · intro objs e hm
      exact absurd (cmMain_returned_weight _ _ _ hm) (by simp only [cmLog]; omega)
    · intro _; left; simp only [cmLog, hrep]; simp
    · intro r hr
      simp only [cmLog, hrep, List.mem_singleton] at hr
      subst hr
      simp only [cmLog, failures_append]
      exact List.mem_append_left _ (h.pending_cause w (mem_of_getElem? _ _ _ hw) err hpc)
    · intro w' hw' e he
      rcases mem_of_mem_set' _ _ _ _ hw' with h1 | h1
      · subst h1; simp at he
      · simp only [cmLog, failures_append]
        exact List.mem_append_left _ (h.pending_cause w' h1 e he)
    · intro _ _ _; simp only [cmLog, hrep]; simp
    · intro _ _; simp only [cmLog, hrep]; simp
  | errDrop i w err hw hpc hfull =>
    have hrun := cm_running s hc i w hw (by simp [hpc])
    have hch := h.err_ch (by omega)
    have hne : reports s.world.log ≠ [] := by
      intro hx
      simp only [firstReport, hx, List.head?_nil, Option.map_none', Option.toList] at hch
      rw [hch] at hfull
      simp [cmErrCap] at hfull
    have hrep : reports (s.world.log ++ [Event.errReported w.objectID err false] ++
        [Event.unitDone w.objectID]) = reports s.world.log ++ [(w.objectID, err, false)] := by
      simp [reports_append, reports]
    have hfr : firstReport (s.world.log ++ [Event.errReported w.objectID err false] ++
        [Event.unitDone w.objectID]) = firstReport s.world.log := by
      simp only [firstReport, hrep]
      cases hx : reports s.world.log with
      | nil => exact absurd hx hne
      | cons a t => simp
    constructor
    · intro hm
      simp only [cmFinish, cmLog, hfr]; exact hch
    · intro n r hn
      simp only [cmFinish, cmLog, hrep] at hn
      by_cases hlt : n < (reports s.world.log).length
      · rw [List.getElem?_append_left hlt] at hn
        exact h.flags n r hn
      · rw [List.getElem?_append_right (by omega)] at hn
        have hpos : 0 < (reports s.world.log).length := List.length_pos.mpr hne
        have hn0 : n ≠ 0 := by omega
        cases hk : n - (reports s.world.log).length with
        | zero => rw [hk] at hn; simp at hn; subst hn; simp [hn0]
        | succ m => rw [hk] at hn; simp at hn
    · intro objs e hm
      exact absurd (cmMain_returned_weight _ _ _ hm) (by simp only [cmFinish, cmLog]; omega)
    · intro _; left; simp only [cmFinish, cmLog, hrep]; simp
    · intro r hr
      simp only [cmFinish, cmLog, hrep, List.mem_append, List.mem_singleton] at hr
      simp only [cmFinish, cmLog, failures_append]
      apply List.mem_append_left
      apply List.mem_append_left
      rcases hr with hr | hr
      · exact h.report_cause r hr
      · subst hr
        exact h.pending_cause w (mem_of_getElem? _ _ _ hw) err hpc
    · intro w' hw' e he
      rcases mem_of_mem_set' _ _ _ _ hw' with h1 | h1
      · subst h1; simp at he
      · simp only [cmFinish, cmLog, failures_append]
        exact List.mem_append_left _ (List.mem_append_left _ (h.pending_cause w' h1 e he))
    · intro _ _ _; simp only [cmFinish, cmLog, hrep]; simp
    · intro _ _; simp only [cmFinish, cmLog, hrep]; simp
  | recvErr err rest hm he =>
    have hch := h.err_ch (by simp [hm, CMMain.weight])
    have hrep : reports (s.world.log ++ [Event.cancel]) = reports s.world.log := by
      simp [reports_append, reports]
    have hfr : firstReport (s.world.log ++ [Event.cancel]) = firstReport s.world.log := by
      simp only [firstReport, hrep]
    have hfirst : firstReport s.world.log = some err := by
      rw [he] at hch
      cases hx : firstReport s.world.log with
      | none => rw [hx] at hch; simp at hch
      | some e => rw [hx] at hch; simp at hch; rw [hch.1]
    refine cmErr_core s _ h hrep ?_ (fun _ hx => Or.inl hx) ?_ ?_ ?_ ?_
    · intro x hx; simp only [cmLog, failures_append]; exact List.mem_append_left _ hx
    · intro hmw; simp [CMMain.weight] at hmw
    · intro objs e hret
      simp only [CMMain.returned.injEq] at hret
      simp only [cmLog, hfr, hfirst, cmOutcome, ← hret.1, ← hret.2]
    · intro hany
      have hany' : anyFailed s.world.log = true := by
        simpa [cmLog, anyFailed_append, Event.failed] using hany
      rcases h.failed_reported hany' with h1 | h1
      · left; simp only [cmLog, hrep]; exact h1
      · exact Or.inr h1
    · intro _ hmw; simp [CMMain.weight] at hmw
  | recvNil hm he hcl =>
    have hch := h.err_ch (by simp [hm, CMMain.weight])
    have hrep : reports (s.world.log ++ [Event.cancel]) = reports s.world.log := by
      simp [reports_append, reports]
    have hfr : firstReport (s.world.log ++ [Event.cancel]) = firstReport s.world.log := by
      simp only [firstReport, hrep]
    have hfirst : firstReport s.world.log = none := by
      rw [he] at hch
      cases hx : firstReport s.world.log with
      | none => rfl
      | some e => rw [hx] at hch; simp at hch
    refine cmErr_core s _ h hrep ?_ (fun _ hx => Or.inl hx) ?_ ?_ ?_ ?_
    · intro x hx; simp only [cmLog, failures_append]; exact List.mem_append_left _ hx
    · intro hmw; simp [CMMain.weight] at hmw
    · intro objs e hret
      simp only [CMMain.returned.injEq] at hret
      simp only [cmLog, hfr, hfirst, cmOutcome, ← hret.1, ← hret.2]
    · intro hany
      have hany' : anyFailed s.world.log = true := by
        simpa [cmLog, anyFailed_append, Event.failed] using hany
      rcases h.failed_reported hany' with h1 | h1
      · left; simp only [cmLog, hrep]; exact h1
      · exact Or.inr h1
    · intro _ hmw; simp [CMMain.weight] at hmw

/-! ## CreateMany: the success path -/

theorem filterMap_set_same {α β : Type} (f : α → Option β) (l : List α) (i : Nat) (a b : α)
    (h : l[i]? = some a) (hab : f b = f a) : (l.set i b).filterMap f = l.filterMap f := by
  induction l generalizing i with
  | nil => simp
  | cons x xs ih =>
    cases i with
    | zero =>
      simp only [List.getElem?_cons_zero, Option.some.injEq] at h
      subst h
      simp only [List.set_cons_zero, List.filterMap_cons, hab]
    | succ j =>
      simp only [List.getElem?_cons_succ] at h
      simp only [List.set_cons_succ, List.filterMap_cons, ih j h]

theorem filterMap_set_add {α β : Type} (f : α → Option β) (l : List α) (i : Nat) (a b : α)
    (y : β) (h : l[i]? = some a) (ha : f a = none) (hb : f b = some y) :
    List.Perm ((l.set i b).filterMap f) (y :: l.filterMap f) := by
  induction l generalizing i with
  | nil => simp at h
  | cons x xs ih =>
    cases i with
    | zero =>
      simp only [List.getElem?_cons_zero, Option.some.injEq] at h
      subst h
      simp only [List.set_cons_zero, List.filterMap_cons, ha, hb]
      exact List.Perm.refl _
    | succ j =>
      simp only [List.getElem?_cons_succ] at h
      simp only [List.set_cons_succ, List.filterMap_cons]
      cases hx : f x with
      | none => exact ih j h
      | some z => exact ((ih j h).cons z).trans (List.Perm.swap y z _)

theorem filterMap_set_remove {α β : Type} (f : α → Option β) (l : List α) (i : Nat) (a b : α)
    (y : β) (h : l[i]? = some a) (ha : f a = some y) (hb : f b = none) :
    List.Perm (y :: (l.set i b).filterMap f) (l.filterMap f) := by
  induction l generalizing i with
  | nil => simp at h
  | cons x xs ih =>
    cases i with
    | zero =>
      simp only [List.getElem?_cons_zero, Option.some.injEq] at h
      subst h
      simp only [List.set_cons_zero, List.filterMap_cons, ha, hb]
      exact List.Perm.refl _
    | succ j =>
      simp only [List.getElem?_cons_succ] at h
      simp only [List.set_cons_succ, List.filterMap_cons]
      cases hx : f x with
      | none => exact ih j h
      | some z => exact (List.Perm.swap z y _).trans ((ih j h).cons z)

theorem map_set_same {α β : Type} (f : α → β) (l : List α) (i : Nat) (a b : α)
    (h : l[i]? = some a) (hab : f b = f a) : (l.set i b).map f = l.map f := by
  induction l generalizing i with
  | nil => simp
  | cons x xs ih =>
    cases i with
    | zero =>
      simp only [List.getElem?_cons_zero, Option.some.injEq] at h
      subst h
      simp only [List.set_cons_zero, List.map_cons, hab]
    | succ j =>
      simp only [List.getElem?_cons_succ] at h
      simp only [List.set_cons_succ, List.map_cons, ih j h]

theorem anyFailed_of_failures (l : List Event) (x : String × String) (h : x ∈ failures l) :
    anyFailed l = true := by
  cases hx : anyFailed l with
  | true => rfl
  | false => rw [failures_nil_of_not_failed l hx] at h; simp at h

theorem cmErr_no_report {σ : Type} (s : CMState σ) (h : CMErr s)
    (hok : anyFailed s.world.log = false) : reports s.world.log = [] := by
  cases hx : reports s.world.log with
  | nil => rfl
  | cons r t =>
    have := h.report_cause r (by rw [hx]; simp)
    rw [anyFailed_of_failures _ _ this] at hok
    simp at hok


theorem cm_keys_set (l : List CMWorker) (i : Nat) (w : CMWorker) (pc : CMPc)
    (hw : l[i]? = some w) :
    (l.set i { w with pc := pc }).map (fun w => w.objectID) = l.map (fun w => w.objectID) :=
  map_set_same (fun w : CMWorker => w.objectID) l i w { w with pc := pc } hw rfl

theorem cmOk_init {σ : Type} (env : Env σ) (g : σ) (data : List (String × FileDataType)) :
    CMOk env (data.map Prod.fst) (cmInit g data) := by
  constructor <;> simp [cmInit, World.init, okPresigns, Function.comp_def]
  · intro _ a b _; rfl
  · intro _ a b _; rfl

/-- A unit moves without touching links, presigned keys or the relevant trace entries. -/
theorem cmOk_frame {σ : Type} (env : Env σ) (keys : List String) (s s' : CMState σ)
    (h : CMOk env keys s)
    (e1 : s'.workers.map (fun w => w.objectID) = s.workers.map (fun w => w.objectID))
    (e2 : s'.world.uuids = s.world.uuids) (e3 : s'.objects = s.objects)
    (e4 : anyFailed s'.world.log = false → anyFailed s.world.log = false ∧
      okPresigns s'.world.log = okPresigns s.world.log ∧ s'.urlCh = s.urlCh ∧
      s'.workers.filterMap CMWorker.pendingUrl = s.workers.filterMap CMWorker.pendingUrl ∧
      s'.workers.filterMap CMWorker.presignedKey = s.workers.filterMap CMWorker.presignedKey) :
    CMOk env keys s' := by
  constructor
  · rw [e1]; exact h.keys_eq
  · rw [e2, e3]; exact h.uuids
  · rw [e3]; exact h.ids
  · intro hok
    obtain ⟨h1, h2, h3, h4, _⟩ := e4 hok
    rw [e3, h2, h3, h4]; exact h.urls h1
  · intro hok
    obtain ⟨h1, h2, _, _, h5⟩ := e4 hok
    rw [h2, h5]; exact h.presigned h1

theorem cmOk_step {σ : Type} (env : Env σ) (keys : List String) (s s' : CMState σ)
    (hc : CMCtl s) (he : CMErr s) (h : CMOk env keys s) (hstep : CMStep env s s') :
    CMOk env keys s' := by
  cases hstep with
  | spawn k w hm hw =>
    have hpc : w.pc = CMPc.notStarted := by
      rw [hc.spawned k w hw]; simp [cmSpawned, hm]
    refine cmOk_frame env keys s _ h (cm_keys_set _ _ _ _ hw) rfl rfl ?_
    intro hok
    exact ⟨hok, rfl, rfl,
      filterMap_set_same _ _ _ _ _ hw (by simp [CMWorker.pendingUrl, hpc]),
      filterMap_set_same _ _ _ _ _ hw (by simp [CMWorker.presignedKey, hpc])⟩
  | spawnEnd k hm hw => exact cmOk_frame env keys s _ h rfl rfl rfl (fun hok => ⟨hok, rfl, rfl, rfl, rfl⟩)
  | collectEnd hm hu hcl =>
    exact cmOk_frame env keys s _ h rfl rfl rfl (fun hok => ⟨hok, rfl, rfl, rfl, rfl⟩)
  | closeUrl hcl hwg =>
    exact cmOk_frame env keys s _ h rfl rfl rfl (fun hok => ⟨hok, rfl, rfl, rfl, rfl⟩)
  | closeErr hcl =>
    exact cmOk_frame env keys s _ h rfl rfl rfl (fun hok => ⟨hok, rfl, rfl, rfl, rfl⟩)
  | recvErr err rest hm he' =>
    refine cmOk_frame env keys s _ h rfl rfl rfl ?_
    intro hok
    simp only [cmLog, anyFailed_append, Event.failed, Bool.or_false] at hok
    exact ⟨hok, by simp [cmLog, okPresigns_append, okPresigns], rfl, rfl, rfl⟩
  | recvNil hm he' hcl =>
    refine cmOk_frame env keys s _ h rfl rfl rfl ?_
    intro hok
    simp only [cmLog, anyFailed_append, Event.failed, Bool.or_false] at hok
    exact ⟨hok, by simp [cmLog, okPresigns_append, okPresigns], rfl, rfl, rfl⟩
  | collect u rest hm hu =>
    constructor
    · exact h.keys_eq
    · simp only [drawUuid, List.length_append, List.length_singleton]
      rw [h.uuids]
    · simp only [drawUuid, List.map_append, List.map_cons, List.map_nil, List.length_append,
        List.length_singleton, List.range_succ, h.ids, h.uuids]
    · intro hok
      have hok' : anyFailed s.world.log = false := hok
      have := h.urls hok'
      rw [hu] at this
      simp only [drawUuid, List.map_append, List.map_cons, List.map_nil]
      refine List.Perm.trans ?_ this
      simp only [List.append_assoc, List.singleton_append, List.cons_append]
      exact List.Perm.refl _
    · intro hok
      exact h.presigned hok
  | putFail i w err hw hpc hr =>
    refine cmOk_frame env keys s _ h (cm_keys_set _ _ _ _ hw) rfl rfl ?_
    intro hok
    have hlog : (callPut env s.world Ctx.batch s.cancelled w.objectID w.file.Data).1.log
        = s.world.log ++ [Event.putObject Ctx.batch s.cancelled w.objectID (some err)] := by
      rw [← hr]; rfl
    simp only [hlog, anyFailed_append, Event.failed, Bool.or_true] at hok
    exact absurd hok (by simp)
  | presignFail i w err hw hpc hr =>
    refine cmOk_frame env keys s _ h (cm_keys_set _ _ _ _ hw) rfl rfl ?_
    intro hok
    have hlog : (callPresign env s.world Ctx.batch s.cancelled w.objectID
        (createExpiry env.cfg)).1.log
        = s.world.log ++ [Event.presignedGetObject Ctx.batch s.cancelled w.objectID
            (createExpiry env.cfg) (Presigned.fail err)] := by
      rw [← hr]; rfl
    simp only [hlog, anyFailed_append, Event.failed, Bool.or_true] at hok
    exact absurd hok (by simp)
  | putOk i w hw hpc hr =>
    refine cmOk_frame env keys s _ h (cm_keys_set _ _ _ _ hw) rfl rfl ?_
    intro hok
    have hlog : (callPut env s.world Ctx.batch s.cancelled w.objectID w.file.Data).1.log
        = s.world.log ++ [Event.putObject Ctx.batch s.cancelled w.objectID none] := by
      rw [← hr]; rfl
    simp only [hlog, anyFailed_append, Event.failed, Bool.or_false] at hok
    exact ⟨hok, by simp [hlog, okPresigns_append, okPresigns], rfl,
      filterMap_set_same _ _ _ _ _ hw (by simp [CMWorker.pendingUrl, hpc]),
      filterMap_set_same _ _ _ _ _ hw (by simp [CMWorker.presignedKey, hpc])⟩
  | presignOk i w u hw hpc hr =>
    have hlog : (callPresign env s.world Ctx.batch s.cancelled w.objectID
        (createExpiry env.cfg)).1.log
        = s.world.log ++ [Event.presignedGetObject Ctx.batch s.cancelled w.objectID
            (createExpiry env.cfg) (Presigned.url u)] := by
      rw [← hr]; rfl
    have hok_log : okPresigns (callPresign env s.world Ctx.batch s.cancelled w.objectID
        (createExpiry env.cfg)).1.log = okPresigns s.world.log ++ [(w.objectID, u)] := by
      rw [hlog, okPresigns_append]; rfl
    constructor
    · exact (cm_keys_set s.workers i w (CMPc.atUrlSelect u) hw).trans h.keys_eq
    · exact h.uuids
    · exact h.ids
    · intro hok
      have hok' : anyFailed s.world.log = false := by
        simpa [hlog, anyFailed_append, Event.failed] using hok
      have hp := h.urls hok'
      have hadd := filterMap_set_add CMWorker.pendingUrl s.workers i w
        { w with pc := CMPc.atUrlSelect u } u hw (by simp [CMWorker.pendingUrl, hpc])
        (by simp [CMWorker.pendingUrl])
      simp only [hok_log, List.map_append, List.map_cons, List.map_nil]
      refine List.Perm.trans ?_ (List.perm_append_comm)
      refine List.Perm.trans ((List.Perm.append_left _ hadd)) ?_
      refine List.Perm.trans List.perm_middle ?_
      exact hp.cons u
    · intro hok
      have hok' : anyFailed s.world.log = false := by
        simpa [hlog, anyFailed_append, Event.failed] using hok
      have hp := h.presigned hok'
      have hadd := filterMap_set_add CMWorker.presignedKey s.workers i w
        { w with pc := CMPc.atUrlSelect u } w.objectID hw
        (by simp [CMWorker.presignedKey, hpc]) (by simp [CMWorker.presignedKey])
      simp only [hok_log, List.map_append, List.map_cons, List.map_nil]
      refine List.Perm.trans hadd ?_
      refine List.Perm.trans (hp.cons _) ?_
      exact (List.perm_append_singleton _ _).symm
  | errCapture i w err hw hpc hroom =>
    refine cmOk_frame env keys s _ h (cm_keys_set _ _ _ _ hw) rfl rfl ?_
    intro hok
    have hok' : anyFailed s.world.log = false := by
      simpa [cmLog, anyFailed_append, Event.failed] using hok
    have := he.pending_cause w (mem_of_getElem? _ _ _ hw) err hpc
    rw [anyFailed_of_failures _ _ this] at hok'
    simp at hok'
  | errDrop i w err hw hpc hfull =>
    refine cmOk_frame env keys s _ h (cm_keys_set _ _ _ _ hw) rfl rfl ?_
    intro hok
    have hok' : anyFailed s.world.log = false := by
      simpa [cmFinish, cmLog, anyFailed, Event.failed] using hok
    have := he.pending_cause w (mem_of_getElem? _ _ _ hw) err hpc
    rw [anyFailed_of_failures _ _ this] at hok'
    simp at hok'
  | cancel i w hw hpc =>
    refine cmOk_frame env keys s _ h (cm_keys_set _ _ _ _ hw) rfl rfl ?_
    intro hok
    have hok' : anyFailed s.world.log = false := by
      simpa [cmFinish, cmLog, anyFailed, Event.failed] using hok
    exact absurd (cmErr_no_report s he hok') (he.cancel_cause w (mem_of_getElem? _ _ _ hw) hpc)
  | urlDrop i w u hw hpc hdone =>
    refine cmOk_frame env keys s _ h (cm_keys_set _ _ _ _ hw) rfl rfl ?_
    intro hok
    have hok' : anyFailed s.world.log = false := by
      simpa [cmFinish, cmLog, anyFailed, Event.failed] using hok
    have hrun := cm_running s hc i w hw (by simp [hpc])
    exact absurd (cmErr_no_report s he hok') (he.ctx_cause hdone (by omega))
  | urlSend i w u hw hpc hroom =>
    have hok_log : okPresigns (s.world.log ++ [Event.urlReported w.objectID u true] ++
        [Event.unitDone w.objectID]) = okPresigns s.world.log := by
      simp [okPresigns_append, okPresigns]
    constructor
    · exact (cm_keys_set s.workers i w CMPc.finished hw).trans h.keys_eq
    · exact h.uuids
    · exact h.ids
    · intro hok
      have hok' : anyFailed s.world.log = false := by
        simpa [cmFinish, cmLog, anyFailed, Event.failed] using hok
      have hp := h.urls hok'
      have hrem := filterMap_set_remove CMWorker.pendingUrl s.workers i w
        { w with pc := CMPc.finished } u hw (by simp [CMWorker.pendingUrl, hpc])
        (by simp [CMWorker.pendingUrl])
      simp only [cmFinish, cmLog, hok_log]
      refine List.Perm.trans ?_ hp
      simp only [List.append_assoc]
      refine List.Perm.append_left _ (List.Perm.append_left _ ?_)
      exact hrem
    · intro hok
      have hok' : anyFailed s.world.log = false := by
        simpa [cmFinish, cmLog, anyFailed, Event.failed] using hok
      have hp := h.presigned hok'
      simp only [cmFinish, cmLog, hok_log]
      rw [filterMap_set_same _ _ _ _ _ hw (by simp [CMWorker.presignedKey, hpc])]
      exact hp

/-! ## CreateMany: runs -/

/-- All invariants of `CreateMany` hold in every state of every run. -/
theorem cm_run_inv {σ : Type} (env : Env σ) (g : σ) (data : List (String × FileDataType))
    (sched : Nat → Nat) (fuel : Nat) :
    CMCtl (exec (cmNext env) sched fuel (cmInit g data)) ∧
    CMErr (exec (cmNext env) sched fuel (cmInit g data)) ∧
    CMOk env (data.map Prod.fst) (exec (cmNext env) sched fuel (cmInit g data)) := by
  apply exec_invariant (cmNext env)
    (fun s => CMCtl s ∧ CMErr s ∧ CMOk env (data.map Prod.fst) s)
  · intro s s' ⟨h1, h2, h3⟩ hmem
    have hstep := cmNext_step env s s' hmem
    exact ⟨cmCtl_step env s s' h1 hstep, cmErr_step env s s' h1 h2 hstep,
      cmOk_step env _ s s' h1 h2 h3 hstep⟩
  · exact ⟨cmCtl_init g data, cmErr_init g data, cmOk_init env g data⟩

/-- `CreateMany` returns under every scheduler. -/
theorem cm_returns {σ : Type} (env : Env σ) (g : σ) (data : List (String × FileDataType))
    (sched : Nat → Nat) :
    ∃ objs err, (CreateManyRun env g data sched).main = CMMain.returned objs err := by
  have hq := exec_quiescent (cmNext env) CMCtl cmMeasure
    (fun s s' h hmem => cmCtl_step env s s' h (cmNext_step env s s' hmem))
    (fun s s' h hmem => cmMeasure_step env s s' h (cmNext_step env s s' hmem))
    (cmFuel data.length) sched (cmInit g data) (cmCtl_init g data) (cmMeasure_init g data)
  have hinv := (cm_run_inv env g data sched (cmFuel data.length)).1
  unfold CreateManyRun
  cases hm : (exec (cmNext env) sched (cmFuel data.length) (cmInit g data)).main with
  | returned objs err => exact ⟨objs, err, rfl⟩
  | spawning k =>
    obtain ⟨s', hs'⟩ := cm_progress env _ hinv (by simp [hm, CMMain.weight])
    have := cmStep_next env _ _ hs'
    rw [hq] at this; simp at this
  | collecting =>
    obtain ⟨s', hs'⟩ := cm_progress env _ hinv (by simp [hm, CMMain.weight])
    have := cmStep_next env _ _ hs'
    rw [hq] at this; simp at this
  | atErrRecv =>
    obtain ⟨s', hs'⟩ := cm_progress env _ hinv (by simp [hm, CMMain.weight])
    have := cmStep_next env _ _ hs'
    rw [hq] at this; simp at this

/-- Once `CreateMany` has returned, every unit has finished. -/
theorem cm_returned_done {σ : Type} (s : CMState σ) (h : CMCtl s)
    (objs : Option (List CreatedObject)) (err : Option String)
    (hm : s.main = CMMain.returned objs err) : ∀ w ∈ s.workers, w.pc = CMPc.finished :=
  h.all_done (h.main_past (by simp [hm, CMMain.weight])).1

/-- What `CreateMany` returns when some gateway call failed. -/
theorem cm_failed_outcome {σ : Type} (s : CMState σ) (hc : CMCtl s) (he : CMErr s)
    (objs : Option (List CreatedObject)) (err : Option String)
    (hm : s.main = CMMain.returned objs err) (hf : anyFailed s.world.log = true) :
    ∃ k e rest, reports s.world.log = (k, e, true) :: rest ∧
      objs = none ∧ err = some ("ошибка при создании объектов: " ++ e) := by
  have hdone := cm_returned_done s hc objs err hm
  rcases he.failed_reported hf with h1 | ⟨w, hw, e, hpc⟩
  · cases hr : reports s.world.log with
    | nil => exact absurd hr h1
    | cons r rest =>
      obtain ⟨k, e, c⟩ := r
      have hflag := he.flags 0 (k, e, c) (by rw [hr]; simp)
      simp only [decide_True] at hflag
      subst hflag
      have hout := he.outcome objs err hm
      simp only [firstReport, hr, List.head?_cons, Option.map_some', cmOutcome,
        Prod.mk.injEq] at hout
      exact ⟨k, e, rest, rfl, hout.1, hout.2⟩
  · rw [hdone w hw] at hpc; simp at hpc

/-- What `CreateMany` returns when no gateway call failed. -/
theorem cm_ok_outcome {σ : Type} (env : Env σ) (keys : List String) (s : CMState σ)
    (hc : CMCtl s) (he : CMErr s) (ho : CMOk env keys s)
    (objs : Option (List CreatedObject)) (err : Option String)
    (hm : s.main = CMMain.returned objs err) (hf : anyFailed s.world.log = false) :
    objs = some s.objects ∧ err = none ∧
      List.Perm (s.objects.map (fun o => o.Link)) ((okPresigns s.world.log).map Prod.snd) ∧
      List.Perm ((okPresigns s.world.log).map Prod.fst) keys := by
  have hdone := cm_returned_done s hc objs err hm
  have hnil := cmErr_no_report s he hf
  have hout := he.outcome objs err hm
  simp only [firstReport, hnil, List.head?_nil, Option.map_none', cmOutcome,
    Prod.mk.injEq] at hout
  have hu := (hc.main_past (by simp [hm, CMMain.weight])).2
  have hpend : s.workers.filterMap CMWorker.pendingUrl = [] := by
    apply List.filterMap_eq_nil_iff.mpr
    intro w hw
    simp [CMWorker.pendingUrl, hdone w hw]
  have hkeys : s.workers.filterMap CMWorker.presignedKey = keys := by
    rw [← ho.keys_eq]
    have : ∀ l : List CMWorker, (∀ w ∈ l, w.pc = CMPc.finished) →
        l.filterMap CMWorker.presignedKey = l.map (fun w => w.objectID) := by
      intro l hl
      induction l with
      | nil => rfl
      | cons x xs ih =>
        have hx := hl x (by simp)
        simp only [List.filterMap_cons, List.map_cons, CMWorker.presignedKey, hx]
        rw [ih (fun w hw => hl w (by simp [hw]))]
    exact this _ hdone
  have h1 := ho.urls hf
  have h2 := ho.presigned hf
  rw [hu, hpend] at h1
  rw [hkeys] at h2
  simp only [List.append_nil] at h1
  exact ⟨hout.1, hout.2, h1, h2.symm⟩

/-! ## DeleteMany: actions and control invariant -/

theorem dmNext_step {σ : Type} (env : Env σ) (s s' : DMState σ) (h : s' ∈ dmNext env s) :
    DMStep env s s' := by
  simp only [dmNext, List.mem_append, List.mem_flatMap, List.mem_range] at h
  rcases h with (hm | hc) | ⟨i, -, hw⟩
  · unfold dmMainStep at hm
    split at hm
    · rename_i k hmain
      split at hm
      · rename_i w hw
        simp only [List.mem_singleton] at hm
        subst hm
        exact DMStep.spawn k w hmain hw
      · rename_i hw
        simp only [List.mem_singleton] at hm
        subst hm
        exact DMStep.spawnEnd k hmain hw
    · rename_i hmain
      split at hm
      · rename_i e rest he
        simp only [List.mem_singleton] at hm
        subst hm
        exact DMStep.recvErr e rest hmain he
      · rename_i he
        split at hm
        · rename_i hc
          split at hm
          · rename_i hl
            simp only [List.mem_singleton] at hm
            subst hm
            exact DMStep.retErr hmain he hc hl
          · rename_i hl
            simp only [List.mem_singleton] at hm
            subst hm
            exact DMStep.retOk hmain he hc hl
        · simp at hm
    · simp at hm
  · unfold dmCloserStep at hc
    split at hc
    · simp at hc
    · rename_i hcl
      split at hc
      · rename_i hwg
        simp only [List.mem_singleton] at hc
        subst hc
        exact DMStep.close hcl hwg
      · simp at hc
    · simp at hc
    · simp at hc
  · unfold dmWorkerStep at hw
    split at hw
    · simp at hw
    · rename_i w hget
      split at hw
      · simp at hw
      · rename_i hpc
        split at hw
        · rename_i w1 err heq
          simp only [List.mem_singleton] at hw
          subst hw
          have h1 : (callRemove env s.world Ctx.batch s.cancelled w.objectID).1 = w1 := by
            rw [heq]
          have h2 : (callRemove env s.world Ctx.batch s.cancelled w.objectID).2 = some err := by
            rw [heq]
          rw [← h1]
          exact DMStep.removeFail i w err hget hpc h2
        · rename_i w1 heq
          simp only [List.mem_singleton] at hw
          subst hw
          have h1 : (callRemove env s.world Ctx.batch s.cancelled w.objectID).1 = w1 := by
            rw [heq]
          have h2 : (callRemove env s.world Ctx.batch s.cancelled w.objectID).2 = none := by
            rw [heq]
          rw [← h1]
          exact DMStep.removeOk i w hget hpc h2
      · rename_i e hpc
        split at hw
        · rename_i hroom
          simp only [List.mem_singleton] at hw
          subst hw
          exact DMStep.errSend i w e hget hpc hroom
        · simp at hw
      · rename_i hpc
        simp only [List.mem_singleton] at hw
        subst hw
        exact DMStep.cancel i w hget hpc
      · simp at hw

theorem dmStep_next {σ : Type} (env : Env σ) (s s' : DMState σ) (h : DMStep env s s') :
    s' ∈ dmNext env s := by
  have hidx : ∀ (i : Nat) (w : DMWorker), s.workers[i]? = some w → i < s.workers.length := by
    intro i w hw
    exact (List.getElem?_eq_some.mp hw).1
  simp only [dmNext, List.mem_append, List.mem_flatMap, List.mem_range]
  cases h with
  | spawn k w hm hw => left; left; simp [dmMainStep, hm, hw]
  | spawnEnd k hm hw => left; left; simp [dmMainStep, hm, hw]
  | recvErr e rest hm he => left; left; simp [dmMainStep, hm, he]
  | retErr hm he hc hl => left; left; simp [dmMainStep, hm, he, hc, hl]
  | retOk hm he hc hl => left; left; simp [dmMainStep, hm, he, hc, hl]
  | close hc hwg => left; right; simp [dmCloserStep, hc, hwg]
  | removeFail i w err hw hpc hr =>
    right; refine ⟨i, hidx i w hw, ?_⟩
    simp only [dmWorkerStep, hw, hpc]
    split <;> rename_i heq <;> rw [heq] at hr <;> simp at hr
    subst hr; simp [heq]
  | removeOk i w hw hpc hr =>
    right; refine ⟨i, hidx i w hw, ?_⟩
    simp only [dmWorkerStep, hw, hpc]
    split <;> rename_i heq <;> rw [heq] at hr <;> simp at hr
    simp [heq]
  | errSend i w e hw hpc hroom =>
    right; refine ⟨i, hidx i w hw, ?_⟩
    simp [dmWorkerStep, hw, hpc, hroom]
  | cancel i w hw hpc =>
    right; refine ⟨i, hidx i w hw, ?_⟩
    simp [dmWorkerStep, hw, hpc]

theorem dm_sum_set (f : DMPc → Nat) (l : List DMWorker) (i : Nat) (w : DMWorker) (pc : DMPc)
    (hw : l[i]? = some w) :
    ((l.set i { w with pc := pc }).map (fun w => f w.pc)).sum + f w.pc
      = (l.map (fun w => f w.pc)).sum + f pc :=
  sum_map_set (fun w => f w.pc) l i w { w with pc := pc } hw

theorem dmCtl_init {σ : Type} (g : σ) (objectIDs : List String) :
    DMCtl (dmInit g objectIDs) := by
  constructor <;> simp [dmInit, World.init, dmSpawned, DMMain.weight, Function.comp_def,
    DMPc.active, DMPc.credit, goLen]

theorem dmCtl_worker {σ : Type} (s : DMState σ) (h : DMCtl s) (i : Nat) (w : DMWorker)
    (hw : s.workers[i]? = some w) :
    s.errClosed = false ∨ w.pc = DMPc.finished := by
  cases hc : s.errClosed with
  | false => exact Or.inl rfl
  | true => exact Or.inr (h.all_done hc w (mem_of_getElem? _ _ _ hw))

theorem dmSpawned_congr {σ : Type} (s s' : DMState σ) (e1 : s'.main = s.main)
    (e2 : s'.workers.length = s.workers.length) : dmSpawned s' = dmSpawned s := by
  simp only [dmSpawned, e1, e2]

theorem dmCtl_spawned_set {σ : Type} (s s' : DMState σ) (h : DMCtl s) (i : Nat) (w : DMWorker)
    (pc : DMPc) (hw : s.workers[i]? = some w) (hns : w.pc ≠ DMPc.notStarted)
    (hpns : pc ≠ DMPc.notStarted)
    (e1 : s'.workers = s.workers.set i { w with pc := pc }) (e8 : s'.main = s.main) :
    ∀ j w', s'.workers[j]? = some w' → (w'.pc = DMPc.notStarted ↔ dmSpawned s' ≤ j) := by
  intro j w' hj
  rw [dmSpawned_congr s s' e8 (by rw [e1, List.length_set])]
  rw [e1, List.getElem?_set] at hj
  split at hj
  · rename_i hij
    split at hj
    · simp only [Option.some.injEq] at hj
      subst hj; subst hij
      have := h.spawned i w hw
      simp only [hpns, false_iff]
      rw [← this]; exact hns
    · simp at hj
  · exact h.spawned j w' hj

/-- A launched unit of `DeleteMany` moves on; `dw` is what it adds to the wait group
count and `dc` what it gives up of its send credit. -/
theorem dmCtl_move {σ : Type} (s s' : DMState σ) (h : DMCtl s) (i : Nat) (w : DMWorker)
    (pc : DMPc) (hw : s.workers[i]? = some w)
    (h1 : w.pc.active = 1) (hpns : pc ≠ DMPc.notStarted)
    (e1 : s'.workers = s.workers.set i { w with pc := pc })
    (e2 : s'.wg + w.pc.active = s.wg + pc.active)
    (e3 : s'.errCh.length + pc.credit ≤ s.errCh.length + w.pc.credit)
    (e4 : s'.errClosed = s.errClosed) (e5 : s'.closer = s.closer) (e6 : s'.main = s.main)
    (e7 : s'.errs = s.errs) : DMCtl s' := by
  have hA := dm_sum_set DMPc.active s.workers i w pc hw
  have hL := dm_sum_set DMPc.credit s.workers i w pc hw
  have hns : w.pc ≠ DMPc.notStarted := by
    intro hp; simp [hp, DMPc.active] at h1
  have hnf : w.pc ≠ DMPc.finished := by
    intro hp; simp [hp, DMPc.active] at h1
  have hopen : s.errClosed = false := by
    rcases dmCtl_worker s h i w hw with h | h
    · exact h
    · exact absurd h hnf
  constructor
  · rw [e1]; have := h.wg_eq; omega
  · exact dmCtl_spawned_set s s' h i w pc hw hns hpns e1 e6
  · rw [e5, e6]; exact h.closer_start
  · rw [e5]; exact h.closer_range
  · intro hc; rw [e4, hopen] at hc; simp at hc
  · rw [e4, e5]; exact h.err_closed
  · intro hm; rw [e6] at hm; have := (h.main_past hm).1; rw [hopen] at this; simp at this
  · rw [e7, e1, List.length_set]; have := h.capacity; omega

theorem dmCtl_step {σ : Type} (env : Env σ) (s s' : DMState σ) (h : DMCtl s)
    (hstep : DMStep env s s') : DMCtl s' := by
  cases hstep with
  | spawn k w hm hw =>
    have hpc : w.pc = DMPc.notStarted := by
      rw [h.spawned k w hw]; simp [dmSpawned, hm]
    have hA := dm_sum_set DMPc.active s.workers k w DMPc.atRemove hw
    have hL := dm_sum_set DMPc.credit s.workers k w DMPc.atRemove hw
    have hfa : DMPc.atRemove.active = 1 := rfl
    have hfl : DMPc.atRemove.credit = 1 := rfl
    have hna : DMPc.notStarted.active = 0 := rfl
    have hnl : DMPc.notStarted.credit = 1 := rfl
    rw [hpc, hfa, hna] at hA
    rw [hpc, hfl, hnl] at hL
    have hopen : s.errClosed = false := by
      rcases dmCtl_worker s h k w hw with h | h
      · exact h
      · rw [hpc] at h; simp at h
    constructor
    · simp only; have := h.wg_eq; omega
    · intro j w' hj
      simp only [List.getElem?_set] at hj
      simp only [dmSpawned]
      split at hj
      · rename_i hij
        split at hj
        · simp only [Option.some.injEq] at hj
          subst hj; subst hij; simp
        · simp at hj
      · rename_i hij
        have := h.spawned j w' hj
        simp only [dmSpawned, hm] at this
        rw [this]; omega
    · simp only; have := h.closer_start; rw [this]; simp [hm]
    · exact h.closer_range
    · intro hc; simp only at hc; rw [hopen] at hc; simp at hc
    · exact h.err_closed
    · simp [DMMain.weight]
    · simp only [List.length_set]; have := h.capacity; omega
  | spawnEnd k hm hw =>
    have hcl : s.closer = CloserPc.notStarted := h.closer_start.mpr ⟨k, hm⟩
    have hopen : s.errClosed = false := by
      cases hc : s.errClosed with
      | false => rfl
      | true => have := h.err_closed.mp hc; rw [hcl] at this; simp at this
    constructor
    · exact h.wg_eq
    · intro j w' hj
      have hj' : j < s.workers.length := getElem?_lt _ _ _ hj
      have hge : s.workers.length ≤ k := by
        by_contra hlt
        have : k < s.workers.length := by omega
        rw [List.getElem?_eq_getElem this] at hw; simp at hw
      have := h.spawned j w' hj
      simp only [dmSpawned, hm] at this
      simp only [dmSpawned]
      rw [this]; omega
    · simp
    · simp
    · intro hc; simp only at hc; rw [hopen] at hc; simp at hc
    · simp [hopen]
    · simp [DMMain.weight]
    · exact h.capacity
  | recvErr e rest hm he =>
    constructor
    · exact h.wg_eq
    · intro j w' hj
      have := h.spawned j w' hj
      simp only [dmSpawned, hm] at this
      simp only [dmSpawned, hm]; exact this
    · exact h.closer_start
    · exact h.closer_range
    · exact h.all_done
    · exact h.err_closed
    · simp [hm, DMMain.weight]
    · have := h.capacity; simp only [he, List.length_cons] at this
      simp only [goLen, goAppend, Option.getD_some, List.length_append, List.length_singleton]
      simp only [goLen] at this
      omega
  | retErr hm he hc hl =>
    constructor
    · exact h.wg_eq
    · intro j w' hj
      have := h.spawned j w' hj
      simp only [dmSpawned, hm] at this
      simp only [dmSpawned, dmLog]; exact this
    · simp only [dmLog]; have := h.closer_start; rw [this]; simp [hm]
    · exact h.closer_range
    · exact h.all_done
    · exact h.err_closed
    · intro _; exact ⟨hc, he⟩
    · exact h.capacity
  | retOk hm he hc hl =>
    constructor
    · exact h.wg_eq
    · intro j w' hj
      have := h.spawned j w' hj
      simp only [dmSpawned, hm] at this
      simp only [dmSpawned, dmLog]; exact this
    · simp only [dmLog]; have := h.closer_start; rw [this]; simp [hm]
    · exact h.closer_range
    · exact h.all_done
    · exact h.err_closed
    · intro _; exact ⟨hc, he⟩
    · exact h.capacity
  | close hc hwg =>
    have hsum := h.wg_eq
    rw [hwg] at hsum
    have hmain : dmSpawned s = s.workers.length := by
      simp only [dmSpawned]
      split
      · rename_i k hk
        have := h.closer_start.mpr ⟨k, hk⟩
        rw [hc] at this; simp at this
      · rfl
    constructor
    · exact h.wg_eq
    · exact h.spawned
    · simp only; have := h.closer_start; rw [hc] at this; simpa using this
    · simp
    · intro _ w hw
      have hw' : w ∈ s.workers := hw
      obtain ⟨j, hj, hjw⟩ := List.mem_iff_getElem.mp hw'
      have hget : s.workers[j]? = some w := by rw [List.getElem?_eq_getElem hj, hjw]
      have hns := h.spawned j w hget
      rw [hmain] at hns
      have hact := sum_eq_zero_mem _ hsum.symm (w.pc.active)
        (List.mem_map.mpr ⟨w, hw', rfl⟩)
      cases hp : w.pc <;> simp [hp, DMPc.active] at hact hns ⊢
      omega
    · simp
    · intro hm
      have := (h.main_past hm).1
      have := h.err_closed.mp this
      rw [hc] at this; simp at this
    · exact h.capacity
  | removeFail i w err hw hpc hr =>
    exact dmCtl_move s _ h i w _ hw (by simp [hpc, DMPc.active]) (by simp) rfl
      (by simp [hpc, DMPc.active]) (by simp [hpc, DMPc.credit]) rfl rfl rfl rfl
  | removeOk i w hw hpc hr =>
    have hrun : 0 < s.wg := by
      have := h.wg_eq
      have h1 : 1 ≤ (s.workers.map (fun w => w.pc.active)).sum := by
        have hx := dm_sum_set DMPc.active s.workers i w DMPc.finished hw
        rw [hpc] at hx
        have h2 : DMPc.atRemove.active = 1 := rfl
        have h3 : DMPc.finished.active = 0 := rfl
        omega
      omega
    exact dmCtl_move s _ h i w _ hw (by simp [hpc, DMPc.active]) (by simp) rfl
      (by simp only [dmFinish, hpc, DMPc.active]; omega)
      (by simp [dmFinish, hpc, DMPc.credit]) rfl rfl rfl rfl
  | errSend i w e hw hpc hroom =>
    exact dmCtl_move s _ h i w _ hw (by simp [hpc, DMPc.active]) (by simp) rfl
      (by simp [dmLog, hpc, DMPc.active]) (by simp [dmLog, hpc, DMPc.credit]) rfl rfl rfl rfl
  | cancel i w hw hpc =>
    have hrun : 0 < s.wg := by
      have := h.wg_eq
      have h1 : 1 ≤ (s.workers.map (fun w => w.pc.active)).sum := by
        have hx := dm_sum_set DMPc.active s.workers i w DMPc.finished hw
        rw [hpc] at hx
        have h2 : DMPc.atCancel.active = 1 := rfl
        have h3 : DMPc.finished.active = 0 := rfl
        omega
      omega
    exact dmCtl_move s _ h i w _ hw (by simp [hpc, DMPc.active]) (by simp) rfl
      (by simp only [dmFinish, dmLog, hpc, DMPc.active]; omega)
      (by simp [dmFinish, dmLog, hpc, DMPc.credit]) rfl rfl rfl rfl

/-! ## DeleteMany: termination -/

theorem dmMeasure_step {σ : Type} (env : Env σ) (s s' : DMState σ) (h : DMCtl s)
    (hstep : DMStep env s s') : dmMeasure s' < dmMeasure s := by
  have hw5 : DMPc.notStarted.weight = 5 := rfl
  have hw4 : DMPc.atRemove.weight = 4 := rfl
  have hw3 : ∀ e, (DMPc.atErrSend e).weight = 3 := fun _ => rfl
  have hw1 : DMPc.atCancel.weight = 1 := rfl
  have hw0 : DMPc.finished.weight = 0 := rfl
  cases hstep with
  | spawn k w hm hw =>
    have hpc : w.pc = DMPc.notStarted := by
      rw [h.spawned k w hw]; simp [dmSpawned, hm]
    have hW := dm_sum_set DMPc.weight s.workers k w DMPc.atRemove hw
    rw [hpc, hw5, hw4] at hW
    simp only [dmMeasure, hm, DMMain.weight]
    omega
  | spawnEnd k hm hw =>
    have hcl : s.closer = CloserPc.notStarted := h.closer_start.mpr ⟨k, hm⟩
    simp only [dmMeasure, hm, hcl, DMMain.weight, CloserPc.weight]
    omega
  | recvErr e rest hm he =>
    simp only [dmMeasure, hm, he, List.length_cons]
    omega
  | retErr hm he hc hl =>
    simp only [dmMeasure, hm, DMMain.weight, dmLog]
    omega
  | retOk hm he hc hl =>
    simp only [dmMeasure, hm, DMMain.weight, dmLog]
    omega
  | close hc hwg =>
    simp only [dmMeasure, hc, CloserPc.weight]
    omega
  | removeFail i w err hw hpc hr =>
    have hW := dm_sum_set DMPc.weight s.workers i w (DMPc.atErrSend (dmOpErr w.objectID err)) hw
    rw [hpc, hw4, hw3] at hW
    simp only [dmMeasure]
    omega
  | removeOk i w hw hpc hr =>
    have hW := dm_sum_set DMPc.weight s.workers i w DMPc.finished hw
    rw [hpc, hw4, hw0] at hW
    simp only [dmMeasure, dmFinish]
    omega
  | errSend i w e hw hpc hroom =>
    have hW := dm_sum_set DMPc.weight s.workers i w DMPc.atCancel hw
    rw [hpc, hw3, hw1] at hW
    simp only [dmMeasure, dmLog, List.length_append, List.length_singleton]
    omega
  | cancel i w hw hpc =>
    have hW := dm_sum_set DMPc.weight s.workers i w DMPc.finished hw
    rw [hpc, hw1, hw0] at hW
    simp only [dmMeasure, dmLog, dmFinish]
    omega

/-- Some action is enabled as long as `DeleteMany` has not returned. -/
theorem dm_progress {σ : Type} (env : Env σ) (s : DMState σ) (h : DMCtl s)
    (hm : s.main.weight ≠ 0) : ∃ s', DMStep env s s' := by
  cases hmain : s.main with
  | spawning k =>
    cases hw : s.workers[k]? with
    | none => exact ⟨_, DMStep.spawnEnd k hmain hw⟩
    | some w => exact ⟨_, DMStep.spawn k w hmain hw⟩
  | returned err => rw [hmain] at hm; simp [DMMain.weight] at hm
  | collectingErrs =>
    cases he : s.errCh with
    | cons e rest => exact ⟨_, DMStep.recvErr e rest hmain he⟩
    | nil =>
      cases hc : s.errClosed with
      | true =>
        by_cases hl : goLen s.errs > 0
        · exact ⟨_, DMStep.retErr hmain he hc hl⟩
        · exact ⟨_, DMStep.retOk hmain he hc hl⟩
      | false =>
        have hcl : s.closer = CloserPc.atWait := by
          cases hx : s.closer with
          | atWait => rfl
          | notStarted =>
            obtain ⟨k, hk⟩ := h.closer_start.mp hx
            rw [hmain] at hk; simp at hk
          | atCloseErr => exact absurd hx h.closer_range
          | finished => have := h.err_closed.mpr hx; rw [hc] at this; simp at this
        by_cases hwg : s.wg = 0
        · exact ⟨_, DMStep.close hcl hwg⟩
        · have hpos : 0 < (s.workers.map (fun w => w.pc.active)).sum := by
            have := h.wg_eq; omega
          obtain ⟨i, w, hw, hact⟩ := exists_pos_of_sum_pos _ _ hpos
          have hlen := getElem?_lt _ _ _ hw
          cases hpc : w.pc with
          | notStarted => rw [hpc] at hact; simp [DMPc.active] at hact
          | finished => rw [hpc] at hact; simp [DMPc.active] at hact
          | atRemove =>
            cases hr : (callRemove env s.world Ctx.batch s.cancelled w.objectID).2 with
            | none => exact ⟨_, DMStep.removeOk i w hw hpc hr⟩
            | some err => exact ⟨_, DMStep.removeFail i w err hw hpc hr⟩
          | atCancel => exact ⟨_, DMStep.cancel i w hw hpc⟩
          | atErrSend e =>
            refine ⟨_, DMStep.errSend i w e hw hpc ?_⟩
            have hcap := h.capacity
            have hx := dm_sum_set DMPc.credit s.workers i w DMPc.finished hw
            rw [hpc] at hx
            have h2 : (DMPc.atErrSend e).credit = 1 := rfl
            have h3 : DMPc.finished.credit = 0 := rfl
            simp only [he, List.length_nil, DMState.cap]
            omega

theorem dmMeasure_init {σ : Type} (g : σ) (objectIDs : List String) :
    dmMeasure (dmInit g objectIDs) ≤ dmFuel objectIDs.length := by
  simp [dmMeasure, dmInit, dmFuel, DMMain.weight, CloserPc.weight, Function.comp_def,
    DMPc.weight]
  omega

/-! ## DeleteMany: error collection and runs -/

theorem gatewayCalls_append (l : List Event) (e : Event) :
    gatewayCalls (l ++ [e]) = gatewayCalls l ++ gatewayCalls [e] := by
  simp [gatewayCalls, List.filter_append]

theorem dmErr_init {σ : Type} (g : σ) (objectIDs : List String) :
    DMErr (dmInit g objectIDs) := by
  constructor <;>
    simp [dmInit, World.init, reports, failures, gatewayCalls, dmOutcome, Function.comp_def,
      goLen]
  intro a _; rfl

theorem set_ne_nil {α : Type} (l : List α) (i : Nat) (a b : α) (h : l[i]? = some a) :
    l.set i b ≠ [] := by
  intro hx
  have := getElem?_lt l i a h
  have h2 : (l.set i b).length = 0 := by rw [hx]; rfl
  rw [List.length_set] at h2
  omega

theorem dmMain_returned_weight (m : DMMain) (err : Option String)
    (h : m = DMMain.returned err) : m.weight = 0 := by
  subst h; rfl

theorem dmErr_step {σ : Type} (env : Env σ) (s s' : DMState σ) (hc : DMCtl s) (h : DMErr s)
    (hstep : DMStep env s s') : DMErr s' := by
  cases hstep with
  | spawn k w hm hw =>
    constructor
    · exact h.collected
    · exact h.errs_nil
    · have hpc : w.pc = DMPc.notStarted := by
        rw [hc.spawned k w hw]; simp [dmSpawned, hm]
      have hsame := filterMap_set_same DMWorker.pendingErr s.workers k w
        { w with pc := DMPc.atRemove } hw (by simp [DMWorker.pendingErr, hpc])
      simp only [hsame]; exact h.causes
    · intro err hret; simp at hret
    · intro hnil; exact absurd hnil (set_ne_nil _ _ _ _ hw)
  | spawnEnd k hm hw =>
    constructor
    · exact h.collected
    · exact h.errs_nil
    · exact h.causes
    · intro err hret; simp at hret
    · exact h.calls
  | recvErr e rest hm he =>
    constructor
    · have := h.collected
      rw [he] at this
      simp only [goAppend, Option.getD_some, List.append_assoc, List.singleton_append]
      simpa using this
    · right; exact ⟨_, rfl, by simp⟩
    · exact h.causes
    · intro err hret; simp only at hret; rw [hm] at hret; simp at hret
    · exact h.calls
  | retErr hm he hcl hl =>
    constructor
    · simpa [dmLog, reports_append, reports] using h.collected
    · exact h.errs_nil
    · simpa [dmLog, reports_append, failures_append, reports, failures] using h.causes
    · intro err hret
      simp only [DMMain.returned.injEq] at hret
      simp only [dmLog, dmOutcome, hl, if_true, ← hret]
    · intro hnil
      simpa [dmLog, gatewayCalls_append, gatewayCalls] using h.calls hnil
  | retOk hm he hcl hl =>
    constructor
    · simpa [dmLog, reports_append, reports] using h.collected
    · exact h.errs_nil
    · simpa [dmLog, reports_append, failures_append, reports, failures] using h.causes
    · intro err hret
      simp only [DMMain.returned.injEq] at hret
      simp only [dmLog, dmOutcome, hl, if_false, ← hret]
    · intro hnil
      simpa [dmLog, gatewayCalls_append, gatewayCalls] using h.calls hnil
  | close hcl hwg =>
    constructor
    · exact h.collected
    · exact h.errs_nil
    · exact h.causes
    · exact h.outcome
    · exact h.calls
  | removeFail i w err hw hpc hr =>
    have hlog : (callRemove env s.world Ctx.batch s.cancelled w.objectID).1.log
        = s.world.log ++ [Event.removeObject Ctx.batch s.cancelled w.objectID (some err)] := by
      rw [← hr]; rfl
    have hrep : reports (callRemove env s.world Ctx.batch s.cancelled w.objectID).1.log
        = reports s.world.log := by
      rw [hlog, reports_append]; simp [reports]
    have hfail : failures (callRemove env s.world Ctx.batch s.cancelled w.objectID).1.log
        = failures s.world.log ++ [(w.objectID, err)] := by
      rw [hlog, failures_append]; rfl
    constructor
    · simp only [hrep]; exact h.collected
    · exact h.errs_nil
    · have hadd := filterMap_set_add DMWorker.pendingErr s.workers i w
        { w with pc := DMPc.atErrSend (dmOpErr w.objectID err) }
        (w.objectID, (dmOpErr w.objectID err).Error) hw (by simp [DMWorker.pendingErr, hpc])
        (by simp [DMWorker.pendingErr])
      simp only [hrep, hfail, List.map_append, List.map_cons, List.map_nil]
      refine List.Perm.trans (List.Perm.append_left _ hadd) ?_
      refine List.Perm.trans List.perm_middle ?_
      refine List.Perm.trans (h.causes.cons _) ?_
      exact (List.perm_append_singleton _ _).symm
    · exact h.outcome
    · intro hnil; exact absurd hnil (set_ne_nil _ _ _ _ hw)
  | removeOk i w hw hpc hr =>
    have hlog : (callRemove env s.world Ctx.batch s.cancelled w.objectID).1.log
        = s.world.log ++ [Event.removeObject Ctx.batch s.cancelled w.objectID none] := by
      rw [← hr]; rfl
    constructor
    · simp only [dmFinish, hlog]
      simpa [reports_append, reports] using h.collected
    · exact h.errs_nil
    · have hsame := filterMap_set_same DMWorker.pendingErr s.workers i w
        { w with pc := DMPc.finished } hw (by simp [DMWorker.pendingErr, hpc])
      simp only [dmFinish, hlog, hsame]
      simpa [reports_append, failures_append, reports, failures] using h.causes
    · exact h.outcome
    · intro hnil; exact absurd hnil (set_ne_nil _ _ _ _ hw)
  | errSend i w e hw hpc hroom =>
    have hrep : reports (s.world.log ++ [Event.errReported w.objectID e.Error true])
        = reports s.world.log ++ [(w.objectID, e.Error, true)] := by
      rw [reports_append]; rfl
    have hfail : failures (s.world.log ++ [Event.errReported w.objectID e.Error true])
        = failures s.world.log := by
      rw [failures_append]; simp [failures]
    constructor
    · simp only [dmLog, hrep, List.map_append, List.map_cons, List.map_nil, ← h.collected,
        List.append_assoc]
    · exact h.errs_nil
    · have hrem := filterMap_set_remove DMWorker.pendingErr s.workers i w
        { w with pc := DMPc.atCancel } (w.objectID, e.Error) hw
        (by simp [DMWorker.pendingErr, hpc]) (by simp [DMWorker.pendingErr])
      simp only [dmLog, hrep, hfail, List.map_append, List.map_cons, List.map_nil,
        List.append_assoc, List.singleton_append]
      refine List.Perm.trans ?_ h.causes
      exact List.Perm.append_left _ hrem
    · exact h.outcome
    · intro hnil; exact absurd hnil (set_ne_nil _ _ _ _ hw)
  | cancel i w hw hpc =>
    constructor
    · simp only [dmFinish, dmLog]
      simpa [reports_append, reports] using h.collected
    · exact h.errs_nil
    · have hsame := filterMap_set_same DMWorker.pendingErr s.workers i w
        { w with pc := DMPc.finished } hw (by simp [DMWorker.pendingErr, hpc])
      simp only [dmFinish, dmLog, hsame]
      simpa [reports_append, failures_append, reports, failures] using h.causes
    · exact h.outcome
    · intro hnil; exact absurd hnil (set_ne_nil _ _ _ _ hw)

/-- All invariants of `DeleteMany` hold in every state of every run. -/
theorem dm_run_inv {σ : Type} (env : Env σ) (g : σ) (objectIDs : List String)
    (sched : Nat → Nat) (fuel : Nat) :
    DMCtl (exec (dmNext env) sched fuel (dmInit g objectIDs)) ∧
    DMErr (exec (dmNext env) sched fuel (dmInit g objectIDs)) := by
  apply exec_invariant (dmNext env) (fun s => DMCtl s ∧ DMErr s)
  · intro s s' ⟨h1, h2⟩ hmem
    have hstep := dmNext_step env s s' hmem
    exact ⟨dmCtl_step env s s' h1 hstep, dmErr_step env s s' h1 h2 hstep⟩
  · exact ⟨dmCtl_init g objectIDs, dmErr_init g objectIDs⟩

/-- `DeleteMany` returns under every scheduler. -/
theorem dm_returns {σ : Type} (env : Env σ) (g : σ) (objectIDs : List String)
    (sched : Nat → Nat) :
    ∃ err, (DeleteManyRun env g objectIDs sched).main = DMMain.returned err := by
  have hq := exec_quiescent (dmNext env) DMCtl dmMeasure
    (fun s s' h hmem => dmCtl_step env s s' h (dmNext_step env s s' hmem))
    (fun s s' h hmem => dmMeasure_step env s s' h (dmNext_step env s s' hmem))
    (dmFuel objectIDs.length) sched (dmInit g objectIDs) (dmCtl_init g objectIDs)
    (dmMeasure_init g objectIDs)
  have hinv := (dm_run_inv env g objectIDs sched (dmFuel objectIDs.length)).1
  unfold DeleteManyRun
  cases hm : (exec (dmNext env) sched (dmFuel objectIDs.length) (dmInit g objectIDs)).main with
  | returned err => exact ⟨err, rfl⟩
  | spawning k =>
    obtain ⟨s', hs'⟩ := dm_progress env _ hinv (by simp [hm, DMMain.weight])
    have := dmStep_next env _ _ hs'
    rw [hq] at this; simp at this
  | collectingErrs =>
    obtain ⟨s', hs'⟩ := dm_progress env _ hinv (by simp [hm, DMMain.weight])
    have := dmStep_next env _ _ hs'
    rw [hq] at this; simp at this

/-- Once `DeleteMany` has returned, every unit has finished. -/
theorem dm_returned_done {σ : Type} (s : DMState σ) (h : DMCtl s) (err : Option String)
    (hm : s.main = DMMain.returned err) : ∀ w ∈ s.workers, w.pc = DMPc.finished :=
  h.all_done (h.main_past (by simp [hm, DMMain.weight])).1

/-- What `DeleteMany` has collected when it returns: the reports, which are the
failed calls, each wrapped with its key. -/
theorem dm_outcome {σ : Type} (s : DMState σ) (hc : DMCtl s) (he : DMErr s)
    (err : Option String) (hm : s.main = DMMain.returned err) :
    err = dmOutcome s.errs ∧
      s.errs.getD [] = (reports s.world.log).map (fun r => r.2.1) ∧
      List.Perm ((reports s.world.log).map (fun r => (r.1, r.2.1)))
        ((failures s.world.log).map (fun p => (p.1, (dmOpErr p.1 p.2).Error))) := by
  have hdone := dm_returned_done s hc err hm
  have hch := (hc.main_past (by simp [hm, DMMain.weight])).2
  have hcol := he.collected
  rw [hch] at hcol
  simp only [List.map_nil, List.append_nil] at hcol
  have hpend : s.workers.filterMap DMWorker.pendingErr = [] := by
    apply List.filterMap_eq_nil_iff.mpr
    intro w hw
    simp [DMWorker.pendingErr, hdone w hw]
  have hcause := he.causes
  rw [hpend, List.append_nil] at hcause
  exact ⟨he.outcome err hm, hcol, hcause⟩

/-! ## GetMany: actions -/

theorem GetOne_fail {σ : Type} (env : Env σ) (w : World σ) (objectID err : String)
    (h : (GetOne env w objectID).2.2 = some err) :
    ∃ e0, err = getOneErr objectID e0 ∧
      (GetOne env w objectID).1.log = w.log ++
        [Event.presignedGetObject Ctx.background false objectID getExpiry (Presigned.fail e0)] := by
  unfold GetOne at h ⊢
  cases hr : callPresign env w Ctx.background false objectID getExpiry with
  | mk w1 res =>
    have hlog : w1.log = w.log ++
        [Event.presignedGetObject Ctx.background false objectID getExpiry res] := by
      have : (callPresign env w Ctx.background false objectID getExpiry).1.log = w.log ++
          [Event.presignedGetObject Ctx.background false objectID getExpiry
            (callPresign env w Ctx.background false objectID getExpiry).2] := rfl
      rw [hr] at this; exact this
    rw [hr] at h
    cases res with
    | url u => simp at h
    | fail e0 =>
      simp only [Option.some.injEq] at h
      exact ⟨e0, h.symm, hlog⟩

theorem GetOne_ok {σ : Type} (env : Env σ) (w : World σ) (objectID : String)
    (h : (GetOne env w objectID).2.2 = none) :
    (GetOne env w objectID).1.log = w.log ++
      [Event.presignedGetObject Ctx.background false objectID getExpiry
        (Presigned.url (GetOne env w objectID).2.1)] := by
  unfold GetOne at h ⊢
  cases hr : callPresign env w Ctx.background false objectID getExpiry with
  | mk w1 res =>
    have hlog : w1.log = w.log ++
        [Event.presignedGetObject Ctx.background false objectID getExpiry res] := by
      have : (callPresign env w Ctx.background false objectID getExpiry).1.log = w.log ++
          [Event.presignedGetObject Ctx.background false objectID getExpiry
            (callPresign env w Ctx.background false objectID getExpiry).2] := rfl
      rw [hr] at this; exact this
    rw [hr] at h
    cases res with
    | url u => exact hlog
    | fail e0 => simp at h

theorem gmNext_step {σ : Type} (env : Env σ) (s s' : GMState σ) (h : s' ∈ gmNext env s) :
    GMStep env s s' := by
  simp only [gmNext, List.mem_append, List.mem_flatMap, List.mem_range] at h
  rcases h with (hm | hc) | ⟨i, -, hw⟩
  · unfold gmMainStep at hm
    split at hm
    · rename_i k hmain
      split at hm
      · rename_i w hw
        simp only [List.mem_singleton] at hm
        subst hm
        exact GMStep.spawn k w hmain hw
      · rename_i hw
        simp only [List.mem_singleton] at hm
        subst hm
        exact GMStep.spawnEnd k hmain hw
    · rename_i hmain
      split at hm
      · rename_i u rest hu
        simp only [List.mem_singleton] at hm
        subst hm
        exact GMStep.recvUrl u rest hmain hu
      · rename_i hu
        split at hm
        · rename_i hc
          simp only [List.mem_singleton] at hm
          subst hm
          exact GMStep.urlsEnd hmain hu hc
        · simp at hm
    · rename_i hmain
      split at hm
      · rename_i e rest he
        simp only [List.mem_singleton] at hm
        subst hm
        exact GMStep.recvErr e rest hmain he
      · rename_i he
        split at hm
        · rename_i hc
          split at hm
          · rename_i hl
            simp only [List.mem_singleton] at hm
            subst hm
            exact GMStep.retErr hmain he hc hl
          · rename_i hl
            simp only [List.mem_singleton] at hm
            subst hm
            exact GMStep.retOk hmain he hc hl
        · simp at hm
    · simp at hm
  · unfold gmCloserStep at hc
    split at hc
    · simp at hc
    · rename_i hcl
      split at hc
      · rename_i hwg
        simp only [List.mem_singleton] at hc
        subst hc
        exact GMStep.closeUrl hcl hwg
      · simp at hc
    · rename_i hcl
      simp only [List.mem_singleton] at hc
      subst hc
      exact GMStep.closeErr hcl
    · simp at hc
  · unfold gmWorkerStep at hw
    split at hw
    · simp at hw
    · rename_i w hget
      split at hw
      · simp at hw
      · rename_i hpc
        split at hw
        · rename_i w1 u0 err heq
          simp only [List.mem_singleton] at hw
          subst hw
          have h1 : (GetOne env s.world w.objectID).1 = w1 := by rw [heq]
          have h2 : (GetOne env s.world w.objectID).2.2 = some err := by rw [heq]
          rw [← h1]
          exact GMStep.getFail i w err hget hpc h2
        · rename_i w1 u heq
          simp only [List.mem_singleton] at hw
          subst hw
          have h1 : (GetOne env s.world w.objectID).1 = w1 := by rw [heq]
          have h2 : (GetOne env s.world w.objectID).2.2 = none := by rw [heq]
          have h3 : (GetOne env s.world w.objectID).2.1 = u := by rw [heq]
          rw [← h1, ← h3]
          exact GMStep.getOk i w hget hpc h2
      · rename_i e hpc
        split at hw
        · rename_i hroom
          simp only [List.mem_singleton] at hw
          subst hw
          exact GMStep.errSend i w e hget hpc hroom
        · simp at hw
      · rename_i hpc
        simp only [List.mem_singleton] at hw
        subst hw
        exact GMStep.cancel i w hget hpc
      · rename_i u hpc
        split at hw
        · rename_i hroom
          simp only [List.mem_singleton] at hw
          subst hw
          exact GMStep.urlSend i w u hget hpc hroom
        · simp at hw
      · simp at hw

theorem gmStep_next {σ : Type} (env : Env σ) (s s' : GMState σ) (h : GMStep env s s') :
    s' ∈ gmNext env s := by
  have hidx : ∀ (i : Nat) (w : GMWorker), s.workers[i]? = some w → i < s.workers.length := by
    intro i w hw
    exact (List.getElem?_eq_some.mp hw).1
  simp only [gmNext, List.mem_append, List.mem_flatMap, List.mem_range]
  cases h with
  | spawn k w hm hw => left; left; simp [gmMainStep, hm, hw]
  | spawnEnd k hm hw => left; left; simp [gmMainStep, hm, hw]
  | recvUrl u rest hm hu => left; left; simp [gmMainStep, hm, hu]
  | urlsEnd hm hu hc => left; left; simp [gmMainStep, hm, hu, hc]
  | recvErr e rest hm he => left; left; simp [gmMainStep, hm, he]
  | retErr hm he hc hl => left; left; simp [gmMainStep, hm, he, hc, hl]
  | retOk hm he hc hl => left; left; simp [gmMainStep, hm, he, hc, hl]
  | closeUrl hc hwg => left; right; simp [gmCloserStep, hc, hwg]
  | closeErr hc => left; right; simp [gmCloserStep, hc]
  | getFail i w err hw hpc hr =>
    right; refine ⟨i, hidx i w hw, ?_⟩
    simp only [gmWorkerStep, hw, hpc]
    split <;> rename_i heq <;> rw [heq] at hr <;> simp at hr
    subst hr; simp [heq]
  | getOk i w hw hpc hr =>
    right; refine ⟨i, hidx i w hw, ?_⟩
    simp only [gmWorkerStep, hw, hpc]
    split <;> rename_i heq <;> rw [heq] at hr <;> simp at hr
    simp [heq]
  | errSend i w e hw hpc hroom =>
    right; refine ⟨i, hidx i w hw, ?_⟩
    simp [gmWorkerStep, hw, hpc, hroom]
  | cancel i w hw hpc =>
    right; refine ⟨i, hidx i w hw, ?_⟩
    simp [gmWorkerStep, hw, hpc]
  | urlSend i w u hw hpc hroom =>
    right; refine ⟨i, hidx i w hw, ?_⟩
    simp [gmWorkerStep, hw, hpc, hroom]

/-! ## GetMany: control invariant and termination -/

theorem gm_sum_set (f : GMPc → Nat) (l : List GMWorker) (i : Nat) (w : GMWorker) (pc : GMPc)
    (hw : l[i]? = some w) :
    ((l.set i { w with pc := pc }).map (fun w => f w.pc)).sum + f w.pc
      = (l.map (fun w => f w.pc)).sum + f pc :=
  sum_map_set (fun w => f w.pc) l i w { w with pc := pc } hw

theorem gmCtl_init {σ : Type} (g : σ) (objectIDs : List String) :
    GMCtl (gmInit g objectIDs) := by
  constructor <;> simp [gmInit, World.init, gmSpawned, GMMain.weight, Function.comp_def,
    GMPc.active, GMPc.credit, goLen]

theorem gmCtl_worker {σ : Type} (s : GMState σ) (h : GMCtl s) (i : Nat) (w : GMWorker)
    (hw : s.workers[i]? = some w) :
    s.urlClosed = false ∨ w.pc = GMPc.finished := by
  cases hc : s.urlClosed with
  | false => exact Or.inl rfl
  | true => exact Or.inr (h.all_done hc w (mem_of_getElem? _ _ _ hw))

theorem gmSpawned_congr {σ : Type} (s s' : GMState σ) (e1 : s'.main = s.main)
    (e2 : s'.workers.length = s.workers.length) : gmSpawned s' = gmSpawned s := by
  simp only [gmSpawned, e1, e2]

theorem gmCtl_spawned_set {σ : Type} (s s' : GMState σ) (h : GMCtl s) (i : Nat) (w : GMWorker)
    (pc : GMPc) (hw : s.workers[i]? = some w) (hns : w.pc ≠ GMPc.notStarted)
    (hpns : pc ≠ GMPc.notStarted)
    (e1 : s'.workers = s.workers.set i { w with pc := pc }) (e8 : s'.main = s.main) :
    ∀ j w', s'.workers[j]? = some w' → (w'.pc = GMPc.notStarted ↔ gmSpawned s' ≤ j) := by
  intro j w' hj
  rw [gmSpawned_congr s s' e8 (by rw [e1, List.length_set])]
  rw [e1, List.getElem?_set] at hj
  split at hj
  · rename_i hij
    split at hj
    · simp only [Option.some.injEq] at hj
      subst hj; subst hij
      have := h.spawned i w hw
      simp only [hpns, false_iff]
      rw [← this]; exact hns
    · simp at hj
  · exact h.spawned j w' hj

/-- A launched unit of `GetMany` moves on. -/
theorem gmCtl_move {σ : Type} (s s' : GMState σ) (h : GMCtl s) (i : Nat) (w : GMWorker)
    (pc : GMPc) (hw : s.workers[i]? = some w)
    (h1 : w.pc.active = 1) (hpns : pc ≠ GMPc.notStarted)
    (e1 : s'.workers = s.workers.set i { w with pc := pc })
    (e2 : s'.wg + w.pc.active = s.wg + pc.active)
    (e3 : s'.urlCh.length + s'.errCh.length + pc.credit
      ≤ s.urlCh.length + s.errCh.length + w.pc.credit)
    (e4 : s'.urlClosed = s.urlClosed) (e5 : s'.errClosed = s.errClosed)
    (e6 : s'.closer = s.closer) (e7 : s'.main = s.main)
    (e8 : s'.urls = s.urls) (e9 : s'.errs = s.errs) : GMCtl s' := by
  have hA := gm_sum_set GMPc.active s.workers i w pc hw
  have hL := gm_sum_set GMPc.credit s.workers i w pc hw
  have hns : w.pc ≠ GMPc.notStarted := by
    intro hp; simp [hp, GMPc.active] at h1
  have hnf : w.pc ≠ GMPc.finished := by
    intro hp; simp [hp, GMPc.active] at h1
  have hopen : s.urlClosed = false := by
    rcases gmCtl_worker s h i w hw with h | h
    · exact h
    · exact absurd h hnf
  constructor
  · rw [e1]; have := h.wg_eq; omega
  · exact gmCtl_spawned_set s s' h i w pc hw hns hpns e1 e7
  · rw [e6, e7]; exact h.closer_start
  · intro hc; rw [e4, hopen] at hc; simp at hc
  · rw [e4, e6]; exact h.url_closed
  · rw [e5, e6]; exact h.err_closed
  · intro hm; rw [e7] at hm; have := (h.main_past hm).1; rw [hopen] at this; simp at this
  · intro hm; rw [e7] at hm
    have := (h.main_past (by omega)).1; rw [hopen] at this; simp at this
  · rw [e8, e9, e1, List.length_set]; have := h.capacity; omega

theorem gm_active_pos {σ : Type} (s : GMState σ) (h : GMCtl s) (i : Nat) (w : GMWorker)
    (hw : s.workers[i]? = some w) (h1 : w.pc.active = 1) : 0 < s.wg := by
  have := h.wg_eq
  have hx := gm_sum_set GMPc.active s.workers i w GMPc.finished hw
  have h3 : GMPc.finished.active = 0 := rfl
  omega

theorem gmCtl_step {σ : Type} (env : Env σ) (s s' : GMState σ) (h : GMCtl s)
    (hstep : GMStep env s s') : GMCtl s' := by
  cases hstep with
  | spawn k w hm hw =>
    have hpc : w.pc = GMPc.notStarted := by
      rw [h.spawned k w hw]; simp [gmSpawned, hm]
    have hA := gm_sum_set GMPc.active s.workers k w GMPc.atGetOne hw
    have hL := gm_sum_set GMPc.credit s.workers k w GMPc.atGetOne hw
    have hfa : GMPc.atGetOne.active = 1 := rfl
    have hfl : GMPc.atGetOne.credit = 1 := rfl
    have hna : GMPc.notStarted.active = 0 := rfl
    have hnl : GMPc.notStarted.credit = 1 := rfl
    rw [hpc, hfa, hna] at hA
    rw [hpc, hfl, hnl] at hL
    have hopen : s.urlClosed = false := by
      rcases gmCtl_worker s h k w hw with h | h
      · exact h
      · rw [hpc] at h; simp at h
    constructor
    · simp only; have := h.wg_eq; omega
    · intro j w' hj
      simp only [List.getElem?_set] at hj
      simp only [gmSpawned]
      split at hj
      · rename_i hij
        split at hj
        · simp only [Option.some.injEq] at hj
          subst hj; subst hij; simp
        · simp at hj
      · rename_i hij
        have := h.spawned j w' hj
        simp only [gmSpawned, hm] at this
        rw [this]; omega
    · simp only; have := h.closer_start; rw [this]; simp [hm]
    · intro hc; simp only at hc; rw [hopen] at hc; simp at hc
    · exact h.url_closed
    · exact h.err_closed
    · simp [GMMain.weight]
    · simp [GMMain.weight]
    · simp only [List.length_set]; have := h.capacity; omega
  | spawnEnd k hm hw =>
    have hcl : s.closer = CloserPc.notStarted := h.closer_start.mpr ⟨k, hm⟩
    have hopen : s.urlClosed = false := by
      cases hc : s.urlClosed with
      | false => rfl
      | true => have := h.url_closed.mp hc; rw [hcl] at this; simp at this
    constructor
    · exact h.wg_eq
    · intro j w' hj
      have hj' : j < s.workers.length := getElem?_lt _ _ _ hj
      have hge : s.workers.length ≤ k := by
        by_contra hlt
        have : k < s.workers.length := by omega
        rw [List.getElem?_eq_getElem this] at hw; simp at hw
      have := h.spawned j w' hj
      simp only [gmSpawned, hm] at this
      simp only [gmSpawned]
      rw [this]; omega
    · simp
    · intro hc; simp only at hc; rw [hopen] at hc; simp at hc
    · simp [hopen]
    · simp only; have := h.err_closed; rw [hcl] at this; simp at this ⊢; exact this
    · simp [GMMain.weight]
    · simp [GMMain.weight]
    · exact h.capacity
  | recvUrl u rest hm hu =>
    constructor
    · exact h.wg_eq
    · intro j w' hj
      have := h.spawned j w' hj
      simp only [gmSpawned, hm] at this
      simp only [gmSpawned, hm]; exact this
    · exact h.closer_start
    · exact h.all_done
    · exact h.url_closed
    · exact h.err_closed
    · simp [hm, GMMain.weight]
    · simp [hm, GMMain.weight]
    · have := h.capacity; simp only [hu, List.length_cons] at this
      simp only [goLen, goAppend, Option.getD_some, List.length_append, List.length_singleton]
      simp only [goLen] at this
      omega
  | urlsEnd hm hu hc =>
    constructor
    · exact h.wg_eq
    · intro j w' hj
      have := h.spawned j w' hj
      simp only [gmSpawned, hm] at this
      simp only [gmSpawned]; exact this
    · simp only; have := h.closer_start; rw [this]; simp [hm]
    · exact h.all_done
    · exact h.url_closed
    · exact h.err_closed
    · intro _; exact ⟨hc, hu⟩
    · simp [GMMain.weight]
    · exact h.capacity
  | recvErr e rest hm he =>
    have hp := h.main_past (by simp [hm, GMMain.weight])
    constructor
    · exact h.wg_eq
    · intro j w' hj
      have := h.spawned j w' hj
      simp only [gmSpawned, hm] at this
      simp only [gmSpawned, hm]; exact this
    · exact h.closer_start
    · exact h.all_done
    · exact h.url_closed
    · exact h.err_closed
    · intro _; exact hp
    · simp [hm, GMMain.weight]
    · have := h.capacity; simp only [he, List.length_cons] at this
      simp only [goLen, goAppend, Option.getD_some, List.length_append, List.length_singleton]
      simp only [goLen] at this
      omega
  | retErr hm he hc hl =>
    have hp := h.main_past (by simp [hm, GMMain.weight])
    constructor
    · exact h.wg_eq
    · intro j w' hj
      have := h.spawned j w' hj
      simp only [gmSpawned, hm] at this
      simp only [gmSpawned, gmLog]; exact this
    · simp only [gmLog]; have := h.closer_start; rw [this]; simp [hm]
    · exact h.all_done
    · exact h.url_closed
    · exact h.err_closed
    · intro _; exact hp
    · intro _; exact ⟨hc, he⟩
    · exact h.capacity
  | retOk hm he hc hl =>
    have hp := h.main_past (by simp [hm, GMMain.weight])
    constructor
    · exact h.wg_eq
    · intro j w' hj
      have := h.spawned j w' hj
      simp only [gmSpawned, hm] at this
      simp only [gmSpawned, gmLog]; exact this
    · simp only [gmLog]; have := h.closer_start; rw [this]; simp [hm]
    · exact h.all_done
    · exact h.url_closed
    · exact h.err_closed
    · intro _; exact hp
    · intro _; exact ⟨hc, he⟩
    · exact h.capacity
  | closeUrl hc hwg =>
    have hsum := h.wg_eq
    rw [hwg] at hsum
    have hmain : gmSpawned s = s.workers.length := by
      simp only [gmSpawned]
      split
      · rename_i k hk
        have := h.closer_start.mpr ⟨k, hk⟩
        rw [hc] at this; simp at this
      · rfl
    constructor
    · exact h.wg_eq
    · exact h.spawned
    · simp only; have := h.closer_start; rw [hc] at this; simpa using this
    · intro _ w hw
      have hw' : w ∈ s.workers := hw
      obtain ⟨j, hj, hjw⟩ := List.mem_iff_getElem.mp hw'
      have hget : s.workers[j]? = some w := by rw [List.getElem?_eq_getElem hj, hjw]
      have hns := h.spawned j w hget
      rw [hmain] at hns
      have hact := sum_eq_zero_mem _ hsum.symm (w.pc.active)
        (List.mem_map.mpr ⟨w, hw', rfl⟩)
      cases hp : w.pc <;> simp [hp, GMPc.active] at hact hns ⊢
      omega
    · simp
    · simp only; have := h.err_closed; rw [hc] at this; simpa using this
    · intro hm
      have := (h.main_past hm).1
      have := h.url_closed.mp this
      rw [hc] at this; simp at this
    · intro hm
      have hm' : s.main.weight = 0 := hm
      have := (h.main_past (by omega)).1
      have := h.url_closed.mp this
      rw [hc] at this; simp at this
    · exact h.capacity
  | closeErr hc =>
    have hcl : s.urlClosed = true := h.url_closed.mpr (Or.inl hc)
    constructor
    · exact h.wg_eq
    · exact h.spawned
    · simp only; have := h.closer_start; rw [hc] at this; simpa using this
    · intro _; exact h.all_done hcl
    · simp [hcl]
    · simp
    · intro hm; exact h.main_past hm
    · intro hm
      have := (h.main_ret hm).1
      have := h.err_closed.mp this
      rw [hc] at this; simp at this
    · exact h.capacity
  | getFail i w err hw hpc hr =>
    exact gmCtl_move s _ h i w _ hw (by simp [hpc, GMPc.active]) (by simp) rfl
      (by simp [hpc, GMPc.active]) (by simp [hpc, GMPc.credit]) rfl rfl rfl rfl rfl rfl
  | getOk i w hw hpc hr =>
    exact gmCtl_move s _ h i w _ hw (by simp [hpc, GMPc.active]) (by simp) rfl
      (by simp [hpc, GMPc.active]) (by simp [hpc, GMPc.credit]) rfl rfl rfl rfl rfl rfl
  | errSend i w e hw hpc hroom =>
    exact gmCtl_move s _ h i w _ hw (by simp [hpc, GMPc.active]) (by simp) rfl
      (by simp [gmLog, hpc, GMPc.active])
      (by simp only [gmLog, hpc, GMPc.credit, List.length_append, List.length_singleton]; omega)
      rfl rfl rfl rfl rfl rfl
  | cancel i w hw hpc =>
    have hrun := gm_active_pos s h i w hw (by simp [hpc, GMPc.active])
    exact gmCtl_move s _ h i w _ hw (by simp [hpc, GMPc.active]) (by simp) rfl
      (by simp only [gmFinish, gmLog, hpc, GMPc.active]; omega)
      (by simp [gmFinish, gmLog, hpc, GMPc.credit]) rfl rfl rfl rfl rfl rfl
  | urlSend i w u hw hpc hroom =>
    have hrun := gm_active_pos s h i w hw (by simp [hpc, GMPc.active])
    exact gmCtl_move s _ h i w _ hw (by simp [hpc, GMPc.active]) (by simp) rfl
      (by simp only [gmFinish, gmLog, hpc, GMPc.active]; omega)
      (by simp only [gmFinish, gmLog, hpc, GMPc.credit, List.length_append,
        List.length_singleton]; omega) rfl rfl rfl rfl rfl rfl

theorem gmMeasure_step {σ : Type} (env : Env σ) (s s' : GMState σ) (h : GMCtl s)
    (hstep : GMStep env s s') : gmMeasure s' < gmMeasure s := by
  have hw5 : GMPc.notStarted.weight = 5 := rfl
  have hw4 : GMPc.atGetOne.weight = 4 := rfl
  have hw3 : ∀ e, (GMPc.atErrSend e).weight = 3 := fun _ => rfl
  have hw3' : ∀ u, (GMPc.atUrlSend u).weight = 3 := fun _ => rfl
  have hw1 : GMPc.atCancel.weight = 1 := rfl
  have hw0 : GMPc.finished.weight = 0 := rfl
  cases hstep with
  | spawn k w hm hw =>
    have hpc : w.pc = GMPc.notStarted := by
      rw [h.spawned k w hw]; simp [gmSpawned, hm]
    have hW := gm_sum_set GMPc.weight s.workers k w GMPc.atGetOne hw
    rw [hpc, hw5, hw4] at hW
    simp only [gmMeasure, hm, GMMain.weight]
    omega
  | spawnEnd k hm hw =>
    have hcl : s.closer = CloserPc.notStarted := h.closer_start.mpr ⟨k, hm⟩
    simp only [gmMeasure, hm, hcl, GMMain.weight, CloserPc.weight]
    omega
  | recvUrl u rest hm hu =>
    simp only [gmMeasure, hm, hu, List.length_cons]
    omega
  | urlsEnd hm hu hc =>
    simp only [gmMeasure, hm, GMMain.weight]
    omega
  | recvErr e rest hm he =>
    simp only [gmMeasure, hm, he, List.length_cons]
    omega
  | retErr hm he hc hl =>
    simp only [gmMeasure, hm, GMMain.weight, gmLog]
    omega
  | retOk hm he hc hl =>
    simp only [gmMeasure, hm, GMMain.weight, gmLog]
    omega
  | closeUrl hc hwg =>
    simp only [gmMeasure, hc, CloserPc.weight]
    omega
  | closeErr hc =>
    simp only [gmMeasure, hc, CloserPc.weight]
    omega
  | getFail i w err hw hpc hr =>
    have hW := gm_sum_set GMPc.weight s.workers i w (GMPc.atErrSend (gmOpErr w.objectID err)) hw
    rw [hpc, hw4, hw3] at hW
    simp only [gmMeasure]
    omega
  | getOk i w hw hpc hr =>
    have hW := gm_sum_set GMPc.weight s.workers i w
      (GMPc.atUrlSend (GetOne env s.world w.objectID).2.1) hw
    rw [hpc, hw4, hw3'] at hW
    simp only [gmMeasure]
    omega
  | errSend i w e hw hpc hroom =>
    have hW := gm_sum_set GMPc.weight s.workers i w GMPc.atCancel hw
    rw [hpc, hw3, hw1] at hW
    simp only [gmMeasure, gmLog, List.length_append, List.length_singleton]
    omega
  | cancel i w hw hpc =>
    have hW := gm_sum_set GMPc.weight s.workers i w GMPc.finished hw
    rw [hpc, hw1, hw0] at hW
    simp only [gmMeasure, gmLog, gmFinish]
    omega
  | urlSend i w u hw hpc hroom =>
    have hW := gm_sum_set GMPc.weight s.workers i w GMPc.finished hw
    rw [hpc, hw3', hw0] at hW
    simp only [gmMeasure, gmLog, gmFinish, List.length_append, List.length_singleton]
    omega

/-- Some action is enabled as long as `GetMany` has not returned. -/
theorem gm_progress {σ : Type} (env : Env σ) (s : GMState σ) (h : GMCtl s)
    (hm : s.main.weight ≠ 0) : ∃ s', GMStep env s s' := by
  cases hmain : s.main with
  | spawning k =>
    cases hw : s.workers[k]? with
    | none => exact ⟨_, GMStep.spawnEnd k hmain hw⟩
    | some w => exact ⟨_, GMStep.spawn k w hmain hw⟩
  | returned urls err => rw [hmain] at hm; simp [GMMain.weight] at hm
  | collectingErrs =>
    cases he : s.errCh with
    | cons e rest => exact ⟨_, GMStep.recvErr e rest hmain he⟩
    | nil =>
      cases hc : s.errClosed with
      | true =>
        by_cases hl : goLen s.errs > 0
        · exact ⟨_, GMStep.retErr hmain he hc hl⟩
        · exact ⟨_, GMStep.retOk hmain he hc hl⟩
      | false =>
        have hu := (h.main_past (by simp [hmain, GMMain.weight])).1
        have hcl := h.url_closed.mp hu
        rcases hcl with hcl | hcl
        · exact ⟨_, GMStep.closeErr hcl⟩
        · have := h.err_closed.mpr hcl
          rw [hc] at this; simp at this
  | collectingUrls =>
    cases hu : s.urlCh with
    | cons u rest => exact ⟨_, GMStep.recvUrl u rest hmain hu⟩
    | nil =>
      cases hc : s.urlClosed with
      | true => exact ⟨_, GMStep.urlsEnd hmain hu hc⟩
      | false =>
        have hcl : s.closer = CloserPc.atWait := by
          cases hx : s.closer with
          | atWait => rfl
          | notStarted =>
            obtain ⟨k, hk⟩ := h.closer_start.mp hx
            rw [hmain] at hk; simp at hk
          | atCloseErr => have := h.url_closed.mpr (Or.inl hx); rw [hc] at this; simp at this
          | finished => have := h.url_closed.mpr (Or.inr hx); rw [hc] at this; simp at this
        by_cases hwg : s.wg = 0
        · exact ⟨_, GMStep.closeUrl hcl hwg⟩
        · have hpos : 0 < (s.workers.map (fun w => w.pc.active)).sum := by
            have := h.wg_eq; omega
          obtain ⟨i, w, hw, hact⟩ := exists_pos_of_sum_pos _ _ hpos
          have hlen := getElem?_lt _ _ _ hw
          have hcap := h.capacity
          have hx := gm_sum_set GMPc.credit s.workers i w GMPc.finished hw
          have h3 : GMPc.finished.credit = 0 := rfl
          cases hpc : w.pc with
          | notStarted => rw [hpc] at hact; simp [GMPc.active] at hact
          | finished => rw [hpc] at hact; simp [GMPc.active] at hact
          | atGetOne =>
            cases hr : (GetOne env s.world w.objectID).2.2 with
            | none => exact ⟨_, GMStep.getOk i w hw hpc hr⟩
            | some err => exact ⟨_, GMStep.getFail i w err hw hpc hr⟩
          | atCancel => exact ⟨_, GMStep.cancel i w hw hpc⟩
          | atErrSend e =>
            refine ⟨_, GMStep.errSend i w e hw hpc ?_⟩
            rw [hpc] at hx
            have h2 : (GMPc.atErrSend e).credit = 1 := rfl
            simp only [GMState.cap]
            omega
          | atUrlSend u =>
            refine ⟨_, GMStep.urlSend i w u hw hpc ?_⟩
            rw [hpc] at hx
            have h2 : (GMPc.atUrlSend u).credit = 1 := rfl
            simp only [GMState.cap]
            omega

theorem gmMeasure_init {σ : Type} (g : σ) (objectIDs : List String) :
    gmMeasure (gmInit g objectIDs) ≤ gmFuel objectIDs.length := by
  simp [gmMeasure, gmInit, gmFuel, GMMain.weight, CloserPc.weight, Function.comp_def,
    GMPc.weight]
  omega

/-! ## GetMany: collection invariant -/

theorem urlSends_append (l : List Event) (e : Event) :
    urlSends (l ++ [e]) = urlSends l ++ urlSends [e] := by
  simp [urlSends, List.filterMap_append]

theorem callKeys_append (l : List Event) (e : Event) :
    callKeys (l ++ [e]) = callKeys l ++ callKeys [e] := by
  simp [callKeys, List.filterMap_append]

theorem gm_keys_set (l : List GMWorker) (i : Nat) (w : GMWorker) (pc : GMPc)
    (hw : l[i]? = some w) :
    (l.set i { w with pc := pc }).map (fun w => w.objectID) = l.map (fun w => w.objectID) :=
  map_set_same (fun w : GMWorker => w.objectID) l i w { w with pc := pc } hw rfl

theorem gmErr_init {σ : Type} (g : σ) (objectIDs : List String) :
    GMErr objectIDs (gmInit g objectIDs) := by
  constructor <;>
    simp [gmInit, World.init, reports, failures, okPresigns, urlSends, callKeys, gmOutcome,
      Function.comp_def, goLen]
  · intro a _; rfl
  · intro a _; rfl
  · intro a _; rfl
  · intro a _; rfl

/-- Actions of `GetMany` that touch neither the channels, nor what was collected, nor the
trace entries the collection invariant reads, nor what the units hold. -/
theorem gmErr_frame {σ : Type} (keys : List String) (s s' : GMState σ) (h : GMErr keys s)
    (e1 : s'.workers.map (fun w => w.objectID) = s.workers.map (fun w => w.objectID))
    (e2 : s'.errs = s.errs) (e3 : s'.errCh = s.errCh) (e4 : s'.urls = s.urls)
    (e5 : s'.urlCh = s.urlCh)
    (l1 : reports s'.world.log = reports s.world.log)
    (l2 : failures s'.world.log = failures s.world.log)
    (l3 : urlSends s'.world.log = urlSends s.world.log)
    (l4 : okPresigns s'.world.log = okPresigns s.world.log)
    (l5 : callKeys s'.world.log = callKeys s.world.log)
    (f1 : s'.workers.filterMap GMWorker.pendingErr = s.workers.filterMap GMWorker.pendingErr)
    (f2 : s'.workers.filterMap GMWorker.pendingUrl = s.workers.filterMap GMWorker.pendingUrl)
    (f3 : s'.workers.filterMap GMWorker.calledKey = s.workers.filterMap GMWorker.calledKey)
    (hm : s'.main = s.main ∨ s'.main.weight ≠ 0) : GMErr keys s' := by
  constructor
  · rw [e1]; exact h.keys_eq
  · rw [e2, e3, l1]; exact h.collected
  · rw [e2]; exact h.errs_nil
  · rw [l1, l2, f1]; exact h.causes
  · rw [e4, e5, l3]; exact h.sent
  · rw [e4]; exact h.urls_nil
  · rw [l3, l4, f2]; exact h.links
  · rw [l5, f3]; exact h.called
  · rw [l4, l2, f3]; exact h.presigned
  · intro urls err hret
    rcases hm with hm | hm
    · rw [e4, e2]; exact h.outcome urls err (hm ▸ hret)
    · rw [hret] at hm; simp [GMMain.weight] at hm

theorem gmErr_step {σ : Type} (env : Env σ) (keys : List String) (s s' : GMState σ)
    (hc : GMCtl s) (h : GMErr keys s) (hstep : GMStep env s s') : GMErr keys s' := by
  cases hstep with
  | spawn k w hm hw =>
    have hpc : w.pc = GMPc.notStarted := by
      rw [hc.spawned k w hw]; simp [gmSpawned, hm]
    exact gmErr_frame keys s _ h (gm_keys_set _ _ _ _ hw) rfl rfl rfl rfl rfl rfl rfl rfl rfl
      (filterMap_set_same _ _ _ _ _ hw (by simp [GMWorker.pendingErr, hpc]))
      (filterMap_set_same _ _ _ _ _ hw (by simp [GMWorker.pendingUrl, hpc]))
      (filterMap_set_same _ _ _ _ _ hw (by simp [GMWorker.calledKey, hpc]))
      (Or.inr (by simp [GMMain.weight]))
  | spawnEnd k hm hw =>
    exact gmErr_frame keys s _ h rfl rfl rfl rfl rfl rfl rfl rfl rfl rfl rfl rfl rfl
      (Or.inr (by simp [GMMain.weight]))
  | urlsEnd hm hu hcl =>
    exact gmErr_frame keys s _ h rfl rfl rfl rfl rfl rfl rfl rfl rfl rfl rfl rfl rfl
      (Or.inr (by simp [GMMain.weight]))
  | closeUrl hcl hwg =>
    exact gmErr_frame keys s _ h rfl rfl rfl rfl rfl rfl rfl rfl rfl rfl rfl rfl rfl (Or.inl rfl)
  | closeErr hcl =>
    exact gmErr_frame keys s _ h rfl rfl rfl rfl rfl rfl rfl rfl rfl rfl rfl rfl rfl (Or.inl rfl)
  | cancel i w hw hpc =>
    exact gmErr_frame keys s _ h (gm_keys_set _ _ _ _ hw) rfl rfl rfl rfl
      (by simp [gmFinish, gmLog, reports]) (by simp [gmFinish, gmLog, failures])
      (by simp [gmFinish, gmLog, urlSends]) (by simp [gmFinish, gmLog, okPresigns])
      (by simp [gmFinish, gmLog, callKeys])
      (filterMap_set_same _ _ _ _ _ hw (by simp [GMWorker.pendingErr, hpc]))
      (filterMap_set_same _ _ _ _ _ hw (by simp [GMWorker.pendingUrl, hpc]))
      (filterMap_set_same _ _ _ _ _ hw (by simp [GMWorker.calledKey, hpc]))
      (Or.inl rfl)
  | recvUrl u rest hm hu =>
    constructor
    · exact h.keys_eq
    · exact h.collected
    · exact h.errs_nil
    · exact h.causes
    · have := h.sent
      rw [hu] at this
      simp only [goAppend, Option.getD_some, List.append_assoc, List.singleton_append]
      exact this
    · right; exact ⟨_, rfl, by simp⟩
    · exact h.links
    · exact h.called
    · exact h.presigned
    · intro urls err hret; simp only at hret; rw [hm] at hret; simp at hret
  | recvErr e rest hm he =>
    constructor
    · exact h.keys_eq
    · have := h.collected
      rw [he] at this
      simp only [goAppend, Option.getD_some, List.append_assoc, List.singleton_append]
      simpa using this
    · right; exact ⟨_, rfl, by simp⟩
    · exact h.causes
    · exact h.sent
    · exact h.urls_nil
    · exact h.links
    · exact h.called
    · exact h.presigned
    · intro urls err hret; simp only at hret; rw [hm] at hret; simp at hret
  | retErr hm he hcl hl =>
    constructor
    · exact h.keys_eq
    · simpa [gmLog, reports_append, reports] using h.collected
    · exact h.errs_nil
    · simpa [gmLog, reports_append, failures_append, reports, failures] using h.causes
    · simpa [gmLog, urlSends_append, urlSends] using h.sent
    · exact h.urls_nil
    · simpa [gmLog, urlSends_append, okPresigns_append, urlSends, okPresigns] using h.links
    · simpa [gmLog, callKeys_append, callKeys] using h.called
    · simpa [gmLog, okPresigns_append, failures_append, okPresigns, failures] using h.presigned
    · intro urls err hret
      simp only [GMMain.returned.injEq] at hret
      simp only [gmLog, gmOutcome, hl, if_true, ← hret.1, ← hret.2]
  | retOk hm he hcl hl =>
    constructor
    · exact h.keys_eq
    · simpa [gmLog, reports_append, reports] using h.collected
    · exact h.errs_nil
    · simpa [gmLog, reports_append, failures_append, reports, failures] using h.causes
    · simpa [gmLog, urlSends_append, urlSends] using h.sent
    · exact h.urls_nil
    · simpa [gmLog, urlSends_append, okPresigns_append, urlSends, okPresigns] using h.links
    · simpa [gmLog, callKeys_append, callKeys] using h.called
    · simpa [gmLog, okPresigns_append, failures_append, okPresigns, failures] using h.presigned
    · intro urls err hret
      simp only [GMMain.returned.injEq] at hret
      simp only [gmLog, gmOutcome, hl, if_false, ← hret.1, ← hret.2]
  | getFail i w err hw hpc hr =>
    obtain ⟨e0, herr, hlog⟩ := GetOne_fail env s.world w.objectID err hr
    have hrep : reports (GetOne env s.world w.objectID).1.log = reports s.world.log := by
      rw [hlog, reports_append]; simp [reports]
    have hfail : failures (GetOne env s.world w.objectID).1.log
        = failures s.world.log ++ [(w.objectID, e0)] := by
      rw [hlog, failures_append]; rfl
    have hsend : urlSends (GetOne env s.world w.objectID).1.log = urlSends s.world.log := by
      rw [hlog, urlSends_append]; simp [urlSends]
    have hok : okPresigns (GetOne env s.world w.objectID).1.log = okPresigns s.world.log := by
      rw [hlog, okPresigns_append]; simp [okPresigns]
    have hcall : callKeys (GetOne env s.world w.objectID).1.log
        = callKeys s.world.log ++ [w.objectID] := by
      rw [hlog, callKeys_append]; rfl
    have hkey := filterMap_set_add GMWorker.calledKey s.workers i w
      { w with pc := GMPc.atErrSend (gmOpErr w.objectID err) } w.objectID hw
      (by simp [GMWorker.calledKey, hpc]) (by simp [GMWorker.calledKey])
    constructor
    · exact (gm_keys_set _ _ _ _ hw).trans h.keys_eq
    · simp only [hrep]; exact h.collected
    · exact h.errs_nil
    · have hadd := filterMap_set_add GMWorker.pendingErr s.workers i w
        { w with pc := GMPc.atErrSend (gmOpErr w.objectID err) }
        (w.objectID, (gmOpErr w.objectID err).Error) hw (by simp [GMWorker.pendingErr, hpc])
        (by simp [GMWorker.pendingErr])
      simp only [hrep, hfail, List.map_append, List.map_cons, List.map_nil, ← herr]
      refine List.Perm.trans (List.Perm.append_left _ hadd) ?_
      refine List.Perm.trans List.perm_middle ?_
      refine List.Perm.trans (h.causes.cons _) ?_
      exact (List.perm_append_singleton _ _).symm
    · simp only [hsend]; exact h.sent
    · exact h.urls_nil
    · simp only [hsend, hok]
      rw [filterMap_set_same _ _ _ _ _ hw (by simp [GMWorker.pendingUrl, hpc])]
      exact h.links
    · simp only [hcall]
      refine List.Perm.trans hkey ?_
      refine List.Perm.trans (h.called.cons _) ?_
      exact (List.perm_append_singleton _ _).symm
    · simp only [hok, hfail, List.map_append, List.map_cons, List.map_nil]
      refine List.Perm.trans hkey ?_
      refine List.Perm.trans (h.presigned.cons _) ?_
      have hx := (List.perm_append_singleton w.objectID
        ((okPresigns s.world.log).map Prod.fst ++ (failures s.world.log).map Prod.fst)).symm
      rw [List.append_assoc] at hx
      exact hx
    · exact h.outcome
  | getOk i w hw hpc hr =>
    have hlog := GetOne_ok env s.world w.objectID hr
    have hrep : reports (GetOne env s.world w.objectID).1.log = reports s.world.log := by
      rw [hlog, reports_append]; simp [reports]
    have hfail : failures (GetOne env s.world w.objectID).1.log = failures s.world.log := by
      rw [hlog, failures_append]; simp [failures]
    have hsend : urlSends (GetOne env s.world w.objectID).1.log = urlSends s.world.log := by
      rw [hlog, urlSends_append]; simp [urlSends]
    have hok : okPresigns (GetOne env s.world w.objectID).1.log
        = okPresigns s.world.log ++ [(w.objectID, (GetOne env s.world w.objectID).2.1)] := by
      rw [hlog, okPresigns_append]; rfl
    have hcall : callKeys (GetOne env s.world w.objectID).1.log
        = callKeys s.world.log ++ [w.objectID] := by
      rw [hlog, callKeys_append]; rfl
    have hkey := filterMap_set_add GMWorker.calledKey s.workers i w
      { w with pc := GMPc.atUrlSend (GetOne env s.world w.objectID).2.1 } w.objectID hw
      (by simp [GMWorker.calledKey, hpc]) (by simp [GMWorker.calledKey])
    constructor
    · exact (gm_keys_set _ _ _ _ hw).trans h.keys_eq
    · simp only [hrep]; exact h.collected
    · exact h.errs_nil
    · simp only [hrep, hfail]
      rw [filterMap_set_same _ _ _ _ _ hw (by simp [GMWorker.pendingErr, hpc])]
      exact h.causes
    · simp only [hsend]; exact h.sent
    · exact h.urls_nil
    · have hadd := filterMap_set_add GMWorker.pendingUrl s.workers i w
        { w with pc := GMPc.atUrlSend (GetOne env s.world w.objectID).2.1 }
        (w.objectID, (GetOne env s.world w.objectID).2.1) hw
        (by simp [GMWorker.pendingUrl, hpc]) (by simp [GMWorker.pendingUrl])
      simp only [hsend, hok]
      refine List.Perm.trans (List.Perm.append_left _ hadd) ?_
      refine List.Perm.trans List.perm_middle ?_
      refine List.Perm.trans (h.links.cons _) ?_
      exact (List.perm_append_singleton _ _).symm
    · simp only [hcall]
      refine List.Perm.trans hkey ?_
      refine List.Perm.trans (h.called.cons _) ?_
      exact (List.perm_append_singleton _ _).symm
    · simp only [hok, hfail, List.map_append, List.map_cons, List.map_nil]
      refine List.Perm.trans hkey ?_
      refine List.Perm.trans (h.presigned.cons _) ?_
      simp only [List.append_assoc, List.singleton_append]
      exact List.perm_middle.symm
    · exact h.outcome
  | errSend i w e hw hpc hroom =>
    have hrep : reports (s.world.log ++ [Event.errReported w.objectID e.Error true])
        = reports s.world.log ++ [(w.objectID, e.Error, true)] := by
      rw [reports_append]; rfl
    have hfail : failures (s.world.log ++ [Event.errReported w.objectID e.Error true])
        = failures s.world.log := by
      rw [failures_append]; simp [failures]
    have hsend : urlSends (s.world.log ++ [Event.errReported w.objectID e.Error true])
        = urlSends s.world.log := by
      rw [urlSends_append]; simp [urlSends]
    have hok : okPresigns (s.world.log ++ [Event.errReported w.objectID e.Error true])
        = okPresigns s.world.log := by
      rw [okPresigns_append]; simp [okPresigns]
    have hcall : callKeys (s.world.log ++ [Event.errReported w.objectID e.Error true])
        = callKeys s.world.log := by
      rw [callKeys_append]; simp [callKeys]
    have hkey := filterMap_set_same GMWorker.calledKey s.workers i w
      { w with pc := GMPc.atCancel } hw (by simp [GMWorker.calledKey, hpc])
    constructor
    · exact (gm_keys_set _ _ _ _ hw).trans h.keys_eq
    · simp only [gmLog, hrep, List.map_append, List.map_cons, List.map_nil, ← h.collected,
        List.append_assoc]
    · exact h.errs_nil
    · have hrem := filterMap_set_remove GMWorker.pendingErr s.workers i w
        { w with pc := GMPc.atCancel } (w.objectID, e.Error) hw
        (by simp [GMWorker.pendingErr, hpc]) (by simp [GMWorker.pendingErr])
      simp only [gmLog, hrep, hfail, List.map_append, List.map_cons, List.map_nil,
        List.append_assoc, List.singleton_append]
      refine List.Perm.trans ?_ h.causes
      exact List.Perm.append_left _ hrem
    · simp only [gmLog, hsend]; exact h.sent
    · exact h.urls_nil
    · simp only [gmLog, hsend, hok]
      rw [filterMap_set_same _ _ _ _ _ hw (by simp [GMWorker.pendingUrl, hpc])]
      exact h.links
    · simp only [gmLog, hcall, hkey]; exact h.called
    · simp only [gmLog, hok, hfail, hkey]; exact h.presigned
    · exact h.outcome
  | urlSend i w u hw hpc hroom =>
    have hrep : reports (s.world.log ++ [Event.urlReported w.objectID u true] ++
        [Event.unitDone w.objectID]) = reports s.world.log := by
      simp [reports]
    have hfail : failures (s.world.log ++ [Event.urlReported w.objectID u true] ++
        [Event.unitDone w.objectID]) = failures s.world.log := by
      simp [failures]
    have hsend : urlSends (s.world.log ++ [Event.urlReported w.objectID u true] ++
        [Event.unitDone w.objectID]) = urlSends s.world.log ++ [(w.objectID, u)] := by
      simp [urlSends]
    have hok : okPresigns (s.world.log ++ [Event.urlReported w.objectID u true] ++
        [Event.unitDone w.objectID]) = okPresigns s.world.log := by
      simp [okPresigns]
    have hcall : callKeys (s.world.log ++ [Event.urlReported w.objectID u true] ++
        [Event.unitDone w.objectID]) = callKeys s.world.log := by
      simp [callKeys]
    have hkey := filterMap_set_same GMWorker.calledKey s.workers i w
      { w with pc := GMPc.finished } hw (by simp [GMWorker.calledKey, hpc])
    constructor
    · exact (gm_keys_set _ _ _ _ hw).trans h.keys_eq
    · simp only [gmFinish, gmLog, hrep]; exact h.collected
    · exact h.errs_nil
    · simp only [gmFinish, gmLog, hrep, hfail]
      rw [filterMap_set_same _ _ _ _ _ hw (by simp [GMWorker.pendingErr, hpc])]
      exact h.causes
    · simp only [gmFinish, gmLog, hsend, List.map_append, List.map_cons, List.map_nil,
        ← h.sent]
      rw [List.append_assoc]
    · exact h.urls_nil
    · have hrem := filterMap_set_remove GMWorker.pendingUrl s.workers i w
        { w with pc := GMPc.finished } (w.objectID, u) hw
        (by simp [GMWorker.pendingUrl, hpc]) (by simp [GMWorker.pendingUrl])
      simp only [gmFinish, gmLog, hsend, hok]
      rw [List.append_assoc]
      refine List.Perm.trans ?_ h.links
      exact List.Perm.append_left _ hrem
    · simp only [gmFinish, gmLog, hcall, hkey]; exact h.called
    · simp only [gmFinish, gmLog, hok, hfail, hkey]; exact h.presigned
    · exact h.outcome

/-! ## GetMany: runs -/

/-- All invariants of `GetMany` hold in every state of every run. -/
theorem gm_run_inv {σ : Type} (env : Env σ) (g : σ) (objectIDs : List String)
    (sched : Nat → Nat) (fuel : Nat) :
    GMCtl (exec (gmNext env) sched fuel (gmInit g objectIDs)) ∧
    GMErr objectIDs (exec (gmNext env) sched fuel (gmInit g objectIDs)) := by
  apply exec_invariant (gmNext env) (fun s => GMCtl s ∧ GMErr objectIDs s)
  · intro s s' ⟨h1, h2⟩ hmem
    have hstep := gmNext_step env s s' hmem
    exact ⟨gmCtl_step env s s' h1 hstep, gmErr_step env _ s s' h1 h2 hstep⟩
  · exact ⟨gmCtl_init g objectIDs, gmErr_init g objectIDs⟩

/-- `GetMany` returns under every scheduler. -/
theorem gm_returns {σ : Type} (env : Env σ) (g : σ) (objectIDs : List String)
    (sched : Nat → Nat) :
    ∃ urls err, (GetManyRun env g objectIDs sched).main = GMMain.returned urls err := by
  have hq := exec_quiescent (gmNext env) GMCtl gmMeasure
    (fun s s' h hmem => gmCtl_step env s s' h (gmNext_step env s s' hmem))
    (fun s s' h hmem => gmMeasure_step env s s' h (gmNext_step env s s' hmem))
    (gmFuel objectIDs.length) sched (gmInit g objectIDs) (gmCtl_init g objectIDs)
    (gmMeasure_init g objectIDs)
  have hinv := (gm_run_inv env g objectIDs sched (gmFuel objectIDs.length)).1
  unfold GetManyRun
  cases hm : (exec (gmNext env) sched (gmFuel objectIDs.length) (gmInit g objectIDs)).main with
  | returned urls err => exact ⟨urls, err, rfl⟩
  | spawning k =>
    obtain ⟨s', hs'⟩ := gm_progress env _ hinv (by simp [hm, GMMain.weight])
    have := gmStep_next env _ _ hs'
    rw [hq] at this; simp at this
  | collectingUrls =>
    obtain ⟨s', hs'⟩ := gm_progress env _ hinv (by simp [hm, GMMain.weight])
    have := gmStep_next env _ _ hs'
    rw [hq] at this; simp at this
  | collectingErrs =>
    obtain ⟨s', hs'⟩ := gm_progress env _ hinv (by simp [hm, GMMain.weight])
    have := gmStep_next env _ _ hs'
    rw [hq] at this; simp at this

/-- Once `GetMany` has returned, every unit has finished. -/
theorem gm_returned_done {σ : Type} (s : GMState σ) (h : GMCtl s)
    (urls : Option (List String)) (err : Option String)
    (hm : s.main = GMMain.returned urls err) : ∀ w ∈ s.workers, w.pc = GMPc.finished :=
  h.all_done (h.main_past (by simp [hm, GMMain.weight])).1

/-- What `GetMany` has collected when it returns. -/
theorem gm_outcome {σ : Type} (keys : List String) (s : GMState σ) (hc : GMCtl s)
    (he : GMErr keys s) (urls : Option (List String)) (err : Option String)
    (hm : s.main = GMMain.returned urls err) :
    (urls, err) = gmOutcome s.urls s.errs ∧
      s.errs.getD [] = (reports s.world.log).map (fun r => r.2.1) ∧
      List.Perm ((reports s.world.log).map (fun r => (r.1, r.2.1)))
        ((failures s.world.log).map
          (fun p => (p.1, (gmOpErr p.1 (getOneErr p.1 p.2)).Error))) ∧
      s.urls.getD [] = (urlSends s.world.log).map Prod.snd ∧
      List.Perm (urlSends s.world.log) (okPresigns s.world.log) ∧
      List.Perm keys (callKeys s.world.log) ∧
      List.Perm keys
        ((okPresigns s.world.log).map Prod.fst ++ (failures s.world.log).map Prod.fst) := by
  have hdone := gm_returned_done s hc urls err hm
  have hech := (hc.main_ret (by simp [hm, GMMain.weight])).2
  have huch := (hc.main_past (by simp [hm, GMMain.weight])).2
  have hcol := he.collected
  rw [hech] at hcol
  simp only [List.map_nil, List.append_nil] at hcol
  have hsent := he.sent
  rw [huch, List.append_nil] at hsent
  have hpe : s.workers.filterMap GMWorker.pendingErr = [] := by
    apply List.filterMap_eq_nil_iff.mpr
    intro w hw
    simp [GMWorker.pendingErr, hdone w hw]
  have hpu : s.workers.filterMap GMWorker.pendingUrl = [] := by
    apply List.filterMap_eq_nil_iff.mpr
    intro w hw
    simp [GMWorker.pendingUrl, hdone w hw]
  have hkeys : s.workers.filterMap GMWorker.calledKey = keys := by
    rw [← he.keys_eq]
    have : ∀ l : List GMWorker, (∀ w ∈ l, w.pc = GMPc.finished) →
        l.filterMap GMWorker.calledKey = l.map (fun w => w.objectID) := by
      intro l hl
      induction l with
      | nil => rfl
      | cons x xs ih =>
        have hx := hl x (by simp)
        simp only [List.filterMap_cons, List.map_cons, GMWorker.calledKey, hx]
        rw [ih (fun w hw => hl w (by simp [hw]))]
    exact this _ hdone
  have hcause := he.causes
  rw [hpe, List.append_nil] at hcause
  have hlinks := he.links
  rw [hpu, List.append_nil] at hlinks
  have hcalled := he.called
  have hpres := he.presigned
  rw [hkeys] at hcalled hpres
  exact ⟨he.outcome urls err hm, hcol, hcause, hsent, hlinks, hcalled, hpres⟩

/-! ## Empty batches and unit counts -/

theorem calls_nil_facts (l : List Event) (h : gatewayCalls l = []) :
    anyFailed l = false ∧ okPresigns l = [] ∧ failures l = [] ∧ callKeys l = [] := by
  induction l with
  | nil => exact ⟨rfl, rfl, rfl, rfl⟩
  | cons e t ih =>
    cases e <;> simp [gatewayCalls] at h
    all_goals
      have ih' := ih (by simpa [gatewayCalls] using h)
      obtain ⟨h1, h2, h3, h4⟩ := ih'
      simp only [anyFailed, okPresigns, failures, callKeys] at h1 h2 h3 h4
      simp [anyFailed, okPresigns, failures, callKeys, Event.failed, h1, h2, h3, h4]

theorem calls_nil_of_keys_nil (l : List Event) (h : callKeys l = []) : gatewayCalls l = [] := by
  induction l with
  | nil => rfl
  | cons e t ih =>
    cases e <;> simp [callKeys] at h
    all_goals
      have ih' := ih (by simpa [callKeys] using h)
      simp only [gatewayCalls] at ih'
      simp [gatewayCalls, ih']

/-- With no unit, `CreateMany` calls the gateway never. -/
theorem cm_empty_calls {σ : Type} (env : Env σ) (g : σ) (sched : Nat → Nat) (fuel : Nat) :
    (exec (cmNext env) sched fuel (cmInit g [])).workers = [] ∧
    gatewayCalls (exec (cmNext env) sched fuel (cmInit g [])).world.log = [] := by
  apply exec_invariant (cmNext env)
    (fun s => s.workers = [] ∧ gatewayCalls s.world.log = [])
  · intro s s' ⟨h1, h2⟩ hmem
    have hnone : ∀ (i : Nat) (w : CMWorker), s.workers[i]? = some w → False := by
      intro i w hw; rw [h1] at hw; simp at hw
    cases cmNext_step env s s' hmem with
    | spawn k w hm hw => exact (hnone k w hw).elim
    | spawnEnd k hm hw => exact ⟨h1, h2⟩
    | collect u rest hm hu => exact ⟨h1, h2⟩
    | collectEnd hm hu hc => exact ⟨h1, h2⟩
    | recvErr err rest hm he =>
      exact ⟨h1, by simp only [cmLog, gatewayCalls_append, h2]; rfl⟩
    | recvNil hm he hc =>
      exact ⟨h1, by simp only [cmLog, gatewayCalls_append, h2]; rfl⟩
    | closeUrl hc hwg => exact ⟨h1, h2⟩
    | closeErr hc => exact ⟨h1, h2⟩
    | putFail i w err hw hpc hr => exact (hnone i w hw).elim
    | putOk i w hw hpc hr => exact (hnone i w hw).elim
    | presignFail i w err hw hpc hr => exact (hnone i w hw).elim
    | presignOk i w u hw hpc hr => exact (hnone i w hw).elim
    | errCapture i w err hw hpc hroom => exact (hnone i w hw).elim
    | errDrop i w err hw hpc hfull => exact (hnone i w hw).elim
    | cancel i w hw hpc => exact (hnone i w hw).elim
    | urlSend i w u hw hpc hroom => exact (hnone i w hw).elim
    | urlDrop i w u hw hpc hdone => exact (hnone i w hw).elim
  · exact ⟨rfl, rfl⟩

/-- The number of units of `DeleteMany` is the number of submitted identifiers. -/
theorem dm_workers_length {σ : Type} (env : Env σ) (g : σ) (objectIDs : List String)
    (sched : Nat → Nat) (fuel : Nat) :
    (exec (dmNext env) sched fuel (dmInit g objectIDs)).workers.length = objectIDs.length := by
  apply exec_invariant (dmNext env) (fun s => s.workers.length = objectIDs.length)
  · intro s s' h hmem
    cases dmNext_step env s s' hmem <;>
      simp [dmFinish, dmLog, List.length_set, h]
  · simp [dmInit]

theorem count_finished {α : Type} (p : α → Bool) (l : List α) (h : ∀ x ∈ l, p x = true) :
    (l.filter p).length = l.length := by
  rw [List.filter_eq_self.mpr h]

/-! ## What the bulk operations return -/

theorem failures_ne_nil_of_failed (l : List Event) (h : anyFailed l = true) :
    failures l ≠ [] := by
  induction l with
  | nil => simp [anyFailed] at h
  | cons e t ih =>
    simp only [anyFailed, List.any_cons, Bool.or_eq_true] at h
    rcases h with h | h
    · cases e <;> simp [Event.failed] at h
      all_goals (rename_i x; cases x <;> simp [Event.failed] at h; simp [failures])
    · have := ih h
      simp only [failures, List.filterMap_cons] at this ⊢
      split
      · exact this
      · simp

/-- `GetMany` after a failed call: nil links and the list of all reported messages. -/
theorem gm_failed_result {σ : Type} (keys : List String) (s : GMState σ) (hc : GMCtl s)
    (he : GMErr keys s) (urls : Option (List String)) (err : Option String)
    (hm : s.main = GMMain.returned urls err) (hf : failures s.world.log ≠ []) :
    urls = none ∧ err = some ("ошибки при получении объектов: " ++
      fmtErrs ((reports s.world.log).map (fun r => r.2.1))) := by
  obtain ⟨hout, herrs, hcause, -⟩ := gm_outcome keys s hc he urls err hm
  have hne : (reports s.world.log).map (fun r => r.2.1) ≠ [] := by
    intro hx
    have hx' : reports s.world.log = [] := List.map_eq_nil_iff.mp hx
    rw [hx'] at hcause
    have := hcause.symm.eq_nil
    exact hf (List.map_eq_nil_iff.mp this)
  have hlen : goLen s.errs > 0 := by
    simp only [goLen, herrs]
    exact List.length_pos.mpr hne
  simp only [gmOutcome, hlen, if_true, Prod.mk.injEq] at hout
  rw [herrs] at hout
  exact hout

/-- `GetMany` without a failed call: the links it collected and a nil error. -/
theorem gm_ok_result {σ : Type} (keys : List String) (s : GMState σ) (hc : GMCtl s)
    (he : GMErr keys s) (urls : Option (List String)) (err : Option String)
    (hm : s.main = GMMain.returned urls err) (hf : failures s.world.log = []) :
    urls = s.urls ∧ err = none := by
  obtain ⟨hout, herrs, hcause, -⟩ := gm_outcome keys s hc he urls err hm
  rw [hf] at hcause
  have hx : reports s.world.log = [] := List.map_eq_nil_iff.mp hcause.eq_nil
  have hlen : ¬ goLen s.errs > 0 := by
    simp [goLen, herrs, hx]
  simp only [gmOutcome, hlen, if_false, Prod.mk.injEq] at hout
  exact hout

/-- `DeleteMany` after a failed call: the list of all reported messages. -/
theorem dm_failed_result {σ : Type} (s : DMState σ) (hc : DMCtl s) (he : DMErr s)
    (err : Option String) (hm : s.main = DMMain.returned err)
    (hf : failures s.world.log ≠ []) :
    err = some ("ошибки при удалении объектов: " ++
      fmtErrs ((reports s.world.log).map (fun r => r.2.1))) := by
  obtain ⟨hout, herrs, hcause⟩ := dm_outcome s hc he err hm
  have hne : (reports s.world.log).map (fun r => r.2.1) ≠ [] := by
    intro hx
    have hx' : reports s.world.log = [] := List.map_eq_nil_iff.mp hx
    rw [hx'] at hcause
    have := hcause.symm.eq_nil
    exact hf (List.map_eq_nil_iff.mp this)
  have hlen : goLen s.errs > 0 := by
    simp only [goLen, herrs]
    exact List.length_pos.mpr hne
  simp only [dmOutcome, hlen, if_true] at hout
  rw [herrs] at hout
  exact hout

/-- `DeleteMany` without a failed call: a nil error. -/
theorem dm_ok_result {σ : Type} (s : DMState σ) (hc : DMCtl s) (he : DMErr s)
    (err : Option String) (hm : s.main = DMMain.returned err)
    (hf : failures s.world.log = []) : err = none := by
  obtain ⟨hout, herrs, hcause⟩ := dm_outcome s hc he err hm
  rw [hf] at hcause
  have hx : reports s.world.log = [] := List.map_eq_nil_iff.mp hcause.eq_nil
  have hlen : ¬ goLen s.errs > 0 := by
    simp [goLen, herrs, hx]
  simp only [dmOutcome, hlen, if_false] at hout
  exact hout

/-! ## Single-item operations and ends of runs -/

/-- `CreateOne` in terms of the outcomes of its two gateway calls. -/
theorem CreateOne_eq {σ : Type} (env : Env σ) (w : World σ) (file : FileDataType) :
    CreateOne env w file =
      match (callPut env (drawUuid env w).1 Ctx.background false (drawUuid env w).2
          file.Data).2 with
      | some err =>
        ((callPut env (drawUuid env w).1 Ctx.background false (drawUuid env w).2 file.Data).1,
          none, some ("ошибка при создании объекта " ++ file.FileName ++ ": " ++ err))
      | none =>
        match (callPresign env (callPut env (drawUuid env w).1 Ctx.background false
            (drawUuid env w).2 file.Data).1 Ctx.background false (drawUuid env w).2
            (createExpiry env.cfg)).2 with
        | Presigned.fail err =>
          ((callPresign env (callPut env (drawUuid env w).1 Ctx.background false
            (drawUuid env w).2 file.Data).1 Ctx.background false (drawUuid env w).2
            (createExpiry env.cfg)).1,
            none, some ("ошибка при создании URL для объекта " ++ file.FileName ++ ": " ++ err))
        | Presigned.url u =>
          ((callPresign env (callPut env (drawUuid env w).1 Ctx.background false
            (drawUuid env w).2 file.Data).1 Ctx.background false (drawUuid env w).2
            (createExpiry env.cfg)).1,
            some { ObjectID := (drawUuid env w).2, Link := u }, none) := by
  unfold CreateOne
  simp only
  cases hp : callPut env (drawUuid env w).1 Ctx.background false (drawUuid env w).2
      file.Data with
  | mk w2 r =>
    cases r with
    | some err => rfl
    | none =>
      simp only
      cases hq : callPresign env w2 Ctx.background false (drawUuid env w).2
          (createExpiry env.cfg) with
      | mk w3 r2 =>
        cases r2 <;> rfl

/-- `GetOne` leaves the world its presign call leaves. -/
theorem GetOne_world {σ : Type} (env : Env σ) (w : World σ) (objectID : String) :
    (GetOne env w objectID).1
      = (callPresign env w Ctx.background false objectID getExpiry).1 := by
  unfold GetOne
  cases hq : callPresign env w Ctx.background false objectID getExpiry with
  | mk w3 r2 => cases r2 <;> rfl

/-- The invariants of `CreateMany` at the end of a run. -/
theorem cm_inv {σ : Type} (env : Env σ) (g : σ) (data : List (String × FileDataType))
    (sched : Nat → Nat) :
    CMCtl (CreateManyRun env g data sched) ∧ CMErr (CreateManyRun env g data sched) ∧
      CMOk env (data.map Prod.fst) (CreateManyRun env g data sched) :=
  cm_run_inv env g data sched (cmFuel data.length)

/-- The invariants of `GetMany` at the end of a run. -/
theorem gm_inv {σ : Type} (env : Env σ) (g : σ) (objectIDs : List String)
    (sched : Nat → Nat) :
    GMCtl (GetManyRun env g objectIDs sched) ∧
      GMErr objectIDs (GetManyRun env g objectIDs sched) :=
  gm_run_inv env g objectIDs sched (gmFuel objectIDs.length)

/-- The invariants of `DeleteMany` at the end of a run. -/
theorem dm_inv {σ : Type} (env : Env σ) (g : σ) (objectIDs : List String)
    (sched : Nat → Nat) :
    DMCtl (DeleteManyRun env g objectIDs sched) ∧ DMErr (DeleteManyRun env g objectIDs sched) ∧
      (DeleteManyRun env g objectIDs sched).workers.length = objectIDs.length :=
  ⟨(dm_run_inv env g objectIDs sched (dmFuel objectIDs.length)).1,
    (dm_run_inv env g objectIDs sched (dmFuel objectIDs.length)).2,
    dm_workers_length env g objectIDs sched (dmFuel objectIDs.length)⟩

/-- With no gateway call in the trace, `CreateMany` returns an empty slice and no error. -/
theorem cm_quiet_result {σ : Type} (env : Env σ) (keys : List String) (s : CMState σ)
    (hc : CMCtl s) (he : CMErr s) (ho : CMOk env keys s)
    (objs : Option (List CreatedObject)) (err : Option String)
    (hm : s.main = CMMain.returned objs err) (hcalls : gatewayCalls s.world.log = []) :
    objs = some [] ∧ err = none := by
  obtain ⟨hf, hok, -⟩ := calls_nil_facts _ hcalls
  obtain ⟨h1, h2, h3, -⟩ := cm_ok_outcome env keys s hc he ho objs err hm hf
  rw [hok, List.map_nil] at h3
  have hnil := List.map_eq_nil_iff.mp h3.eq_nil
  rw [hnil] at h1
  exact ⟨h1, h2⟩

/-- With no unit, `GetMany` calls the gateway never and returns its nil slice and no
error. -/
theorem gm_empty_result {σ : Type} (s : GMState σ) (hc : GMCtl s) (he : GMErr [] s)
    (urls : Option (List String)) (err : Option String)
    (hm : s.main = GMMain.returned urls err) :
    urls = none ∧ err = none ∧ gatewayCalls s.world.log = [] := by
  have hw : s.workers = [] := List.map_eq_nil_iff.mp he.keys_eq
  have hcalled := he.called
  rw [hw] at hcalled
  have hkeys : callKeys s.world.log = [] := hcalled.symm.eq_nil
  have hcalls := calls_nil_of_keys_nil _ hkeys
  obtain ⟨-, hok, hfail, -⟩ := calls_nil_facts _ hcalls
  obtain ⟨h1, h2⟩ := gm_ok_result [] s hc he urls err hm hfail
  obtain ⟨-, -, -, hsent, hlinks, -⟩ := gm_outcome [] s hc he urls err hm
  rw [hok] at hlinks
  rw [hlinks.eq_nil, List.map_nil] at hsent
  have hurls : s.urls = none := by
    rcases he.urls_nil with hn | ⟨l, hl, hne⟩
    · exact hn
    · rw [hl] at hsent; simp at hsent; exact absurd hsent hne
  rw [hurls] at h1
  exact ⟨h1, h2, hcalls⟩

/-- With no unit, `DeleteMany` calls the gateway never and returns no error. -/
theorem dm_empty_result {σ : Type} (s : DMState σ) (hc : DMCtl s) (he : DMErr s)
    (hw : s.workers = []) (err : Option String) (hm : s.main = DMMain.returned err) :
    err = none ∧ gatewayCalls s.world.log = [] := by
  have hcalls := he.calls hw
  obtain ⟨-, -, hfail, -⟩ := calls_nil_facts _ hcalls
  exact ⟨dm_ok_result s hc he err hm hfail, hcalls⟩

/-! # The claims -/

theorem gatewayTrace_append {σ : Type} (env : Env σ) (data : List (String × FileDataType))
    (l m : List Event) :
    ∀ (g g1 g2 : σ), GatewayTrace env data g l g1 → GatewayTrace env data g1 m g2 →
      GatewayTrace env data g (l ++ m) g2 := by
  induction l with
  | nil =>
    intro g g1 g2 h1 h2
    simp only [GatewayTrace] at h1
    subst h1
    exact h2
  | cons e t ih =>
    intro g g1 g2 h1 h2
    cases e with
    | putObject c d k r =>
      simp only [List.cons_append, GatewayTrace] at h1 ⊢
      obtain ⟨file, hm, hr, ht⟩ := h1
      exact ⟨file, hm, hr, ih _ _ _ ht h2⟩
    | presignedGetObject c d k x r =>
      simp only [List.cons_append, GatewayTrace] at h1 ⊢
      exact ⟨h1.1, ih _ _ _ h1.2 h2⟩
    | removeObject c d k r =>
      simp only [List.cons_append, GatewayTrace] at h1 ⊢
      exact ⟨h1.1, ih _ _ _ h1.2 h2⟩
    | errReported k x c =>
      simp only [List.cons_append, GatewayTrace] at h1 ⊢
      exact ih _ _ _ h1 h2
    | urlReported k u c =>
      simp only [List.cons_append, GatewayTrace] at h1 ⊢
      exact ih _ _ _ h1 h2
    | cancel =>
      simp only [List.cons_append, GatewayTrace] at h1 ⊢
      exact ih _ _ _ h1 h2
    | unitDone k =>
      simp only [List.cons_append, GatewayTrace] at h1 ⊢
      exact ih _ _ _ h1 h2

/-- An entry that is not a gateway call leaves a trace of the gateway one. -/
theorem gatewayTrace_quiet {σ : Type} (env : Env σ) (data : List (String × FileDataType))
    (g g1 : σ) (log : List Event) (e : Event) (he : e.callCtx = none)
    (h : GatewayTrace env data g log g1) : GatewayTrace env data g (log ++ [e]) g1 := by
  refine gatewayTrace_append env data log [e] g g1 g1 h ?_
  cases e with
  | putObject c d k r => simp [Event.callCtx] at he
  | presignedGetObject c d k x r => simp [Event.callCtx] at he
  | removeObject c d k r => simp [Event.callCtx] at he
  | errReported k x c => simp [GatewayTrace]
  | urlReported k u c => simp [GatewayTrace]
  | cancel => simp [GatewayTrace]
  | unitDone k => simp [GatewayTrace]

/-- With a gateway that signs every key `k` with `link k`, the links of the successful
presign calls of a trace of the gateway are the images of their keys. -/
theorem gatewayTrace_links {σ : Type} (env : Env σ) (data : List (String × FileDataType))
    (link : String → String)
    (hsign : ∀ (g : σ) (d : Bool) (b k : String) (e : Int),
      (env.mc.PresignedGetObject g d b k e).2 = Presigned.url (link k))
    (log : List Event) :
    ∀ (g g1 : σ), GatewayTrace env data g log g1 →
      (okPresigns log).map Prod.snd = (okPresigns log).map (fun p => link p.1) := by
  induction log with
  | nil => intro g g1 _; rfl
  | cons e t ih =>
    intro g g1 h
    cases e with
    | putObject c d k r =>
      simp only [GatewayTrace] at h
      obtain ⟨file, -, -, ht⟩ := h
      simpa [okPresigns] using ih _ _ ht
    | presignedGetObject c d k x r =>
      simp only [GatewayTrace] at h
      have hr := h.1
      rw [hsign] at hr
      subst hr
      have := ih _ _ h.2
      simp only [okPresigns, List.filterMap_cons, List.map_cons] at this ⊢
      rw [this]
    | removeObject c d k r =>
      simp only [GatewayTrace] at h
      simpa [okPresigns] using ih _ _ h.2
    | errReported k x c =>
      simp only [GatewayTrace] at h
      simpa [okPresigns] using ih _ _ h
    | urlReported k u c =>
      simp only [GatewayTrace] at h
      simpa [okPresigns] using ih _ _ h
    | cancel =>
      simp only [GatewayTrace] at h
      simpa [okPresigns] using ih _ _ h
    | unitDone k =>
      simp only [GatewayTrace] at h
      simpa [okPresigns] using ih _ _ h

theorem cm_items_set (l : List CMWorker) (i : Nat) (w : CMWorker) (pc : CMPc)
    (hw : l[i]? = some w) :
    (l.set i { w with pc := pc }).map (fun w => (w.objectID, w.file))
      = l.map (fun w => (w.objectID, w.file)) :=
  map_set_same (fun w : CMWorker => (w.objectID, w.file)) l i w { w with pc := pc } hw rfl

/-- The trace of `CreateMany` is a trace of the gateway, and the units hold the items of
the batch. -/
theorem cm_gateway_trace {σ : Type} (env : Env σ) (g : σ) (data : List (String × FileDataType))
    (sched : Nat → Nat) (fuel : Nat) :
    GatewayTrace env data g (exec (cmNext env) sched fuel (cmInit g data)).world.log
      (exec (cmNext env) sched fuel (cmInit g data)).world.gw ∧
    (exec (cmNext env) sched fuel (cmInit g data)).workers.map (fun w => (w.objectID, w.file))
      = data := by
  apply exec_invariant (cmNext env)
    (fun s => GatewayTrace env data g s.world.log s.world.gw ∧
      s.workers.map (fun w => (w.objectID, w.file)) = data)
  · intro s s' ⟨h1, h2⟩ hmem
    cases cmNext_step env s s' hmem with
    | spawn k w hm hw => exact ⟨h1, (cm_items_set _ _ _ _ hw).trans h2⟩
    | spawnEnd k hm hw => exact ⟨h1, h2⟩
    | collectEnd hm hu hcl => exact ⟨h1, h2⟩
    | closeUrl hcl hwg => exact ⟨h1, h2⟩
    | closeErr hcl => exact ⟨h1, h2⟩
    | collect u rest hm hu => exact ⟨h1, h2⟩
    | recvErr err rest hm he' =>
      exact ⟨gatewayTrace_quiet env data g _ _ _ rfl h1, h2⟩
    | recvNil hm he' hcl =>
      exact ⟨gatewayTrace_quiet env data g _ _ _ rfl h1, h2⟩
    | putFail i w err hw hpc hr =>
      refine ⟨gatewayTrace_append env data _ _ g _ _ h1 ?_, (cm_items_set _ _ _ _ hw).trans h2⟩
      have hmem : (w.objectID, w.file) ∈ data := by
        rw [← h2]
        exact List.mem_map.mpr ⟨w, mem_of_getElem? _ _ _ hw, rfl⟩
      exact ⟨w.file, hmem, rfl, rfl⟩
    | putOk i w hw hpc hr =>
      refine ⟨gatewayTrace_append env data _ _ g _ _ h1 ?_, (cm_items_set _ _ _ _ hw).trans h2⟩
      have hmem : (w.objectID, w.file) ∈ data := by
        rw [← h2]
        exact List.mem_map.mpr ⟨w, mem_of_getElem? _ _ _ hw, rfl⟩
      exact ⟨w.file, hmem, rfl, rfl⟩
    | presignFail i w err hw hpc hr =>
      exact ⟨gatewayTrace_append env data _ _ g _ _ h1 ⟨rfl, rfl⟩,
        (cm_items_set _ _ _ _ hw).trans h2⟩
    | presignOk i w u hw hpc hr =>
      exact ⟨gatewayTrace_append env data _ _ g _ _ h1 ⟨rfl, rfl⟩,
        (cm_items_set _ _ _ _ hw).trans h2⟩
    | errCapture i w err hw hpc hroom =>
      exact ⟨gatewayTrace_quiet env data g _ _ _ rfl h1,
        (cm_items_set _ _ _ _ hw).trans h2⟩
    | errDrop i w err hw hpc hfull =>
      exact ⟨gatewayTrace_quiet env data g _ _ _ rfl (gatewayTrace_quiet env data g _ _ _ rfl h1), (cm_items_set _ _ _ _ hw).trans h2⟩
    | cancel i w hw hpc =>
      exact ⟨gatewayTrace_quiet env data g _ _ _ rfl (gatewayTrace_quiet env data g _ _ _ rfl h1), (cm_items_set _ _ _ _ hw).trans h2⟩
    | urlSend i w u hw hpc hroom =>
      exact ⟨gatewayTrace_quiet env data g _ _ _ rfl (gatewayTrace_quiet env data g _ _ _ rfl h1), (cm_items_set _ _ _ _ hw).trans h2⟩
    | urlDrop i w u hw hpc hdone =>
      exact ⟨gatewayTrace_quiet env data g _ _ _ rfl (gatewayTrace_quiet env data g _ _ _ rfl h1), (cm_items_set _ _ _ _ hw).trans h2⟩
  · exact ⟨rfl, by simp [cmInit, Function.comp_def]⟩

/-- The trace of `GetMany` is a trace of the gateway. -/
theorem gm_gateway_trace {σ : Type} (env : Env σ) (g : σ) (objectIDs : List String)
    (sched : Nat → Nat) (fuel : Nat) :
    GatewayTrace env [] g (exec (gmNext env) sched fuel (gmInit g objectIDs)).world.log
      (exec (gmNext env) sched fuel (gmInit g objectIDs)).world.gw := by
  apply exec_invariant (gmNext env)
    (fun s => GatewayTrace env [] g s.world.log s.world.gw)
  · intro s s' h1 hmem
    cases gmNext_step env s s' hmem with
    | getFail i w err hw hpc hr =>
      show GatewayTrace env [] g (GetOne env s.world w.objectID).1.log
        (GetOne env s.world w.objectID).1.gw
      rw [GetOne_world]
      exact gatewayTrace_append env [] _ _ g _ _ h1 ⟨rfl, rfl⟩
    | getOk i w hw hpc hr =>
      show GatewayTrace env [] g (GetOne env s.world w.objectID).1.log
        (GetOne env s.world w.objectID).1.gw
      rw [GetOne_world]
      exact gatewayTrace_append env [] _ _ g _ _ h1 ⟨rfl, rfl⟩
    | spawn k w hm hw => exact h1
    | spawnEnd k hm hw => exact h1
    | recvUrl u rest hm hu => exact h1
    | urlsEnd hm hu hc => exact h1
    | recvErr e rest hm he => exact h1
    | closeUrl hc hwg => exact h1
    | closeErr hc => exact h1
    | retErr hm he hc hl =>
      exact gatewayTrace_quiet env [] g _ _ _ rfl h1
    | retOk hm he hc hl =>
      exact gatewayTrace_quiet env [] g _ _ _ rfl h1
    | errSend i w e hw hpc hroom =>
      exact gatewayTrace_quiet env [] g _ _ _ rfl h1
    | cancel i w hw hpc =>
      exact gatewayTrace_quiet env [] g _ _ _ rfl (gatewayTrace_quiet env [] g _ _ _ rfl h1)
    | urlSend i w u hw hpc hroom =>
      exact gatewayTrace_quiet env [] g _ _ _ rfl (gatewayTrace_quiet env [] g _ _ _ rfl h1)
  · rfl

/-- The trace of `DeleteMany` is a trace of the gateway. -/
theorem dm_gateway_trace {σ : Type} (env : Env σ) (g : σ) (objectIDs : List String)
    (sched : Nat → Nat) (fuel : Nat) :
    GatewayTrace env [] g (exec (dmNext env) sched fuel (dmInit g objectIDs)).world.log
      (exec (dmNext env) sched fuel (dmInit g objectIDs)).world.gw := by
  apply exec_invariant (dmNext env)
    (fun s => GatewayTrace env [] g s.world.log s.world.gw)
  · intro s s' h1 hmem
    cases dmNext_step env s s' hmem with
    | removeFail i w err hw hpc hr =>
      exact gatewayTrace_append env [] _ _ g _ _ h1 ⟨rfl, rfl⟩
    | removeOk i w hw hpc hr =>
      exact gatewayTrace_quiet env [] g _ _ _ rfl
        (gatewayTrace_append env [] _ _ g _ _ h1 ⟨rfl, rfl⟩)
    | spawn k w hm hw => exact h1
    | spawnEnd k hm hw => exact h1
    | recvErr e rest hm he => exact h1
    | close hc hwg => exact h1
    | retErr hm he hc hl =>
      exact gatewayTrace_quiet env [] g _ _ _ rfl h1
    | retOk hm he hc hl =>
      exact gatewayTrace_quiet env [] g _ _ _ rfl h1
    | errSend i w e hw hpc hroom =>
      exact gatewayTrace_quiet env [] g _ _ _ rfl h1
    | cancel i w hw hpc =>
      exact gatewayTrace_quiet env [] g _ _ _ rfl (gatewayTrace_quiet env [] g _ _ _ rfl h1)
  · rfl

/-- C1: in each bulk operation, under every scheduler, a run in which some gateway call
returned an error ends with the operation returning a non-nil error and no results:
`CreateMany` and `GetMany` return a nil collection with the error, `DeleteMany` the error. -/
theorem C1_failure_returns_error_without_results {σ : Type} (env : Env σ) (g : σ)
    (data : List (String × FileDataType)) (objectIDs : List String) (sched : Nat → Nat) :
    (anyFailed (CreateManyRun env g data sched).world.log = true →
      ∃ msg, CreateMany env g data sched = some (none, some msg)) ∧
    (anyFailed (GetManyRun env g objectIDs sched).world.log = true →
      ∃ msg, GetMany env g objectIDs sched = some (none, some msg)) ∧
    (anyFailed (DeleteManyRun env g objectIDs sched).world.log = true →
      ∃ msg, DeleteMany env g objectIDs sched = some (some msg)) := by
  refine ⟨?_, ?_, ?_⟩
  · intro hf
    obtain ⟨objs, err, hm⟩ := cm_returns env g data sched
    obtain ⟨hc, he, _⟩ := cm_run_inv env g data sched (cmFuel data.length)
    obtain ⟨k, e, rest, _, h1, h2⟩ := cm_failed_outcome _ hc he objs err hm hf
    subst h1 h2
    exact ⟨_, by unfold CreateMany CMState.result; rw [hm]⟩
  · intro hf
    obtain ⟨urls, err, hm⟩ := gm_returns env g objectIDs sched
    obtain ⟨hc, he⟩ := gm_run_inv env g objectIDs sched (gmFuel objectIDs.length)
    obtain ⟨h1, h2⟩ := gm_failed_result objectIDs _ hc he urls err hm
      (failures_ne_nil_of_failed _ hf)
    subst h1 h2
    exact ⟨_, by unfold GetMany GMState.result; rw [hm]⟩
  · intro hf
    obtain ⟨err, hm⟩ := dm_returns env g objectIDs sched
    obtain ⟨hc, he⟩ := dm_run_inv env g objectIDs sched (dmFuel objectIDs.length)
    have h1 := dm_failed_result _ hc he err hm (failures_ne_nil_of_failed _ hf)
    subst h1
    exact ⟨_, by unfold DeleteMany DMState.result; rw [hm]⟩

set_option maxRecDepth 1000000 in
/-- Witness of C1: three items, the calls on `"C"` failing. -/
theorem C1_failure_returns_error_without_results_witness :
    anyFailed (CreateManyRun (stubEnv stubLink [("C", "timeout")] 24) 0 threeFiles
      firstSched).world.log = true ∧
    anyFailed (GetManyRun (stubEnv stubLink [("C", "timeout")] 24) 0 ["A", "B", "C"]
      firstSched).world.log = true ∧
    anyFailed (DeleteManyRun (stubEnv stubLink [("C", "timeout")] 24) 0 ["A", "B", "C"]
      firstSched).world.log = true ∧
    (∃ msg, CreateMany (stubEnv stubLink [("C", "timeout")] 24) 0 threeFiles firstSched
      = some (none, some msg)) ∧
    (∃ msg, GetMany (stubEnv stubLink [("C", "timeout")] 24) 0 ["A", "B", "C"] firstSched
      = some (none, some msg)) ∧
    (∃ msg, DeleteMany (stubEnv stubLink [("C", "timeout")] 24) 0 ["A", "B", "C"] firstSched
      = some (some msg)) :=
  have h := C1_failure_returns_error_without_results (stubEnv stubLink [("C", "timeout")] 24)
    0 threeFiles ["A", "B", "C"] firstSched
  ⟨by decide, by decide, by decide, h.1 (by decide), h.2.1 (by decide), h.2.2 (by decide)⟩

/-- C2: in each bulk operation, under every scheduler, the gateway calls of the trace are
the calls the gateway answered, and a run of a batch of `N` items in which none of them
returned an error ends with success and exactly `N` results. `CreateMany` returns `N`
objects whose links are, up to order, the links that the gateway returned to the presign
calls, one call per submitted key; with a gateway that signs every key `k` with `link k`
they are, up to order, the links of the `N` submitted keys. `GetMany` returns `N` links
with the same two properties for the submitted identifiers. `DeleteMany` returns a nil
error. -/
theorem C2_success_returns_one_result_per_item {σ : Type} (env : Env σ) (g : σ)
    (data : List (String × FileDataType)) (objectIDs : List String) (sched : Nat → Nat) :
    (GatewayTrace env data g (CreateManyRun env g data sched).world.log
        (CreateManyRun env g data sched).world.gw ∧
      (anyFailed (CreateManyRun env g data sched).world.log = false →
        ∃ objs, CreateMany env g data sched = some (some objs, none) ∧
          objs.length = data.length ∧
          List.Perm (objs.map (fun o => o.Link))
            ((okPresigns (CreateManyRun env g data sched).world.log).map Prod.snd) ∧
          List.Perm ((okPresigns (CreateManyRun env g data sched).world.log).map Prod.fst)
            (data.map Prod.fst) ∧
          ∀ link : String → String,
            (∀ (g1 : σ) (d : Bool) (b k : String) (e : Int),
              (env.mc.PresignedGetObject g1 d b k e).2 = Presigned.url (link k)) →
            List.Perm (objs.map (fun o => o.Link)) (data.map (fun p => link p.1)))) ∧
    (GatewayTrace env [] g (GetManyRun env g objectIDs sched).world.log
        (GetManyRun env g objectIDs sched).world.gw ∧
      (anyFailed (GetManyRun env g objectIDs sched).world.log = false →
        ∃ urls, GetMany env g objectIDs sched = some (urls, none) ∧
          goLen urls = objectIDs.length ∧
          List.Perm (urls.getD [])
            ((okPresigns (GetManyRun env g objectIDs sched).world.log).map Prod.snd) ∧
          List.Perm ((okPresigns (GetManyRun env g objectIDs sched).world.log).map Prod.fst)
            objectIDs ∧
          ∀ link : String → String,
            (∀ (g1 : σ) (d : Bool) (b k : String) (e : Int),
              (env.mc.PresignedGetObject g1 d b k e).2 = Presigned.url (link k)) →
            List.Perm (urls.getD []) (objectIDs.map link))) ∧
    (GatewayTrace env [] g (DeleteManyRun env g objectIDs sched).world.log
        (DeleteManyRun env g objectIDs sched).world.gw ∧
      (anyFailed (DeleteManyRun env g objectIDs sched).world.log = false →
        DeleteMany env g objectIDs sched = some none)) := by
  have tcm := (cm_gateway_trace env g data sched (cmFuel data.length)).1
  have tgm := gm_gateway_trace env g objectIDs sched (gmFuel objectIDs.length)
  have tdm := dm_gateway_trace env g objectIDs sched (dmFuel objectIDs.length)
  refine ⟨⟨tcm, ?_⟩, ⟨tgm, ?_⟩, ⟨tdm, ?_⟩⟩
  · intro hf
    obtain ⟨objs, err, hm⟩ := cm_returns env g data sched
    obtain ⟨hc, he, ho⟩ := cm_run_inv env g data sched (cmFuel data.length)
    obtain ⟨h1, h2, h3, h4⟩ := cm_ok_outcome env _ _ hc he ho objs err hm hf
    subst h1 h2
    refine ⟨_, by unfold CreateMany CMState.result; rw [hm], ?_, h3, h4, ?_⟩
    · have l1 := h3.length_eq
      have l2 := h4.length_eq
      simp only [List.length_map] at l1 l2
      exact l1.trans l2
    · intro link hsign
      have hl := gatewayTrace_links env data link hsign _ _ _ tcm
      have h5 := h4.map link
      simp only [List.map_map, Function.comp_def] at h5
      exact (h3.trans (List.Perm.of_eq hl)).trans h5
  · intro hf
    obtain ⟨urls, err, hm⟩ := gm_returns env g objectIDs sched
    obtain ⟨hc, he⟩ := gm_run_inv env g objectIDs sched (gmFuel objectIDs.length)
    have hnil := failures_nil_of_not_failed _ hf
    obtain ⟨h1, h2⟩ := gm_ok_result objectIDs _ hc he urls err hm hnil
    obtain ⟨-, -, -, hsent, hlinks, -, hkeys⟩ := gm_outcome objectIDs _ hc he urls err hm
    subst h1 h2
    have hnil' : failures (exec (gmNext env) sched (gmFuel objectIDs.length)
        (gmInit g objectIDs)).world.log = [] := hnil
    rw [hnil', List.map_nil, List.append_nil] at hkeys
    have hu : List.Perm ((exec (gmNext env) sched (gmFuel objectIDs.length)
        (gmInit g objectIDs)).urls.getD [])
        ((okPresigns (exec (gmNext env) sched (gmFuel objectIDs.length)
          (gmInit g objectIDs)).world.log).map Prod.snd) := by
      rw [hsent]; exact hlinks.map _
    refine ⟨_, by unfold GetMany GMState.result; rw [hm], ?_, hu, hkeys.symm, ?_⟩
    · have l1 := hu.length_eq
      have l2 := hkeys.length_eq
      simp only [List.length_map] at l1 l2
      simp only [goLen]
      exact l1.trans l2.symm
    · intro link hsign
      have hl := gatewayTrace_links env [] link hsign _ _ _ tgm
      have h5 := hkeys.symm.map link
      simp only [List.map_map, Function.comp_def] at h5
      exact (hu.trans (List.Perm.of_eq hl)).trans h5
  · intro hf
    obtain ⟨err, hm⟩ := dm_returns env g objectIDs sched
    obtain ⟨hc, he⟩ := dm_run_inv env g objectIDs sched (dmFuel objectIDs.length)
    have h1 := dm_ok_result _ hc he err hm (failures_nil_of_not_failed _ hf)
    subst h1
    unfold DeleteMany DMState.result; rw [hm]

set_option maxRecDepth 1000000 in
/-- Witness of C2: three items, every call succeeding, the last enabled action first.
`CreateMany` returns the links of "B", "C" and "A" in that order, under fresh identifiers;
`GetMany` returns the same three links. -/
theorem C2_success_returns_one_result_per_item_witness :
    anyFailed (CreateManyRun (stubEnv stubLink [] 24) 0 threeFiles
      (constSched 2)).world.log = false ∧
    anyFailed (GetManyRun (stubEnv stubLink [] 24) 0 ["A", "B", "C"]
      (constSched 2)).world.log = false ∧
    anyFailed (DeleteManyRun (stubEnv stubLink [] 24) 0 ["A", "B", "C"]
      (constSched 2)).world.log = false ∧
    CreateMany (stubEnv stubLink [] 24) 0 threeFiles (constSched 2)
      = some (some [{ ObjectID := "uuid-0", Link := "https://minio/b/B" },
          { ObjectID := "uuid-1", Link := "https://minio/b/C" },
          { ObjectID := "uuid-2", Link := "https://minio/b/A" }], none) ∧
    GetMany (stubEnv stubLink [] 24) 0 ["A", "B", "C"] (constSched 2)
      = some (some ["https://minio/b/B", "https://minio/b/C", "https://minio/b/A"], none) ∧
    (∃ objs, CreateMany (stubEnv stubLink [] 24) 0 threeFiles (constSched 2)
        = some (some objs, none) ∧ objs.length = 3 ∧
        List.Perm (objs.map (fun o => o.Link)) (threeFiles.map (fun p => stubLink p.1))) ∧
    (∃ urls, GetMany (stubEnv stubLink [] 24) 0 ["A", "B", "C"] (constSched 2)
        = some (urls, none) ∧ goLen urls = 3 ∧
        List.Perm (urls.getD []) (["A", "B", "C"].map stubLink)) ∧
    DeleteMany (stubEnv stubLink [] 24) 0 ["A", "B", "C"] (constSched 2) = some none :=
  have h := C2_success_returns_one_result_per_item (stubEnv stubLink [] 24)
    0 threeFiles ["A", "B", "C"] (constSched 2)
  ⟨by decide, by decide, by decide, by decide, by decide,
    (h.1.2 (by decide)).imp
      (fun _ hx => ⟨hx.1, hx.2.1, hx.2.2.2.2 stubLink (fun _ _ _ _ _ => rfl)⟩),
    (h.2.1.2 (by decide)).imp
      (fun _ hx => ⟨hx.1, hx.2.1, hx.2.2.2.2 stubLink (fun _ _ _ _ _ => rfl)⟩),
    h.2.2.2 (by decide)⟩

set_option maxRecDepth 1000000 in
/-- C3, counterexample: `GetMany` and `DeleteMany` over two identifiers whose calls both
fail return an error that carries the causes of both items (`timeout` and `denied`), and
both reports were taken by the failure channel. -/
theorem C3_counterexample :
    GetMany (stubEnv stubLink [("a", "timeout"), ("b", "denied")] 24) 0 ["a", "b"] firstSched
      = some (none, some ("ошибки при получении объектов: " ++
          "[ошибка при получении объекта a: ошибка при получении URL для объекта a: timeout " ++
          "ошибка при получении объекта b: ошибка при получении URL для объекта b: denied]")) ∧
    DeleteMany (stubEnv stubLink [("a", "timeout"), ("b", "denied")] 24) 0 ["a", "b"] firstSched
      = some (some ("ошибки при удалении объектов: " ++
          "[ошибка при удалении объекта a: timeout ошибка при удалении объекта b: denied]")) ∧
    (reports (GetManyRun (stubEnv stubLink [("a", "timeout"), ("b", "denied")] 24) 0
      ["a", "b"] firstSched).world.log).map (fun r => r.2.2) = [true, true] ∧
    (reports (DeleteManyRun (stubEnv stubLink [("a", "timeout"), ("b", "denied")] 24) 0
      ["a", "b"] firstSched).world.log).map (fun r => r.2.2) = [true, true] := by
  refine ⟨by decide, by decide, by decide, by decide⟩

/-- C3, amended: in every run in which some gateway call failed, `CreateMany` returns the
cause of exactly one failed item, the first one reported, every later report being
dropped; `GetMany` and `DeleteMany` return the messages of all reports, in the order
of the reports, and these are the causes of all failed items, each wrapped with its key. -/
theorem C3_reported_causes {σ : Type} (env : Env σ) (g : σ)
    (data : List (String × FileDataType)) (objectIDs : List String) (sched : Nat → Nat) :
    (anyFailed (CreateManyRun env g data sched).world.log = true →
      ∃ k e rest, reports (CreateManyRun env g data sched).world.log = (k, e, true) :: rest ∧
        (∀ r ∈ rest, r.2.2 = false) ∧
        (k, e) ∈ failures (CreateManyRun env g data sched).world.log ∧
        CreateMany env g data sched
          = some (none, some ("ошибка при создании объектов: " ++ e))) ∧
    (anyFailed (GetManyRun env g objectIDs sched).world.log = true →
      GetMany env g objectIDs sched = some (none, some ("ошибки при получении объектов: " ++
        fmtErrs ((reports (GetManyRun env g objectIDs sched).world.log).map
          (fun r => r.2.1)))) ∧
      List.Perm ((reports (GetManyRun env g objectIDs sched).world.log).map
          (fun r => (r.1, r.2.1)))
        ((failures (GetManyRun env g objectIDs sched).world.log).map
          (fun p => (p.1, (gmOpErr p.1 (getOneErr p.1 p.2)).Error)))) ∧
    (anyFailed (DeleteManyRun env g objectIDs sched).world.log = true →
      DeleteMany env g objectIDs sched = some (some ("ошибки при удалении объектов: " ++
        fmtErrs ((reports (DeleteManyRun env g objectIDs sched).world.log).map
          (fun r => r.2.1)))) ∧
      List.Perm ((reports (DeleteManyRun env g objectIDs sched).world.log).map
          (fun r => (r.1, r.2.1)))
        ((failures (DeleteManyRun env g objectIDs sched).world.log).map
          (fun p => (p.1, (dmOpErr p.1 p.2).Error)))) := by
  refine ⟨?_, ?_, ?_⟩
  · intro hf
    obtain ⟨objs, err, hm⟩ := cm_returns env g data sched
    obtain ⟨hc, he, _⟩ := cm_run_inv env g data sched (cmFuel data.length)
    obtain ⟨k, e, rest, hr, h1, h2⟩ := cm_failed_outcome _ hc he objs err hm hf
    subst h1 h2
    refine ⟨k, e, rest, hr, ?_, ?_, by unfold CreateMany CMState.result; rw [hm]⟩
    · intro r hmem
      obtain ⟨n, hn, hget⟩ := List.mem_iff_getElem.mp hmem
      have hflag := he.flags (n + 1) r (by
        have hr' : reports (exec (cmNext env) sched (cmFuel data.length)
            (cmInit g data)).world.log = (k, e, true) :: rest := hr
        rw [hr', List.getElem?_cons_succ, List.getElem?_eq_getElem hn, hget])
      simpa using hflag
    · have := he.report_cause (k, e, true) (by
        have hr' : reports (exec (cmNext env) sched (cmFuel data.length)
            (cmInit g data)).world.log = (k, e, true) :: rest := hr
        rw [hr']; simp)
      exact this
  · intro hf
    obtain ⟨urls, err, hm⟩ := gm_returns env g objectIDs sched
    obtain ⟨hc, he⟩ := gm_run_inv env g objectIDs sched (gmFuel objectIDs.length)
    obtain ⟨h1, h2⟩ := gm_failed_result objectIDs _ hc he urls err hm
      (failures_ne_nil_of_failed _ hf)
    obtain ⟨-, -, hcause, -⟩ := gm_outcome objectIDs _ hc he urls err hm
    subst h1 h2
    exact ⟨by unfold GetMany GMState.result; rw [hm]; rfl, hcause⟩
  · intro hf
    obtain ⟨err, hm⟩ := dm_returns env g objectIDs sched
    obtain ⟨hc, he⟩ := dm_run_inv env g objectIDs sched (dmFuel objectIDs.length)
    have h1 := dm_failed_result _ hc he err hm (failures_ne_nil_of_failed _ hf)
    obtain ⟨-, -, hcause⟩ := dm_outcome _ hc he err hm
    subst h1
    exact ⟨by unfold DeleteMany DMState.result; rw [hm]; rfl, hcause⟩

set_option maxRecDepth 1000000 in
/-- Witness of C3: three payloads with the calls on `"A"` and `"B"` failing, and two
identifiers failing. -/
theorem C3_reported_causes_witness :
    anyFailed (CreateManyRun (stubEnv stubLink [("A", "timeout"), ("B", "denied")] 24) 0
      threeFiles (constSched 2)).world.log = true ∧
    anyFailed (GetManyRun (stubEnv stubLink [("a", "timeout"), ("b", "denied")] 24) 0
      ["a", "b"] firstSched).world.log = true ∧
    anyFailed (DeleteManyRun (stubEnv stubLink [("a", "timeout"), ("b", "denied")] 24) 0
      ["a", "b"] firstSched).world.log = true ∧
    (∃ k e rest, reports (CreateManyRun (stubEnv stubLink [("A", "timeout"), ("B", "denied")]
        24) 0 threeFiles (constSched 2)).world.log = (k, e, true) :: rest ∧
      CreateMany (stubEnv stubLink [("A", "timeout"), ("B", "denied")] 24) 0 threeFiles
        (constSched 2) = some (none, some ("ошибка при создании объектов: " ++ e))) ∧
    GetMany (stubEnv stubLink [("a", "timeout"), ("b", "denied")] 24) 0 ["a", "b"] firstSched
      = some (none, some ("ошибки при получении объектов: " ++
        fmtErrs ((reports (GetManyRun (stubEnv stubLink [("a", "timeout"), ("b", "denied")] 24)
          0 ["a", "b"] firstSched).world.log).map (fun r => r.2.1)))) ∧
    DeleteMany (stubEnv stubLink [("a", "timeout"), ("b", "denied")] 24) 0 ["a", "b"]
      firstSched = some (some ("ошибки при удалении объектов: " ++
        fmtErrs ((reports (DeleteManyRun (stubEnv stubLink [("a", "timeout"), ("b", "denied")]
          24) 0 ["a", "b"] firstSched).world.log).map (fun r => r.2.1)))) :=
  have h1 := C3_reported_causes (stubEnv stubLink [("A", "timeout"), ("B", "denied")] 24)
    0 threeFiles [] (constSched 2)
  have h2 := C3_reported_causes (stubEnv stubLink [("a", "timeout"), ("b", "denied")] 24)
    0 [] ["a", "b"] firstSched
  ⟨by decide, by decide, by decide,
    (h1.1 (by decide)).imp (fun _ hk => hk.imp (fun _ he => he.imp
      (fun _ hx => ⟨hx.1, hx.2.2.2⟩))),
    (h2.2.1 (by decide)).1, (h2.2.2 (by decide)).1⟩

/-- The identifiers `CreateMany` puts into its results are the successive values of
`uuid.New().String()`, whatever the keys of the batch. -/
theorem cm_object_ids {σ : Type} (env : Env σ) (g : σ) (data : List (String × FileDataType))
    (sched : Nat → Nat) (objs : List CreatedObject)
    (h : CreateMany env g data sched = some (some objs, none)) :
    objs.map (fun o => o.ObjectID) = (List.range objs.length).map env.uuidNew := by
  obtain ⟨hc, he, ho⟩ := cm_run_inv env g data sched (cmFuel data.length)
  unfold CreateMany CMState.result at h
  split at h
  · rename_i o e hm
    simp only [Option.some.injEq, Prod.mk.injEq] at h
    have hout := he.outcome o e hm
    rw [h.1, h.2] at hout
    have hobj : objs = (exec (cmNext env) sched (cmFuel data.length) (cmInit g data)).objects := by
      unfold cmOutcome at hout
      split at hout
      · simp at hout
      · simp only [Prod.mk.injEq, Option.some.injEq] at hout
        exact hout.1
    rw [hobj]
    exact ho.ids
  · simp at h

set_option maxRecDepth 1000000 in
/-- C4, the code at the failing input: for the batch with the single key `"a.txt"`,
`CreateMany` stores and presigns under `"a.txt"` and returns the object identifier
`"uuid-0"`, a fresh value of `uuid.New()`; `CreateOne` returns the identifier it stored
the payload under. -/
theorem C4_CreateMany_returns_fresh_uuid :
    CreateMany (stubEnv stubLink [] 24) 0 [("a.txt", { FileName := "a.txt", Data := [104, 105] })]
      firstSched
      = some (some [{ ObjectID := "uuid-0", Link := "https://minio/b/a.txt" }], none) ∧
    callKeys (CreateManyRun (stubEnv stubLink [] 24) 0
      [("a.txt", { FileName := "a.txt", Data := [104, 105] })] firstSched).world.log
      = ["a.txt", "a.txt"] ∧
    (CreateOne (stubEnv stubLink [] 24) (World.init 0)
      { FileName := "a.txt", Data := [104, 105] }).2
      = (some { ObjectID := "uuid-0", Link := "https://minio/b/uuid-0" }, none) ∧
    callKeys (CreateOne (stubEnv stubLink [] 24) (World.init 0)
      { FileName := "a.txt", Data := [104, 105] }).1.log = ["uuid-0", "uuid-0"] := by
  refine ⟨by decide, by decide, by decide, by decide⟩

set_option maxRecDepth 1000000 in
/-- C5, counterexample: on the identifiers `"a"` and `"b"`, with the same store, two
schedulers make `GetMany` return the same two links in opposite orders. The result is the
list of links alone: under the second scheduler its first entry, next to the first
identifier `"a"`, is the link signed for `"b"`. -/
theorem C5_counterexample :
    GetMany (stubEnv stubLink [] 24) 0 ["a", "b"] (constSched 0)
      = some (some ["https://minio/b/a", "https://minio/b/b"], none) ∧
    GetMany (stubEnv stubLink [] 24) 0 ["a", "b"] (constSched 2)
      = some (some ["https://minio/b/b", "https://minio/b/a"], none) ∧
    okPresigns (GetManyRun (stubEnv stubLink [] 24) 0 ["a", "b"] (constSched 2)).world.log
      = [("b", "https://minio/b/b"), ("a", "https://minio/b/a")] ∧
    (["a", "b"].zip
      (((GetMany (stubEnv stubLink [] 24) 0 ["a", "b"] (constSched 2)).bind
        (fun r => r.1)).getD []))
      = [("a", "https://minio/b/b"), ("b", "https://minio/b/a")] := by
  refine ⟨by decide, by decide, by decide, by decide⟩

/-- C5, amended: a successful `GetMany` over `N` identifiers returns the bare list of
`N` links, in the order in which the units sent them on the results channel; the sends
are, up to order, the successful presign calls, one per submitted identifier, and these
calls are the calls the gateway answered; with a gateway that signs every identifier `k`
with `link k` the list is, up to order, the links of the submitted identifiers. -/
theorem C5_GetMany_returns_links_in_send_order {σ : Type} (env : Env σ) (g : σ)
    (objectIDs : List String) (sched : Nat → Nat) (urls : Option (List String))
    (h : GetMany env g objectIDs sched = some (urls, none)) :
    urls.getD [] = (urlSends (GetManyRun env g objectIDs sched).world.log).map Prod.snd ∧
    List.Perm (urlSends (GetManyRun env g objectIDs sched).world.log)
      (okPresigns (GetManyRun env g objectIDs sched).world.log) ∧
    List.Perm ((okPresigns (GetManyRun env g objectIDs sched).world.log).map Prod.fst)
      objectIDs ∧
    goLen urls = objectIDs.length ∧
    GatewayTrace env [] g (GetManyRun env g objectIDs sched).world.log
      (GetManyRun env g objectIDs sched).world.gw ∧
    ∀ link : String → String,
      (∀ (g1 : σ) (d : Bool) (b k : String) (e : Int),
        (env.mc.PresignedGetObject g1 d b k e).2 = Presigned.url (link k)) →
      List.Perm (urls.getD []) (objectIDs.map link) := by
  obtain ⟨hc, he⟩ := gm_run_inv env g objectIDs sched (gmFuel objectIDs.length)
  have tgm := gm_gateway_trace env g objectIDs sched (gmFuel objectIDs.length)
  unfold GetMany GMState.result at h
  split at h
  · rename_i u e hm
    simp only [Option.some.injEq, Prod.mk.injEq] at h
    obtain ⟨hu, hnone⟩ := h
    subst hu hnone
    obtain ⟨hout, herrs, hcause, hsent, hlinks, -, hkeys⟩ :=
      gm_outcome objectIDs _ hc he u none hm
    have hfail : failures (GetManyRun env g objectIDs sched).world.log = [] := by
      by_contra hne
      have := (gm_failed_result objectIDs _ hc he u none hm hne).2
      simp at this
    have hres := (gm_ok_result objectIDs _ hc he u none hm hfail).1
    have hfail' : failures (exec (gmNext env) sched (gmFuel objectIDs.length)
        (gmInit g objectIDs)).world.log = [] := hfail
    rw [hfail', List.map_nil, List.append_nil] at hkeys
    rw [hres]
    have hperm : List.Perm ((exec (gmNext env) sched (gmFuel objectIDs.length)
        (gmInit g objectIDs)).urls.getD [])
        ((okPresigns (exec (gmNext env) sched (gmFuel objectIDs.length)
          (gmInit g objectIDs)).world.log).map Prod.snd) := by
      rw [hsent]; exact hlinks.map _
    refine ⟨hsent, hlinks, hkeys.symm, ?_, tgm, ?_⟩
    · have l1 := hperm.length_eq
      have l2 := hkeys.length_eq
      simp only [List.length_map] at l1 l2
      simp only [goLen]
      exact l1.trans l2.symm
    · intro link hsign
      have hl := gatewayTrace_links env [] link hsign _ _ _ tgm
      have h5 := hkeys.symm.map link
      simp only [List.map_map, Function.comp_def] at h5
      exact (hperm.trans (List.Perm.of_eq hl)).trans h5
  · simp at h

set_option maxRecDepth 1000000 in
/-- Witness of C5: two identifiers, every call succeeding; the list returned is the links
in the order of the sends, a permutation of the links of the identifiers. -/
theorem C5_GetMany_returns_links_in_send_order_witness :
    GetMany (stubEnv stubLink [] 24) 0 ["a", "b"] (constSched 2)
      = some (some ["https://minio/b/b", "https://minio/b/a"], none) ∧
    (some ["https://minio/b/b", "https://minio/b/a"] : Option (List String)).getD []
      = (urlSends (GetManyRun (stubEnv stubLink [] 24) 0 ["a", "b"]
          (constSched 2)).world.log).map Prod.snd ∧
    List.Perm ((some ["https://minio/b/b", "https://minio/b/a"] :
      Option (List String)).getD []) (["a", "b"].map stubLink) :=
  ⟨by decide,
    (C5_GetMany_returns_links_in_send_order (stubEnv stubLink [] 24) 0 ["a", "b"]
      (constSched 2) (some ["https://minio/b/b", "https://minio/b/a"]) (by decide)).1,
    (C5_GetMany_returns_links_in_send_order (stubEnv stubLink [] 24) 0 ["a", "b"]
      (constSched 2) (some ["https://minio/b/b", "https://minio/b/a"])
      (by decide)).2.2.2.2.2 stubLink (fun _ _ _ _ _ => rfl)⟩

set_option maxRecDepth 1000000 in
/-- C6, the code at the failing input: for the batch with the single key `"a.txt"` whose
put fails with `connection refused`, the error of `CreateMany` is the fixed text followed
by the cause and does not contain the key `"a.txt"`; the error of `GetMany` for the same
key does contain it. -/
theorem C6_CreateMany_error_omits_key :
    CreateMany (stubEnv stubLink [("a.txt", "connection refused")] 24) 0
      [("a.txt", { FileName := "a.txt", Data := [104, 105] })] firstSched
      = some (none, some "ошибка при создании объектов: connection refused") ∧
    ¬ ("a.txt".data <:+: "ошибка при создании объектов: connection refused".data) ∧
    GetMany (stubEnv stubLink [("a.txt", "connection refused")] 24) 0 ["a.txt"] firstSched
      = some (none, some ("ошибки при получении объектов: [ошибка при получении объекта " ++
          "a.txt: ошибка при получении URL для объекта a.txt: connection refused]")) := by
  refine ⟨by decide, by decide, by decide⟩

/-- C7: on an empty batch, under every scheduler, `CreateMany` returns an empty, non-nil
slice with a nil error, `GetMany` returns its never-appended slice (the nil slice, of
length zero) with a nil error, `DeleteMany` returns a nil error, and none of the three
makes a gateway call. -/
theorem C7_empty_batch {σ : Type} (env : Env σ) (g : σ) (sched : Nat → Nat) :
    CreateMany env g [] sched = some (some [], none) ∧
    gatewayCalls (CreateManyRun env g [] sched).world.log = [] ∧
    GetMany env g [] sched = some (none, none) ∧
    gatewayCalls (GetManyRun env g [] sched).world.log = [] ∧
    DeleteMany env g [] sched = some none ∧
    gatewayCalls (DeleteManyRun env g [] sched).world.log = [] := by
  have hcm : gatewayCalls (CreateManyRun env g [] sched).world.log = [] := by
    unfold CreateManyRun
    exact (cm_empty_calls env g sched _).2
  obtain ⟨objs, err, hm⟩ := cm_returns env g [] sched
  obtain ⟨hc, he, ho⟩ := cm_inv env g [] sched
  obtain ⟨h1, h2⟩ := cm_quiet_result env _ _ hc he ho objs err hm hcm
  obtain ⟨urls, gerr, hgm⟩ := gm_returns env g [] sched
  obtain ⟨hgc, hge⟩ := gm_inv env g [] sched
  obtain ⟨g1, g2, g3⟩ := gm_empty_result _ hgc hge urls gerr hgm
  obtain ⟨derr, hdm⟩ := dm_returns env g [] sched
  obtain ⟨hdc, hde, hlen⟩ := dm_inv env g [] sched
  obtain ⟨d1, d2⟩ := dm_empty_result _ hdc hde (List.length_eq_zero.mp hlen) derr hdm
  subst h1 h2 g1 g2 d1
  refine ⟨?_, hcm, ?_, g3, ?_, d2⟩
  · unfold CreateMany CMState.result; rw [hm]
  · unfold GetMany GMState.result; rw [hgm]
  · unfold DeleteMany DMState.result; rw [hdm]

set_option maxRecDepth 1000000 in
/-- C8, counterexample: with `FileTimeExpiration` at the default of `LoadConfig`
(`int(time.Second*60*24)`), `CreateOne` asks for a window of 3746685773257113600 ns, which
is not that many hours; and with `FileTimeExpiration = 24 + 2^51` the windows of
`CreateOne` and `GetOne` are equal although the expiration is not 24. -/
theorem C8_counterexample :
    presignExpiries (CreateOne (stubEnv stubLink [] defaultFileTimeExpiration) (World.init 0)
      { FileName := "hello.txt", Data := [104, 101, 108, 108, 111] }).1.log
      = [3746685773257113600] ∧
    (3746685773257113600 : Int) ≠ defaultFileTimeExpiration * timeHour ∧
    presignExpiries (CreateOne (stubEnv stubLink [] 2251799813685272) (World.init 0)
      { FileName := "hello.txt", Data := [104, 101, 108, 108, 111] }).1.log
      = presignExpiries (GetOne (stubEnv stubLink [] 2251799813685272) (World.init 0)
          "uuid-0").1.log ∧
    (2251799813685272 : Int) ≠ 24 := by
  refine ⟨by decide, by decide, by decide, by decide⟩

theorem presignExpiries_append (l : List Event) (e : Event) :
    presignExpiries (l ++ [e]) = presignExpiries l ++ presignExpiries [e] := by
  simp [presignExpiries, List.filterMap_append]

/-- C8, amended: in every configuration `GetOne` calls the gateway for a window of exactly
86 400 seconds, whatever `FileTimeExpiration` is; `CreateOne`, when its put succeeds, calls
the gateway for `time.Hour` times `FileTimeExpiration` in wrapping 64-bit nanoseconds,
which is `FileTimeExpiration` hours when `FileTimeExpiration` is between -2562047 and
2562047, and in that range the two windows differ whenever `FileTimeExpiration` is not
24. -/
theorem C8_expiry_windows {σ : Type} (env env1 : Env σ) (w : World σ) (file : FileDataType)
    (objectID : String) :
    presignExpiries (GetOne env w objectID).1.log
      = presignExpiries w.log ++ [86400 * timeSecond] ∧
    (GetOne env w objectID).1.gw
      = (env.mc.PresignedGetObject w.gw false env.cfg.BucketName objectID
          (86400 * timeSecond)).1 ∧
    presignExpiries (GetOne env1 w objectID).1.log
      = presignExpiries (GetOne env w objectID).1.log ∧
    ((callPut env (drawUuid env w).1 Ctx.background false (drawUuid env w).2 file.Data).2 = none →
      presignExpiries (CreateOne env w file).1.log
        = presignExpiries w.log ++ [wrap64 (timeHour * wrap64 env.cfg.FileTimeExpiration)] ∧
      (CreateOne env w file).1.gw
        = (env.mc.PresignedGetObject
            (callPut env (drawUuid env w).1 Ctx.background false (drawUuid env w).2
              file.Data).1.gw
            false env.cfg.BucketName (drawUuid env w).2
            (wrap64 (timeHour * wrap64 env.cfg.FileTimeExpiration))).1) ∧
    (-2562047 ≤ env.cfg.FileTimeExpiration → env.cfg.FileTimeExpiration ≤ 2562047 →
      wrap64 (timeHour * wrap64 env.cfg.FileTimeExpiration)
        = env.cfg.FileTimeExpiration * timeHour ∧
      (env.cfg.FileTimeExpiration ≠ 24 →
        env.cfg.FileTimeExpiration * timeHour ≠ 86400 * timeSecond)) := by
  have hget : ∀ e : Env σ, presignExpiries (GetOne e w objectID).1.log
      = presignExpiries w.log ++ [86400 * timeSecond] := by
    intro e
    rw [GetOne_world]
    simp only [callPresign, presignExpiries_append]
    rfl
  refine ⟨hget env, ?_, ?_, ?_, ?_⟩
  · rw [GetOne_world]
    rfl
  · rw [hget env1, hget env]
  · intro hput
    have hw : (CreateOne env w file).1 = (callPresign env (callPut env (drawUuid env w).1
        Ctx.background false (drawUuid env w).2 file.Data).1 Ctx.background false
        (drawUuid env w).2 (createExpiry env.cfg)).1 := by
      rw [CreateOne_eq, hput]
      simp only
      split <;> rfl
    rw [hw]
    refine ⟨?_, rfl⟩
    simp only [callPresign, callPut, drawUuid, presignExpiries_append]
    simp [presignExpiries, createExpiry]
  · intro h1 h2
    refine ⟨?_, ?_⟩
    · unfold timeHour wrap64
      omega
    · intro hne
      unfold timeHour timeSecond
      omega

set_option maxRecDepth 1000000 in
/-- Witness of C8: an expiration of 48 hours, and the default expiration of `LoadConfig`,
at which the window of `GetOne` is still 86 400 seconds. -/
theorem C8_expiry_windows_witness :
    presignExpiries (GetOne (stubEnv stubLink [] 48) (World.init 0) "uuid-0").1.log
      = [86400 * timeSecond] ∧
    presignExpiries (GetOne (stubEnv stubLink [] defaultFileTimeExpiration) (World.init 0)
      "uuid-0").1.log = [86400 * timeSecond] ∧
    presignExpiries (CreateOne (stubEnv stubLink [] 48) (World.init 0)
      { FileName := "hello.txt", Data := [104, 101, 108, 108, 111] }).1.log
      = [48 * timeHour] ∧
    (48 : Int) * timeHour ≠ 86400 * timeSecond :=
  have h := C8_expiry_windows (stubEnv stubLink [] 48)
    (stubEnv stubLink [] defaultFileTimeExpiration) (World.init 0)
    { FileName := "hello.txt", Data := [104, 101, 108, 108, 111] } "uuid-0"
  ⟨h.1, h.2.2.1.trans h.1,
    ((h.2.2.2.1 (by decide)).1).trans
      (congrArg (fun x => [x]) (h.2.2.2.2 (by decide) (by decide)).1),
    (h.2.2.2.2 (by decide) (by decide)).2 (by decide)⟩

/-- C9: `CreateOne` returns an error exactly when its put or its presign fails, and then
no object; otherwise it returns the identifier it drew together with the link presigned
for that identifier. When the put fails the only gateway call is the put; when the put
succeeds the gateway calls are the put and the presign, and no remove is ever issued. -/
theorem C9_CreateOne {σ : Type} (env : Env σ) (w : World σ) (file : FileDataType) :
    ((CreateOne env w file).2.2.isSome = true ↔
      ((callPut env (drawUuid env w).1 Ctx.background false (drawUuid env w).2
          file.Data).2.isSome = true ∨
        ∃ err, (callPresign env (callPut env (drawUuid env w).1 Ctx.background false
          (drawUuid env w).2 file.Data).1 Ctx.background false (drawUuid env w).2
          (createExpiry env.cfg)).2 = Presigned.fail err)) ∧
    ((CreateOne env w file).2.2.isSome = true → (CreateOne env w file).2.1 = none) ∧
    ((CreateOne env w file).2.2 = none →
      ∃ u, (CreateOne env w file).2.1 = some { ObjectID := env.uuidNew w.uuids, Link := u } ∧
        (callPresign env (callPut env (drawUuid env w).1 Ctx.background false
          (drawUuid env w).2 file.Data).1 Ctx.background false (env.uuidNew w.uuids)
          (createExpiry env.cfg)).2 = Presigned.url u) ∧
    ((callPut env (drawUuid env w).1 Ctx.background false (drawUuid env w).2
        file.Data).2.isSome = true →
      (CreateOne env w file).1.log = w.log ++
        [Event.putObject Ctx.background false (env.uuidNew w.uuids)
          (callPut env (drawUuid env w).1 Ctx.background false (drawUuid env w).2
            file.Data).2]) ∧
    ((callPut env (drawUuid env w).1 Ctx.background false (drawUuid env w).2
        file.Data).2 = none →
      (CreateOne env w file).1.log = w.log ++
        [Event.putObject Ctx.background false (env.uuidNew w.uuids) none,
          Event.presignedGetObject Ctx.background false (env.uuidNew w.uuids)
            (createExpiry env.cfg)
            (callPresign env (callPut env (drawUuid env w).1 Ctx.background false
              (drawUuid env w).2 file.Data).1 Ctx.background false (drawUuid env w).2
              (createExpiry env.cfg)).2]) := by
  rw [CreateOne_eq]
  cases hp : (callPut env (drawUuid env w).1 Ctx.background false (drawUuid env w).2
      file.Data).2 with
  | some err =>
    simp only
    refine ⟨by simp, by simp, by simp, ?_, by simp⟩
    intro _
    simp only [callPut, drawUuid] at hp ⊢
    rw [hp]
  | none =>
    simp only
    cases hq : (callPresign env (callPut env (drawUuid env w).1 Ctx.background false
        (drawUuid env w).2 file.Data).1 Ctx.background false (drawUuid env w).2
        (createExpiry env.cfg)).2 with
    | fail err =>
      simp only
      refine ⟨by simp, by simp, by simp, by simp, ?_⟩
      intro _
      simp only [callPresign, callPut, drawUuid] at hp hq ⊢
      rw [hp, hq]
      simp
    | url u =>
      simp only
      refine ⟨by simp, by simp, ?_, by simp, ?_⟩
      · intro _
        exact ⟨u, rfl, hq⟩
      · intro _
        simp only [callPresign, callPut, drawUuid] at hp hq ⊢
        rw [hp, hq]
        simp

/-- C10: each bulk operation returns under every scheduler, and in every state of every
run in which the operation has returned, every one of its `N` units has finished. -/
theorem C10_returns_after_all_units {σ : Type} (env : Env σ) (g : σ)
    (data : List (String × FileDataType)) (objectIDs : List String) (sched : Nat → Nat) :
    ((CreateMany env g data sched).isSome = true ∧
      ∀ fuel, (exec (cmNext env) sched fuel (cmInit g data)).result.isSome = true →
        ((exec (cmNext env) sched fuel (cmInit g data)).workers.filter
          (fun w => decide (w.pc = CMPc.finished))).length = data.length) ∧
    ((GetMany env g objectIDs sched).isSome = true ∧
      ∀ fuel, (exec (gmNext env) sched fuel (gmInit g objectIDs)).result.isSome = true →
        ((exec (gmNext env) sched fuel (gmInit g objectIDs)).workers.filter
          (fun w => decide (w.pc = GMPc.finished))).length = objectIDs.length) ∧
    ((DeleteMany env g objectIDs sched).isSome = true ∧
      ∀ fuel, (exec (dmNext env) sched fuel (dmInit g objectIDs)).result.isSome = true →
        ((exec (dmNext env) sched fuel (dmInit g objectIDs)).workers.filter
          (fun w => decide (w.pc = DMPc.finished))).length = objectIDs.length) := by
  refine ⟨⟨?_, ?_⟩, ⟨?_, ?_⟩, ⟨?_, ?_⟩⟩
  · obtain ⟨objs, err, hm⟩ := cm_returns env g data sched
    unfold CreateMany CMState.result; rw [hm]; rfl
  · intro fuel hres
    obtain ⟨hc, -, ho⟩ := cm_run_inv env g data sched fuel
    unfold CMState.result at hres
    split at hres
    · rename_i objs err hm
      have hdone := cm_returned_done _ hc objs err hm
      rw [count_finished _ _ (fun w hw => by simp [hdone w hw])]
      have := congrArg List.length ho.keys_eq
      simpa using this
    · simp at hres
  · obtain ⟨urls, err, hm⟩ := gm_returns env g objectIDs sched
    unfold GetMany GMState.result; rw [hm]; rfl
  · intro fuel hres
    obtain ⟨hc, he⟩ := gm_run_inv env g objectIDs sched fuel
    unfold GMState.result at hres
    split at hres
    · rename_i urls err hm
      have hdone := gm_returned_done _ hc urls err hm
      rw [count_finished _ _ (fun w hw => by simp [hdone w hw])]
      have := congrArg List.length he.keys_eq
      simpa using this
    · simp at hres
  · obtain ⟨err, hm⟩ := dm_returns env g objectIDs sched
    unfold DeleteMany DMState.result; rw [hm]; rfl
  · intro fuel hres
    obtain ⟨hc, he⟩ := dm_run_inv env g objectIDs sched fuel
    unfold DMState.result at hres
    split at hres
    · rename_i err hm
      have hdone := dm_returned_done _ hc err hm
      rw [count_finished _ _ (fun w hw => by simp [hdone w hw])]
      exact dm_workers_length env g objectIDs sched fuel
    · simp at hres

set_option maxRecDepth 1000000 in
/-- Witness of C10: three items with the calls on `"C"` failing; after 29 actions
`CreateMany` has returned with its three units finished, and likewise `GetMany` and
`DeleteMany`. -/
theorem C10_returns_after_all_units_witness :
    (exec (cmNext (stubEnv stubLink [("C", "timeout")] 24)) firstSched 29
      (cmInit 0 threeFiles)).result.isSome = true ∧
    ((exec (cmNext (stubEnv stubLink [("C", "timeout")] 24)) firstSched 29
      (cmInit 0 threeFiles)).workers.filter
        (fun w => decide (w.pc = CMPc.finished))).length = 3 ∧
    (exec (gmNext (stubEnv stubLink [("C", "timeout")] 24)) firstSched 29
      (gmInit 0 ["A", "B", "C"])).result.isSome = true ∧
    ((exec (gmNext (stubEnv stubLink [("C", "timeout")] 24)) firstSched 29
      (gmInit 0 ["A", "B", "C"])).workers.filter
        (fun w => decide (w.pc = GMPc.finished))).length = 3 ∧
    (exec (dmNext (stubEnv stubLink [("C", "timeout")] 24)) firstSched 29
      (dmInit 0 ["A", "B", "C"])).result.isSome = true ∧
    ((exec (dmNext (stubEnv stubLink [("C", "timeout")] 24)) firstSched 29
      (dmInit 0 ["A", "B", "C"])).workers.filter
        (fun w => decide (w.pc = DMPc.finished))).length = 3 :=
  have h := C10_returns_after_all_units (stubEnv stubLink [("C", "timeout")] 24) 0
    threeFiles ["A", "B", "C"] firstSched
  ⟨by decide, h.1.2 29 (by decide), by decide, h.2.1.2 29 (by decide), by decide,
    h.2.2.2 29 (by decide)⟩

theorem underBatchCtx_append (l m : List Event) (c : Bool) :
    underBatchCtx (l ++ m) c
      = (underBatchCtx l c && underBatchCtx m (c || l.any Event.isCancel)) := by
  induction l generalizing c with
  | nil => simp [underBatchCtx]
  | cons x xs ih =>
    rw [List.cons_append]
    simp only [underBatchCtx, ih, List.any_cons, Bool.and_assoc, Bool.or_assoc]

/-- In `CreateMany` every gateway call is given the context of the batch, which is done
exactly for the calls made after a cancellation. -/
theorem cm_under_batch_ctx {σ : Type} (env : Env σ) (g : σ)
    (data : List (String × FileDataType)) (sched : Nat → Nat) (fuel : Nat) :
    underBatchCtx (exec (cmNext env) sched fuel (cmInit g data)).world.log false = true ∧
    (exec (cmNext env) sched fuel (cmInit g data)).cancelled
      = (exec (cmNext env) sched fuel (cmInit g data)).world.log.any Event.isCancel := by
  apply exec_invariant (cmNext env)
    (fun s => underBatchCtx s.world.log false = true ∧
      s.cancelled = s.world.log.any Event.isCancel)
  · intro s s' ⟨h1, h2⟩ hmem
    cases cmNext_step env s s' hmem <;>
      simp [cmFinish, cmLog, callPut, callPresign, drawUuid, underBatchCtx_append,
        underBatchCtx, Event.underBatchCtx, Event.callCtx, Event.isCancel, h1, h2,
        List.any_append]
  · exact ⟨rfl, rfl⟩

/-- In `DeleteMany` every gateway call is given the context of the batch, which is done
exactly for the calls made after a cancellation. -/
theorem dm_under_batch_ctx {σ : Type} (env : Env σ) (g : σ) (objectIDs : List String)
    (sched : Nat → Nat) (fuel : Nat) :
    underBatchCtx (exec (dmNext env) sched fuel (dmInit g objectIDs)).world.log false = true ∧
    (exec (dmNext env) sched fuel (dmInit g objectIDs)).cancelled
      = (exec (dmNext env) sched fuel (dmInit g objectIDs)).world.log.any Event.isCancel := by
  apply exec_invariant (dmNext env)
    (fun s => underBatchCtx s.world.log false = true ∧
      s.cancelled = s.world.log.any Event.isCancel)
  · intro s s' ⟨h1, h2⟩ hmem
    cases dmNext_step env s s' hmem <;>
      simp [dmFinish, dmLog, callRemove, underBatchCtx_append,
        underBatchCtx, Event.underBatchCtx, Event.callCtx, Event.isCancel, h1, h2,
        List.any_append]
  · exact ⟨rfl, rfl⟩

set_option maxRecDepth 1000000 in
/-- C11, the code at the failing input: `GetMany` over `"a"` and `"b"`, the presign of
`"a"` failing. Unit `"a"` reports and cancels; the presign of unit `"b"`, made after that
cancellation, is given `context.Background()`, not done. In `DeleteMany` on the same
input the remove of `"b"` made after the cancellation is given the done context of the
batch. -/
theorem C11_GetMany_calls_ignore_batch_ctx :
    (GetManyRun (stubEnv stubLink [("a", "timeout")] 24) 0 ["a", "b"] firstSched).world.log
      = [Event.presignedGetObject Ctx.background false "a" 86400000000000
            (Presigned.fail "timeout"),
          Event.errReported "a" ("ошибка при получении объекта a: " ++
            "ошибка при получении URL для объекта a: timeout") true,
          Event.cancel,
          Event.unitDone "a",
          Event.presignedGetObject Ctx.background false "b" 86400000000000
            (Presigned.url "https://minio/b/b"),
          Event.urlReported "b" "https://minio/b/b" true,
          Event.unitDone "b",
          Event.cancel] ∧
    underBatchCtx (GetManyRun (stubEnv stubLink [("a", "timeout")] 24) 0 ["a", "b"]
      firstSched).world.log false = false ∧
    (DeleteManyRun (stubEnv stubLink [("a", "timeout")] 24) 0 ["a", "b"] firstSched).world.log
      = [Event.removeObject Ctx.batch false "a" (some "timeout"),
          Event.errReported "a" "ошибка при удалении объекта a: timeout" true,
          Event.cancel,
          Event.unitDone "a",
          Event.removeObject Ctx.batch true "b" none,
          Event.unitDone "b",
          Event.cancel] ∧
    underBatchCtx (DeleteManyRun (stubEnv stubLink [("a", "timeout")] 24) 0 ["a", "b"]
      firstSched).world.log false = true := by
  refine ⟨by decide, by decide, by decide, by decide⟩

/-- In `CreateMany` the links sent so far are those collected and those in the channel. -/
theorem cm_url_sends {σ : Type} (env : Env σ) (g : σ) (data : List (String × FileDataType))
    (sched : Nat → Nat) (fuel : Nat) :
    (urlSends (exec (cmNext env) sched fuel (cmInit g data)).world.log).length
      = (exec (cmNext env) sched fuel (cmInit g data)).objects.length
        + (exec (cmNext env) sched fuel (cmInit g data)).urlCh.length := by
  apply exec_invariant (cmNext env)
    (fun s => (urlSends s.world.log).length = s.objects.length + s.urlCh.length)
  · intro s s' h hmem
    cases cmNext_step env s s' hmem with
    | collect u rest hm hu =>
      simp only [drawUuid, List.length_append, List.length_singleton]
      rw [hu] at h
      simp only [List.length_cons] at h
      omega
    | urlSend i w u hw hpc hroom =>
      simp only [cmFinish, cmLog, urlSends_append, List.length_append, List.length_singleton]
      have h1 : urlSends [Event.urlReported w.objectID u true] = [(w.objectID, u)] := rfl
      have h2 : urlSends [Event.unitDone w.objectID] = [] := rfl
      rw [h1, h2]
      simp only [List.length_singleton, List.length_nil]
      omega
    | _ =>
      simp [cmFinish, cmLog, callPut, callPresign, urlSends, List.filterMap_append] at h ⊢
      exact h
  · rfl

theorem captured_le_one (l : List (String × String × Bool))
    (h : ∀ (n : Nat) (r : String × String × Bool), l[n]? = some r → r.2.2 = decide (n = 0)) :
    (l.filter (fun r => r.2.2)).length ≤ 1 := by
  cases l with
  | nil => simp
  | cons r t =>
    have ht : t.filter (fun r => r.2.2) = [] := by
      apply List.filter_eq_nil_iff.mpr
      intro x hx
      obtain ⟨n, hn, hget⟩ := List.mem_iff_getElem.mp hx
      have := h (n + 1) x (by rw [List.getElem?_cons_succ, List.getElem?_eq_getElem hn, hget])
      simpa using this
    rw [List.filter_cons]
    split <;> simp [ht]

/-- A launched, unfinished unit of `CreateMany` has an action to take. -/
theorem cm_unit_enabled {σ : Type} (env : Env σ) (s : CMState σ) (hc : CMCtl s) (i : Nat)
    (w : CMWorker) (hw : s.workers[i]? = some w) (hact : w.pc.active = 1) :
    cmWorkerStep env s i ≠ [] := by
  cases hpc : w.pc with
  | notStarted => rw [hpc] at hact; simp [CMPc.active] at hact
  | finished => rw [hpc] at hact; simp [CMPc.active] at hact
  | atPut =>
    simp only [cmWorkerStep, hw, hpc]
    split <;> simp
  | atPresign =>
    simp only [cmWorkerStep, hw, hpc]
    split <;> simp
  | atErrSelect err =>
    simp only [cmWorkerStep, hw, hpc]
    split <;> simp
  | atCancel => simp [cmWorkerStep, hw, hpc]
  | atUrlSelect u =>
    have hcap := hc.capacity
    have hx := cm_sum_set CMPc.live s.workers i w CMPc.finished hw
    rw [hpc] at hx
    have h2 : (CMPc.atUrlSelect u).live = 1 := rfl
    have h3 : CMPc.finished.live = 0 := rfl
    have hroom : s.urlCh.length < s.urlCap := by
      simp only [CMState.urlCap]; omega
    simp [cmWorkerStep, hw, hpc, hroom]

/-- A launched, unfinished unit of `GetMany` has an action to take. -/
theorem gm_unit_enabled {σ : Type} (env : Env σ) (s : GMState σ) (hc : GMCtl s) (i : Nat)
    (w : GMWorker) (hw : s.workers[i]? = some w) (hact : w.pc.active = 1) :
    gmWorkerStep env s i ≠ [] := by
  have hcap := hc.capacity
  have hx := gm_sum_set GMPc.credit s.workers i w GMPc.finished hw
  have h3 : GMPc.finished.credit = 0 := rfl
  cases hpc : w.pc with
  | notStarted => rw [hpc] at hact; simp [GMPc.active] at hact
  | finished => rw [hpc] at hact; simp [GMPc.active] at hact
  | atGetOne =>
    simp only [gmWorkerStep, hw, hpc]
    split <;> simp
  | atCancel => simp [gmWorkerStep, hw, hpc]
  | atErrSend e =>
    rw [hpc] at hx
    have h2 : (GMPc.atErrSend e).credit = 1 := rfl
    have hroom : s.errCh.length < s.cap := by
      simp only [GMState.cap]; omega
    simp [gmWorkerStep, hw, hpc, hroom]
  | atUrlSend u =>
    rw [hpc] at hx
    have h2 : (GMPc.atUrlSend u).credit = 1 := rfl
    have hroom : s.urlCh.length < s.cap := by
      simp only [GMState.cap]; omega
    simp [gmWorkerStep, hw, hpc, hroom]

/-- A launched, unfinished unit of `DeleteMany` has an action to take. -/
theorem dm_unit_enabled {σ : Type} (env : Env σ) (s : DMState σ) (hc : DMCtl s) (i : Nat)
    (w : DMWorker) (hw : s.workers[i]? = some w) (hact : w.pc.active = 1) :
    dmWorkerStep env s i ≠ [] := by
  have hcap := hc.capacity
  have hx := dm_sum_set DMPc.credit s.workers i w DMPc.finished hw
  have h3 : DMPc.finished.credit = 0 := rfl
  cases hpc : w.pc with
  | notStarted => rw [hpc] at hact; simp [DMPc.active] at hact
  | finished => rw [hpc] at hact; simp [DMPc.active] at hact
  | atRemove =>
    simp only [dmWorkerStep, hw, hpc]
    split <;> simp
  | atCancel => simp [dmWorkerStep, hw, hpc]
  | atErrSend e =>
    rw [hpc] at hx
    have h2 : (DMPc.atErrSend e).credit = 1 := rfl
    have hroom : s.errCh.length < s.cap := by
      simp only [DMState.cap]; omega
    simp [dmWorkerStep, hw, hpc, hroom]

/-- C12: no unit of a bulk operation ever blocks when it reports its outcome. Under every
scheduler and after any number of steps: the values sent on the results channel of
`CreateMany` and `GetMany` number at most the batch size, the values sent on the failure
channel number at most its capacity (one in `CreateMany`, the batch size in `GetMany` and
`DeleteMany`), a unit of `CreateMany` whose failure finds the single slot occupied finishes
at once with the failure dropped, and every launched, unfinished unit has an action it can
take; and each of the three operations returns. -/
theorem C12_units_never_block {σ : Type} (env : Env σ) (g : σ)
    (data : List (String × FileDataType)) (objectIDs : List String) (sched : Nat → Nat) :
    (∀ fuel : Nat,
      (urlSends (exec (cmNext env) sched fuel (cmInit g data)).world.log).length ≤ data.length ∧
      ((reports (exec (cmNext env) sched fuel (cmInit g data)).world.log).filter (fun r => r.2.2)).length ≤ cmErrCap ∧
      (∀ (i : Nat) (w : CMWorker), (exec (cmNext env) sched fuel (cmInit g data)).workers[i]? = some w → w.pc.active = 1 →
        cmWorkerStep env (exec (cmNext env) sched fuel (cmInit g data)) i ≠ []) ∧
      (∀ (i : Nat) (w : CMWorker) (err : String), (exec (cmNext env) sched fuel (cmInit g data)).workers[i]? = some w →
        w.pc = CMPc.atErrSelect err → cmErrCap ≤ (exec (cmNext env) sched fuel (cmInit g data)).errCh.length →
        cmWorkerStep env (exec (cmNext env) sched fuel (cmInit g data)) i
          = [cmFinish (cmLog (exec (cmNext env) sched fuel (cmInit g data)) (Event.errReported w.objectID err false)) i w])) ∧
    (∃ objs err, (CreateManyRun env g data sched).main = CMMain.returned objs err) ∧
    (∀ fuel : Nat,
      (urlSends (exec (gmNext env) sched fuel (gmInit g objectIDs)).world.log).length ≤ objectIDs.length ∧
      (reports (exec (gmNext env) sched fuel (gmInit g objectIDs)).world.log).length ≤ objectIDs.length ∧
      (∀ (i : Nat) (w : GMWorker), (exec (gmNext env) sched fuel (gmInit g objectIDs)).workers[i]? = some w → w.pc.active = 1 →
        gmWorkerStep env (exec (gmNext env) sched fuel (gmInit g objectIDs)) i ≠ [])) ∧
    (∃ urls err, (GetManyRun env g objectIDs sched).main = GMMain.returned urls err) ∧
    (∀ fuel : Nat,
      (reports (exec (dmNext env) sched fuel (dmInit g objectIDs)).world.log).length ≤ objectIDs.length ∧
      (∀ (i : Nat) (w : DMWorker), (exec (dmNext env) sched fuel (dmInit g objectIDs)).workers[i]? = some w → w.pc.active = 1 →
        dmWorkerStep env (exec (dmNext env) sched fuel (dmInit g objectIDs)) i ≠ [])) ∧
    (∃ err, (DeleteManyRun env g objectIDs sched).main = DMMain.returned err) := by
  refine ⟨fun fuel => ?_, cm_returns env g data sched, fun fuel => ?_,
    gm_returns env g objectIDs sched, fun fuel => ?_, dm_returns env g objectIDs sched⟩
  · obtain ⟨hc, he, ho⟩ := cm_run_inv env g data sched fuel
    have hlen : (exec (cmNext env) sched fuel (cmInit g data)).workers.length = data.length := by
      have := congrArg List.length ho.keys_eq
      simpa using this
    refine ⟨?_, captured_le_one _ he.flags, ?_, ?_⟩
    · have h1 := cm_url_sends env g data sched fuel
      have h2 := hc.capacity
      omega
    · intro i w hw hact
      exact cm_unit_enabled env _ hc i w hw hact
    · intro i w err hw hpc hfull
      have hn : ¬ (exec (cmNext env) sched fuel (cmInit g data)).errCh.length < cmErrCap := by omega
      simp only [cmWorkerStep, hw, hpc, hn, if_false]
  · obtain ⟨hc, he⟩ := gm_run_inv env g objectIDs sched fuel
    have hlen : (exec (gmNext env) sched fuel (gmInit g objectIDs)).workers.length = objectIDs.length := by
      have := congrArg List.length he.keys_eq
      simpa using this
    have h2 := hc.capacity
    have h3 := congrArg List.length he.sent
    have h4 := congrArg List.length he.collected
    simp only [List.length_append, List.length_map] at h3 h4
    simp only [goLen] at h2
    refine ⟨by omega, by omega, ?_⟩
    intro i w hw hact
    exact gm_unit_enabled env _ hc i w hw hact
  · obtain ⟨hc, he⟩ := dm_run_inv env g objectIDs sched fuel
    have hlen := dm_workers_length env g objectIDs sched fuel
    have h2 := hc.capacity
    have h4 := congrArg List.length he.collected
    simp only [List.length_append, List.length_map] at h4
    simp only [goLen] at h2
    refine ⟨by omega, ?_⟩
    intro i w hw hact
    exact dm_unit_enabled env _ hc i w hw hact

set_option maxRecDepth 1000000 in
/-- C12 at a concrete run: with the uploads of "A" and "B" both failing, after eight steps
the unit of "B" holds its failure while the single slot is taken by the failure of "A"; its
only action is to finish with the failure dropped. -/
theorem C12_units_never_block_witness :
    (exec (cmNext (stubEnv stubLink [("A", "boom"), ("B", "bang")] 24)) firstSched 8 (cmInit 0 threeFiles)).workers[1]? = some { objectID := "B", file := { FileName := "B", Data := [2] }, pc := CMPc.atErrSelect "bang" } ∧
    cmErrCap ≤ (exec (cmNext (stubEnv stubLink [("A", "boom"), ("B", "bang")] 24)) firstSched 8 (cmInit 0 threeFiles)).errCh.length ∧
    cmWorkerStep (stubEnv stubLink [("A", "boom"), ("B", "bang")] 24) (exec (cmNext (stubEnv stubLink [("A", "boom"), ("B", "bang")] 24)) firstSched 8 (cmInit 0 threeFiles)) 1
      = [cmFinish (cmLog (exec (cmNext (stubEnv stubLink [("A", "boom"), ("B", "bang")] 24)) firstSched 8 (cmInit 0 threeFiles)) (Event.errReported "B" "bang" false)) 1 { objectID := "B", file := { FileName := "B", Data := [2] }, pc := CMPc.atErrSelect "bang" }] :=
  ⟨by decide, by decide,
    ((C12_units_never_block (stubEnv stubLink [("A", "boom"), ("B", "bang")] 24) 0 threeFiles [] firstSched).1 8).2.2.2 1 { objectID := "B", file := { FileName := "B", Data := [2] }, pc := CMPc.atErrSelect "bang" } "bang"
      (by decide) rfl (by decide)⟩

/-- The window of `CreateOne` and `CreateMany` for an expiration between 1 and 2562047
hours: positive, that many hours, the product within the 64-bit range. -/
theorem createExpiry_in_range (cfg : Config) (h1 : 0 < cfg.FileTimeExpiration)
    (h2 : cfg.FileTimeExpiration ≤ 2562047) :
    createExpiry cfg = cfg.FileTimeExpiration * timeHour ∧ 0 < createExpiry cfg ∧
      timeHour * cfg.FileTimeExpiration < 9223372036854775808 := by
  have e : createExpiry cfg = cfg.FileTimeExpiration * timeHour := by
    unfold createExpiry timeHour wrap64
    omega
  refine ⟨e, ?_, ?_⟩
  · rw [e]; unfold timeHour; omega
  · unfold timeHour; omega

set_option maxRecDepth 1000000 in
/-- C13, the code at the failing input: with `FILE_TIME_EXPIRATION` unset, empty or not an
integer, `LoadConfig` sets `FileTimeExpiration` to 1440000000000 (`int(time.Second*60*24)`);
the product with `time.Hour` is 5184000000000000000000000, beyond the 64-bit range, and
the window `CreateOne` and `CreateMany` pass to the presign call is the wrapped value
3746685773257113600 ns, which is not `FileTimeExpiration` hours. -/
theorem C13_default_expiration_wraps :
    (LoadConfig (environOf []) atoiDecimal parseBoolText).FileTimeExpiration
      = 1440000000000 ∧
    (LoadConfig (environOf [("FILE_TIME_EXPIRATION", "")]) atoiDecimal
      parseBoolText).FileTimeExpiration = 1440000000000 ∧
    (LoadConfig (environOf [("FILE_TIME_EXPIRATION", "one day")]) atoiDecimal
      parseBoolText).FileTimeExpiration = 1440000000000 ∧
    timeHour * 1440000000000 = 5184000000000000000000000 ∧
    (2 : Int) ^ 63 ≤ timeHour * 1440000000000 ∧
    presignExpiries (CreateOne (stubEnvOf (LoadConfig (environOf []) atoiDecimal parseBoolText)
      []) (World.init 0) { FileName := "hello.txt", Data := [104, 101, 108, 108, 111] }).1.log
      = [3746685773257113600] ∧
    presignExpiries (CreateManyRun (stubEnvOf (LoadConfig (environOf []) atoiDecimal
      parseBoolText) []) 0 [("hello.txt", { FileName := "hello.txt", Data := [104, 101] })]
      firstSched).world.log = [3746685773257113600] ∧
    (3746685773257113600 : Int) ≠ 1440000000000 * timeHour := by
  refine ⟨by decide, by decide, by decide, by decide, by decide, by decide, by decide,
    by decide⟩

theorem okPuts_append (l m : List Event) : okPuts (l ++ m) = okPuts l ++ okPuts m := by
  simp [okPuts, List.filterMap_append]

/-- While no gateway call has failed, the objects stored are counted by the units that are
past their `PutObject` call. -/
theorem cm_stored_step {σ : Type} (env : Env σ) (s s' : CMState σ) (hc : CMCtl s)
    (h : anyFailed s.world.log = false →
      (okPuts s.world.log).length = (s.workers.map (fun w => w.pc.stored)).sum)
    (hstep : CMStep env s s') :
    anyFailed s'.world.log = false →
      (okPuts s'.world.log).length = (s'.workers.map (fun w => w.pc.stored)).sum := by
  cases hstep with
  | spawn k w hm hw =>
    have hpc : w.pc = CMPc.notStarted := by
      rw [hc.spawned k w hw]; simp [cmSpawned, hm]
    intro hok
    have hx := cm_sum_set CMPc.stored s.workers k w CMPc.atPut hw
    rw [hpc] at hx
    have h1 : CMPc.notStarted.stored = 0 := rfl
    have h2 : CMPc.atPut.stored = 0 := rfl
    have := h hok
    simp only at this ⊢
    omega
  | spawnEnd k hm hw => exact h
  | collectEnd hm hu hcl => exact h
  | closeUrl hcl hwg => exact h
  | closeErr hcl => exact h
  | collect u rest hm hu => exact h
  | recvErr err rest hm he' =>
    intro hok
    simp only [cmLog, anyFailed_append, Event.failed, Bool.or_false] at hok
    have := h hok
    simpa [cmLog, okPuts_append, okPuts] using this
  | recvNil hm he' hcl =>
    intro hok
    simp only [cmLog, anyFailed_append, Event.failed, Bool.or_false] at hok
    have := h hok
    simpa [cmLog, okPuts_append, okPuts] using this
  | putFail i w err hw hpc hr =>
    intro hok
    have hlog : (callPut env s.world Ctx.batch s.cancelled w.objectID w.file.Data).1.log
        = s.world.log ++ [Event.putObject Ctx.batch s.cancelled w.objectID (some err)] := by
      rw [← hr]; rfl
    simp only [hlog, anyFailed_append, Event.failed, Bool.or_true] at hok
    exact absurd hok (by simp)
  | presignFail i w err hw hpc hr =>
    intro hok
    have hlog : (callPresign env s.world Ctx.batch s.cancelled w.objectID
        (createExpiry env.cfg)).1.log
        = s.world.log ++ [Event.presignedGetObject Ctx.batch s.cancelled w.objectID
            (createExpiry env.cfg) (Presigned.fail err)] := by
      rw [← hr]; rfl
    simp only [hlog, anyFailed_append, Event.failed, Bool.or_true] at hok
    exact absurd hok (by simp)
  | putOk i w hw hpc hr =>
    intro hok
    have hlog : (callPut env s.world Ctx.batch s.cancelled w.objectID w.file.Data).1.log
        = s.world.log ++ [Event.putObject Ctx.batch s.cancelled w.objectID none] := by
      rw [← hr]; rfl
    simp only [hlog, anyFailed_append, Event.failed, Bool.or_false] at hok
    have hx := cm_sum_set CMPc.stored s.workers i w CMPc.atPresign hw
    rw [hpc] at hx
    have h1 : CMPc.atPresign.stored = 1 := rfl
    have h2 : CMPc.atPut.stored = 0 := rfl
    have := h hok
    simp only [hlog, okPuts_append]
    have h3 : okPuts [Event.putObject Ctx.batch s.cancelled w.objectID none]
        = [w.objectID] := rfl
    rw [h3, List.length_append, List.length_singleton]
    omega
  | presignOk i w u hw hpc hr =>
    intro hok
    have hlog : (callPresign env s.world Ctx.batch s.cancelled w.objectID
        (createExpiry env.cfg)).1.log
        = s.world.log ++ [Event.presignedGetObject Ctx.batch s.cancelled w.objectID
            (createExpiry env.cfg) (Presigned.url u)] := by
      rw [← hr]; rfl
    simp only [hlog, anyFailed_append, Event.failed, Bool.or_false] at hok
    have hx := cm_sum_set CMPc.stored s.workers i w (CMPc.atUrlSelect u) hw
    rw [hpc] at hx
    have h1 : CMPc.atPresign.stored = 1 := rfl
    have h2 : (CMPc.atUrlSelect u).stored = 1 := rfl
    have := h hok
    simp only [hlog, okPuts_append]
    have h3 : okPuts [Event.presignedGetObject Ctx.batch s.cancelled w.objectID
        (createExpiry env.cfg) (Presigned.url u)] = [] := rfl
    rw [h3, List.append_nil]
    omega
  | errCapture i w err hw hpc hroom =>
    intro hok
    simp only [cmLog, anyFailed_append, Event.failed, Bool.or_false] at hok
    have hx := cm_sum_set CMPc.stored s.workers i w CMPc.atCancel hw
    rw [hpc] at hx
    have h1 : (CMPc.atErrSelect err).stored = 1 := rfl
    have h2 : CMPc.atCancel.stored = 1 := rfl
    have := h hok
    simp only [cmLog, okPuts_append]
    have h3 : okPuts [Event.errReported w.objectID err true] = [] := rfl
    rw [h3, List.append_nil]
    omega
  | errDrop i w err hw hpc hfull =>
    intro hok
    simp only [cmFinish, cmLog, anyFailed_append, Event.failed, Bool.or_false] at hok
    have hx := cm_sum_set CMPc.stored s.workers i w CMPc.finished hw
    rw [hpc] at hx
    have h1 : (CMPc.atErrSelect err).stored = 1 := rfl
    have h2 : CMPc.finished.stored = 1 := rfl
    have := h hok
    simp only [cmFinish, cmLog, okPuts_append]
    have h3 : okPuts [Event.errReported w.objectID err false] = [] := rfl
    have h4 : okPuts [Event.unitDone w.objectID] = [] := rfl
    rw [h3, h4, List.append_nil, List.append_nil]
    omega
  | cancel i w hw hpc =>
    intro hok
    simp only [cmFinish, cmLog, anyFailed_append, Event.failed, Bool.or_false] at hok
    have hx := cm_sum_set CMPc.stored s.workers i w CMPc.finished hw
    rw [hpc] at hx
    have h1 : CMPc.atCancel.stored = 1 := rfl
    have h2 : CMPc.finished.stored = 1 := rfl
    have := h hok
    simp only [cmFinish, cmLog, okPuts_append]
    have h3 : okPuts [Event.cancel] = [] := rfl
    have h4 : okPuts [Event.unitDone w.objectID] = [] := rfl
    rw [h3, h4, List.append_nil, List.append_nil]
    omega
  | urlSend i w u hw hpc hroom =>
    intro hok
    simp only [cmFinish, cmLog, anyFailed_append, Event.failed, Bool.or_false] at hok
    have hx := cm_sum_set CMPc.stored s.workers i w CMPc.finished hw
    rw [hpc] at hx
    have h1 : (CMPc.atUrlSelect u).stored = 1 := rfl
    have h2 : CMPc.finished.stored = 1 := rfl
    have := h hok
    simp only [cmFinish, cmLog, okPuts_append]
    have h3 : okPuts [Event.urlReported w.objectID u true] = [] := rfl
    have h4 : okPuts [Event.unitDone w.objectID] = [] := rfl
    rw [h3, h4, List.append_nil, List.append_nil]
    omega
  | urlDrop i w u hw hpc hdone =>
    intro hok
    simp only [cmFinish, cmLog, anyFailed_append, Event.failed, Bool.or_false] at hok
    have hx := cm_sum_set CMPc.stored s.workers i w CMPc.finished hw
    rw [hpc] at hx
    have h1 : (CMPc.atUrlSelect u).stored = 1 := rfl
    have h2 : CMPc.finished.stored = 1 := rfl
    have := h hok
    simp only [cmFinish, cmLog, okPuts_append]
    have h3 : okPuts [Event.urlReported w.objectID u false] = [] := rfl
    have h4 : okPuts [Event.unitDone w.objectID] = [] := rfl
    rw [h3, h4, List.append_nil, List.append_nil]
    omega

theorem cm_stored {σ : Type} (env : Env σ) (g : σ) (data : List (String × FileDataType))
    (sched : Nat → Nat) (fuel : Nat) :
    anyFailed (exec (cmNext env) sched fuel (cmInit g data)).world.log = false →
      (okPuts (exec (cmNext env) sched fuel (cmInit g data)).world.log).length
        = ((exec (cmNext env) sched fuel (cmInit g data)).workers.map
            (fun w => w.pc.stored)).sum := by
  have h := exec_invariant (cmNext env)
    (fun s => CMCtl s ∧ (anyFailed s.world.log = false →
      (okPuts s.world.log).length = (s.workers.map (fun w => w.pc.stored)).sum))
    (fun s s' hs hmem =>
      ⟨cmCtl_step env s s' hs.1 (cmNext_step env s s' hmem),
        cm_stored_step env s s' hs.1 hs.2 (cmNext_step env s s' hmem)⟩)
    fuel sched (cmInit g data)
    ⟨cmCtl_init g data, by
      intro _
      simp [cmInit, World.init, okPuts, Function.comp_def, CMPc.stored]⟩
  exact h.2

theorem sum_map_const_one {α : Type} (l : List α) (f : α → Nat) (h : ∀ x ∈ l, f x = 1) :
    (l.map f).sum = l.length := by
  induction l with
  | nil => rfl
  | cons a t ih =>
    simp only [List.map_cons, List.sum_cons, List.length_cons]
    rw [h a (List.mem_cons_self a t), ih (fun x hx => h x (List.mem_cons_of_mem a hx))]
    omega

/-- What `CreateMany` returns, with the number of objects returned and stored. -/
theorem cm_result_count {σ : Type} (env : Env σ) (g : σ) (data : List (String × FileDataType))
    (sched : Nat → Nat) :
    ∃ objs err, CreateMany env g data sched = some (objs, err) ∧
      (anyFailed (CreateManyRun env g data sched).world.log = true → objs = none) ∧
      (anyFailed (CreateManyRun env g data sched).world.log = false →
        ∃ l, objs = some l ∧ err = none ∧ l.length = data.length ∧
          (okPuts (CreateManyRun env g data sched).world.log).length = data.length) := by
  obtain ⟨objs, err, hm⟩ := cm_returns env g data sched
  obtain ⟨hc, he, ho⟩ := cm_run_inv env g data sched (cmFuel data.length)
  refine ⟨objs, err, by unfold CreateMany CMState.result; rw [hm], ?_, ?_⟩
  · intro hf
    obtain ⟨k, e, rest, -, h1, -⟩ := cm_failed_outcome _ hc he objs err hm hf
    exact h1
  · intro hf
    obtain ⟨h1, h2, h3, h4⟩ := cm_ok_outcome env _ _ hc he ho objs err hm hf
    have l1 := h3.length_eq
    have l2 := h4.length_eq
    simp only [List.length_map] at l1 l2
    refine ⟨_, h1, h2, l1.trans l2, ?_⟩
    have hs := cm_stored env g data sched (cmFuel data.length) hf
    have hdone := cm_returned_done _ hc objs err hm
    have hlen : (exec (cmNext env) sched (cmFuel data.length) (cmInit g data)).workers.length
        = data.length := by
      have := congrArg List.length ho.keys_eq
      simpa using this
    unfold CreateManyRun
    rw [hs, sum_map_const_one _ _ (fun w hw => by rw [hdone w hw]; rfl), hlen]

theorem mapSet_keys_mem (m : List (String × FileDataType)) (k : String) (v : FileDataType)
    (k' : String) :
    k' ∈ (mapSet m k v).map Prod.fst ↔ k' = k ∨ k' ∈ m.map Prod.fst := by
  induction m with
  | nil => simp [mapSet]
  | cons p t ih =>
    obtain ⟨k1, v1⟩ := p
    simp only [mapSet]
    split
    · rename_i hk
      subst hk
      simp
    · simp only [List.map_cons, List.mem_cons, ih]
      tauto

theorem mapSet_nodup (m : List (String × FileDataType)) (k : String) (v : FileDataType)
    (h : (m.map Prod.fst).Nodup) : ((mapSet m k v).map Prod.fst).Nodup := by
  induction m with
  | nil => simp [mapSet]
  | cons p t ih =>
    obtain ⟨k1, v1⟩ := p
    simp only [List.map_cons, List.nodup_cons] at h
    simp only [mapSet]
    split
    · rename_i hk
      subst hk
      simpa using h
    · rename_i hk
      simp only [List.map_cons, List.nodup_cons]
      refine ⟨?_, ih h.2⟩
      rw [mapSet_keys_mem]
      intro hx
      rcases hx with hx | hx
      · exact hk hx
      · exact h.1 hx

theorem beq_false_of_ne_string (a b : String) (h : ¬ a = b) : (a == b) = false := by
  simpa using h

theorem mapSet_lookup (m : List (String × FileDataType)) (k : String) (v : FileDataType)
    (k' : String) :
    (mapSet m k v).lookup k' = if k' = k then some v else m.lookup k' := by
  induction m with
  | nil =>
    by_cases hk : k' = k
    · simp [mapSet, List.lookup, hk]
    · simp [mapSet, List.lookup, hk, beq_false_of_ne_string k' k hk]
  | cons p t ih =>
    obtain ⟨k1, v1⟩ := p
    simp only [mapSet]
    by_cases h1 : k1 = k
    · subst h1
      by_cases hk : k' = k1
      · simp [List.lookup, hk]
      · simp [List.lookup, hk, beq_false_of_ne_string k' k1 hk]
    · by_cases hk : k' = k
      · subst hk
        have h2 : ¬ k' = k1 := fun e => h1 e.symm
        simp [List.lookup, h1, h2, ih, beq_false_of_ne_string k' k1 h2]
      · by_cases h3 : k' = k1
        · simp [List.lookup, h1, h3]
        · simp [List.lookup, h1, hk, h3, ih, beq_false_of_ne_string k' k1 h3]

theorem lookup_eq_some_iff_mem (l : List (String × FileDataType)) (k : String)
    (v : FileDataType) (hn : (l.map Prod.fst).Nodup) :
    l.lookup k = some v ↔ (k, v) ∈ l := by
  induction l with
  | nil => simp [List.lookup]
  | cons p t ih =>
    obtain ⟨k1, v1⟩ := p
    simp only [List.map_cons, List.nodup_cons] at hn
    by_cases hk : k = k1
    · subst hk
      have hnot : (k, v) ∉ t := fun hm => hn.1 (List.mem_map_of_mem Prod.fst hm)
      simp [List.lookup, hnot]
      exact eq_comm
    · have : (k == k1) = false := by simpa using hk
      simp [List.lookup, this, hk, ih hn.2]

/-- The map that the loop over the uploaded parts fills: its keys are distinct, they are the
file names met and the keys it was entered with, and each name holds the bytes of the last
part with that name. -/
theorem collectFiles_batch (files : List FileHeader) :
    ∀ (acc data : List (String × FileDataType)), collectFiles files acc = Collected.batch data →
      (acc.map Prod.fst).Nodup →
      (data.map Prod.fst).Nodup ∧
      (∀ k, k ∈ data.map Prod.fst ↔ k ∈ files.map (fun f => f.Filename) ∨ k ∈ acc.map Prod.fst) ∧
      (∀ k, data.lookup k =
        match files.reverse.find? (fun f => decide (f.Filename = k)) with
        | some f =>
          (match f.content with
            | Upload.bytes b => some { FileName := f.Filename, Data := b }
            | _ => none)
        | none => acc.lookup k) := by
  induction files with
  | nil =>
    intro acc data h hn
    simp only [collectFiles, Collected.batch.injEq] at h
    subst h
    simp [hn]
  | cons file rest ih =>
    intro acc data h hn
    cases hc : file.content with
    | openError err => simp [collectFiles, hc] at h
    | readError err => simp [collectFiles, hc] at h
    | bytes b =>
      simp only [collectFiles, hc] at h
      obtain ⟨h1, h2, h3⟩ := ih _ data h (mapSet_nodup acc _ _ hn)
      refine ⟨h1, ?_, ?_⟩
      · intro k
        rw [h2 k, mapSet_keys_mem]
        simp only [List.map_cons, List.mem_cons]
        tauto
      · intro k
        rw [h3 k, List.reverse_cons, List.find?_append]
        cases hf : List.find? (fun f => decide (f.Filename = k)) rest.reverse with
        | some f => simp
        | none =>
          simp only [Option.none_or, mapSet_lookup]
          by_cases hk : k = file.Filename
          · subst hk
            simp [List.find?, hc]
          · have hk' : ¬ file.Filename = k := fun e => hk e.symm
            simp [List.find?, hk, hk']

theorem dedup_length_eq_iff (l : List String) : l.dedup.length = l.length ↔ l.Nodup := by
  constructor
  · intro h
    exact List.dedup_eq_self.mp ((List.dedup_sublist l).eq_of_length h)
  · intro h
    rw [List.dedup_eq_self.mpr h]

/-- C14: when the `CreateMany` handler has read every uploaded part, the map `data` it
hands to the service has one entry per distinct file name, holding the bytes of the last
part uploaded under that name; it has as many entries as there are parts exactly when the
file names are pairwise distinct. Whatever the order in which the service visits the map
and whatever the scheduler, the service returns; the number of objects it returns equals
the number of parts only if the file names are pairwise distinct; and in a run in which
no gateway call failed, the objects stored and the objects returned (which the handler
answers with status 200) both number the entries of `data`. -/
theorem C14_one_item_per_distinct_filename {σ : Type} (env : Env σ) (g : σ) (form : Form)
    (files : List FileHeader) (data : List (String × FileDataType))
    (rangeOrder : List (String × FileDataType) → List (String × FileDataType))
    (sched : Nat → Nat)
    (hform : form.File.lookup "files" = some files)
    (hdata : collectFiles files [] = Collected.batch data)
    (horder : List.Perm (rangeOrder data) data) :
    (data.map Prod.fst).Nodup ∧
    (∀ k, k ∈ data.map Prod.fst ↔ k ∈ files.map (fun f => f.Filename)) ∧
    (∀ k v, (k, v) ∈ data ↔
      ∃ f b, files.reverse.find? (fun f => decide (f.Filename = k)) = some f ∧
        f.content = Upload.bytes b ∧ v = { FileName := k, Data := b }) ∧
    data.length = (files.map (fun f => f.Filename)).dedup.length ∧
    (data.length = files.length ↔ (files.map (fun f => f.Filename)).Nodup) ∧
    ∃ objs err, CreateMany env g (rangeOrder data) sched = some (objs, err) ∧
      (goLen objs = files.length → (files.map (fun f => f.Filename)).Nodup) ∧
      (anyFailed (CreateManyRun env g (rangeOrder data) sched).world.log = false →
        ∃ l, objs = some l ∧ l.length = data.length ∧
          (okPuts (CreateManyRun env g (rangeOrder data) sched).world.log).length
            = data.length ∧
          Handler.CreateMany env g form none rangeOrder sched
            = some (Response.success
                { Status := StatusOK, Message := "Files uploaded successfully"
                  Data := some l })) := by
  obtain ⟨h1, h2, h3⟩ := collectFiles_batch files [] data hdata (by simp)
  have hkeys : ∀ k, k ∈ data.map Prod.fst ↔ k ∈ files.map (fun f => f.Filename) := by
    intro k
    rw [h2 k]
    simp
  have hlen : data.length = (files.map (fun f => f.Filename)).dedup.length := by
    have hp : List.Perm (data.map Prod.fst) (files.map (fun f => f.Filename)).dedup :=
      (List.perm_ext_iff_of_nodup h1 (List.nodup_dedup _)).mpr
        (fun k => by rw [hkeys k, List.mem_dedup])
    have := hp.length_eq
    simpa using this
  have hiff : data.length = files.length ↔ (files.map (fun f => f.Filename)).Nodup := by
    rw [hlen, ← dedup_length_eq_iff]
    simp
  have hol : (rangeOrder data).length = data.length := horder.length_eq
  refine ⟨h1, hkeys, ?_, hlen, hiff, ?_⟩
  · intro k v
    rw [← lookup_eq_some_iff_mem data k v h1, h3 k]
    cases hf : List.find? (fun f => decide (f.Filename = k)) files.reverse with
    | none => simp [List.lookup]
    | some f =>
      have hname : f.Filename = k := by
        have := List.find?_some hf
        simpa using this
      cases hc : f.content with
      | openError e => simp [hc]
      | readError e => simp [hc]
      | bytes b =>
        simp only [hc, Option.some.injEq, hname]
        constructor
        · intro hv
          exact ⟨f, b, rfl, hc, hv.symm⟩
        · rintro ⟨f', b', hf', hc', hv⟩
          subst hf'
          rw [hc] at hc'
          simp only [Upload.bytes.injEq] at hc'
          subst hc'
          exact hv.symm
  · obtain ⟨objs, err, hres, hfail, hok⟩ := cm_result_count env g (rangeOrder data) sched
    refine ⟨objs, err, hres, ?_, ?_⟩
    · intro hcount
      cases hf : anyFailed (CreateManyRun env g (rangeOrder data) sched).world.log with
      | true =>
        rw [hfail hf] at hcount
        have hnil : files = [] := List.length_eq_zero.mp hcount.symm
        rw [hnil]
        exact List.nodup_nil
      | false =>
        obtain ⟨l, hl, -, hlen', -⟩ := hok hf
        rw [hl] at hcount
        simp only [goLen, Option.getD_some] at hcount
        exact hiff.mp (by omega)
    · intro hf
      obtain ⟨l, hl, herr, hlen', hput⟩ := hok hf
      refine ⟨l, hl, by omega, by omega, ?_⟩
      subst hl herr
      simp only [Handler.CreateMany, hform, hdata, hres]

set_option maxRecDepth 1000000 in
/-- Witness of C14: three parts of which the first and the last are both named "a.txt".
The map holds two entries, "a.txt" with the bytes of the last part; two objects are stored
and returned for the three parts. -/
theorem C14_one_item_per_distinct_filename_witness :
    collectFiles repeatedUpload [] = Collected.batch
      [("a.txt", { FileName := "a.txt", Data := [3] }),
        ("b.txt", { FileName := "b.txt", Data := [2] })] ∧
    anyFailed (CreateManyRun (stubEnv stubLink [] 24) 0
      (List.reverse [("a.txt", { FileName := "a.txt", Data := [3] }),
        ("b.txt", { FileName := "b.txt", Data := [2] })]) firstSched).world.log = false ∧
    ¬ (repeatedUpload.map (fun f => f.Filename)).Nodup ∧
    ∃ objs err, CreateMany (stubEnv stubLink [] 24) 0
        (List.reverse [("a.txt", { FileName := "a.txt", Data := [3] }),
          ("b.txt", { FileName := "b.txt", Data := [2] })]) firstSched = some (objs, err) ∧
      ∃ l, objs = some l ∧ l.length = 2 ∧
        Handler.CreateMany (stubEnv stubLink [] 24) 0 { File := [("files", repeatedUpload)] }
          none List.reverse firstSched
          = some (Response.success
              { Status := StatusOK, Message := "Files uploaded successfully"
                Data := some l }) :=
  have h := C14_one_item_per_distinct_filename (stubEnv stubLink [] 24) 0
    { File := [("files", repeatedUpload)] } repeatedUpload
    [("a.txt", { FileName := "a.txt", Data := [3] }),
      ("b.txt", { FileName := "b.txt", Data := [2] })]
    List.reverse firstSched (by decide) (by decide) (List.reverse_perm _)
  ⟨by decide, by decide, by decide,
    h.2.2.2.2.2.imp (fun _ hx => hx.imp (fun _ hy =>
      ⟨hy.1, (hy.2.2 (by decide)).imp (fun _ hz => ⟨hz.1, hz.2.1, hz.2.2.2⟩)⟩))⟩

/-- C15: `getEnvAsInt` returns the parsed value when the variable is set to a non-empty
string that `strconv.Atoi` accepts, and the default when the variable is unset, set to
the empty string, or set to a string that `strconv.Atoi` rejects; being a total function
it always returns. -/
theorem C15_getEnvAsInt (environ : String → Option String) (Atoi : String → Option Int)
    (key : String) (d : Int) :
    (∀ s n, environ key = some s → s ≠ "" → Atoi s = some n →
      getEnvAsInt environ Atoi key d = n) ∧
    (environ key = none → getEnvAsInt environ Atoi key d = d) ∧
    (environ key = some "" → getEnvAsInt environ Atoi key d = d) ∧
    (∀ s, environ key = some s → Atoi s = none → getEnvAsInt environ Atoi key d = d) := by
  refine ⟨?_, ?_, ?_, ?_⟩
  · intro s n hs hne hn
    simp [getEnvAsInt, getEnv, hs, hne, hn]
  · intro hs
    simp [getEnvAsInt, getEnv, hs]
  · intro hs
    simp [getEnvAsInt, getEnv, hs]
  · intro s hs hn
    simp only [getEnvAsInt, getEnv, hs, hn]
    split <;> rfl

set_option maxRecDepth 1000000 in
/-- Witness of C15: the variable set to `"48"`, unset, empty, and set to `"2 days"`. -/
theorem C15_getEnvAsInt_witness :
    getEnvAsInt (environOf [("FILE_TIME_EXPIRATION", "48")]) atoiDecimal
      "FILE_TIME_EXPIRATION" 7 = 48 ∧
    getEnvAsInt (environOf []) atoiDecimal "FILE_TIME_EXPIRATION" 7 = 7 ∧
    getEnvAsInt (environOf [("FILE_TIME_EXPIRATION", "")]) atoiDecimal
      "FILE_TIME_EXPIRATION" 7 = 7 ∧
    getEnvAsInt (environOf [("FILE_TIME_EXPIRATION", "2 days")]) atoiDecimal
      "FILE_TIME_EXPIRATION" 7 = 7 :=
  ⟨(C15_getEnvAsInt (environOf [("FILE_TIME_EXPIRATION", "48")]) atoiDecimal
      "FILE_TIME_EXPIRATION" 7).1 "48" 48 (by decide) (by decide) (by decide),
    (C15_getEnvAsInt (environOf []) atoiDecimal "FILE_TIME_EXPIRATION" 7).2.1 (by decide),
    (C15_getEnvAsInt (environOf [("FILE_TIME_EXPIRATION", "")]) atoiDecimal
      "FILE_TIME_EXPIRATION" 7).2.2.1 (by decide),
    (C15_getEnvAsInt (environOf [("FILE_TIME_EXPIRATION", "2 days")]) atoiDecimal
      "FILE_TIME_EXPIRATION" 7).2.2.2 "2 days" (by decide) (by decide)⟩

end MinioCrud
